import Mathlib

/-!
# iCE40 bitstream writer (`ice40/bitstream.cc`)

A shallow embedding of `write_asc` and its helpers (`tile_at`, `find_config`,
`get_ieren`, `set_config`), followed by the properties proved about them.

The record types of `chip.h` are not among the sources at hand: each structure
below has the fields that `bitstream.cc` reads, a counted array being a list (or
a function of the index when the code reads it unchecked).

Conventions of the embedding:

* signed machine integers used as coordinates (`int8_t`, `int`) are `Int`;
  sizes and loop counters are `Nat`;
* `std::vector::at` is `vecAt`, which fails outside `0 .. size-1`;
* a failed `assert` and an uncaught exception both abort the encode; they are
  the constructors of `Err`;
* the output stream `out` is the list of the lines written to it, each line
  being what precedes one `std::endl`;
* the configuration grid is `config[y][x][row][col]`; its cells only ever
  receive `bool` values, so a cell is a `Bool`.
-/

namespace Ice40

/-! ## Device description -/

/-- Modelled from the spec: the tile types of `chip.h` (absent from the sources
at hand); the spec names the four labelled tile types and the "absent" one. -/
inductive TileType
  | TILE_NONE
  | TILE_LOGIC
  | TILE_IO
  | TILE_RAMB
  | TILE_RAMT
  deriving DecidableEq, Repr

/-- Modelled from the spec: the device families of `ChipArgs` (`chip.h` is
absent from the sources at hand).  `NONE` stands for a family tag that is none
of the six supported ones, the `default:` branch of the device switch. -/
inductive ChipType
  | NONE
  | LP384
  | LP1K
  | LP8K
  | HX1K
  | HX8K
  | UP5K
  deriving DecidableEq, Repr

/-- Modelled from the spec: the bel types of `chip.h`; only `TYPE_SB_IO` is
tested by the encoder. -/
inductive BelType
  | TYPE_NONE
  | TYPE_ICESTORM_LC
  | TYPE_SB_IO
  | TYPE_SB_GB
  deriving DecidableEq, Repr

/-- Modelled from the spec: the two input-data pins of an I/O bel. -/
inductive PortPin
  | PIN_D_IN_0
  | PIN_D_IN_1
  deriving DecidableEq, Repr

/-- The fatal conditions that abort the encode. -/
inductive Err
  /-- `assert(false)` of `find_config`: option name absent from the layout. -/
  | configLayout
  /-- `assert(false)` of the routing loop: the bit is already set. -/
  | bitCollision
  /-- `assert(iez != -1)`: no enable register for the I/O pin. -/
  | missingIeren
  /-- `assert(false)` of the cell dispatch: unknown cell type. -/
  | unsupportedCell
  /-- `assert(false)` of the device switch: unknown family. -/
  | unsupportedDevice
  /-- `std::out_of_range` of `vector::at` (or an index past a bit list). -/
  | outOfRange
  /-- `std::stoi` threw on a parameter value. -/
  | badParam
  deriving DecidableEq, Repr

/-- One bit position `(row, col)` of a tile matrix. -/
structure ConfigBitPOD where
  row : Int
  col : Int
  deriving DecidableEq, Repr

/-- A named option with its ordered bit positions (`num_bits = bits.length`). -/
structure ConfigEntryPOD where
  name : String
  bits : List ConfigBitPOD
  deriving DecidableEq, Repr

/-- Layout of one tile type (`num_config_entries = entries.length`). -/
structure TileInfoPOD where
  cols : Nat
  rows : Nat
  entries : List ConfigEntryPOD
  deriving DecidableEq, Repr

/-- Layout of one switch (`num_bits = cbits.length`). -/
structure SwitchInfoPOD where
  x : Int
  y : Int
  cbits : List ConfigBitPOD
  deriving DecidableEq, Repr

/-- One row of the I/O-enable-register table. -/
structure IerenInfoPOD where
  iox : Int
  ioy : Int
  ioz : Int
  ierx : Int
  iery : Int
  ierz : Int
  deriving DecidableEq, Repr

/-- Bitstream part of the device description (`num_ierens = ierens.length`). -/
structure BitstreamInfoPOD where
  switches : Nat → SwitchInfoPOD
  ierens : List IerenInfoPOD
  tiles_nonrouting : TileType → TileInfoPOD

/-- One routing edge of the device. -/
structure PipInfoPOD where
  switch_mask : Int
  switch_index : Nat
  deriving DecidableEq, Repr

/-- One placeable resource of the device. -/
structure BelInfoPOD where
  type : BelType
  x : Int
  y : Int
  z : Int
  deriving DecidableEq, Repr

/-- The immutable device database. -/
structure ChipInfoPOD where
  width : Nat
  height : Nat
  num_bels : Nat
  num_pips : Nat
  bel_data : Nat → BelInfoPOD
  pip_data : Nat → PipInfoPOD
  tile_grid : Nat → TileType
  bits_info : BitstreamInfoPOD

/-- The chip: database, family, and the bindings made by place and route.
An `IdString` is a `String`; the default `IdString()` is the empty string. -/
structure Chip where
  args_type : ChipType
  chip_info : ChipInfoPOD
  pip_to_net : Nat → String
  wire_to_net : Nat → String
  bel_to_cell : Nat → String
  getWireBelPin : Nat → PortPin → Nat

/-- A cell of the design; `bel = none` is the null `BelId()`. -/
structure CellInfo where
  type : String
  params : List (String × String)
  bel : Option Nat
  deriving DecidableEq, Repr

/-- The placed design; `cells` lists the map in iteration order. -/
structure Design where
  chip : Chip
  cells : List (String × CellInfo)

/-- One tile matrix, `[row][col]`. -/
abbrev TileCfg := List (List Bool)

/-- The whole grid, `[y][x][row][col]`. -/
abbrev Config := List (List TileCfg)

/-! ## Helpers of the embedding -/

/-- Bounds-checked access, as `std::vector::at` with a signed index converted
to `size_t`. -/
def vecAt {α : Type} (l : List α) (i : Int) : Option α :=
  if i < 0 then none else l[i.toNat]?

/-- Element `(i, j)` of a vector of vectors, when it exists. -/
def get2 {α : Type} (g : List (List α)) (i j : Int) : Option α :=
  match vecAt g i with
  | none => none
  | some r => vecAt r j

/-- Bit `(y, x, row, col)` of the grid, when it exists. -/
def getBit (config : Config) (y x row col : Int) : Option Bool :=
  match get2 config y x with
  | none => none
  | some t => get2 t row col

/-- The sizes of the rows of a tile matrix. -/
def tileDims (t : TileCfg) : List Nat := t.map List.length

/-- The sizes of all the vectors of the grid. -/
def gridDims (config : Config) : List (List (List Nat)) :=
  config.map fun r => r.map tileDims

/-- A loop whose body may abort. -/
def foldExcept {σ α : Type} (f : σ → α → Except Err σ) : σ → List α → Except Err σ
  | s, [] => .ok s
  | s, a :: as =>
    match f s a with
    | .error e => .error e
    | .ok s1 => foldExcept f s1 as

/-- The value of `params[key]`: a missing key yields the empty string. -/
def paramOf (params : List (String × String)) (key : String) : String :=
  match params.find? (fun p => p.1 == key) with
  | some p => p.2
  | none => ""

/-- The `isspace` test of the C locale. -/
def isSpaceC (c : Char) : Bool :=
  c == ' ' || c == '\t' || c == '\n' || c == '\x0b' || c == '\x0c' || c == '\r'

/-- Value of a run of decimal digits. -/
def digitsValue (ds : List Char) : Nat :=
  ds.foldl (fun a c => 10 * a + (c.toNat - 48)) 0

/-- `std::stoi` in base 10: leading white space, an optional sign, then at
least one digit; trailing characters are ignored; a value outside `int` throws. -/
def stoi (s : String) : Except Err Int :=
  let cs := s.toList.dropWhile isSpaceC
  let neg := cs.head? == some '-'
  let rest := if cs.head? == some '-' || cs.head? == some '+' then cs.tail else cs
  let ds := rest.takeWhile Char.isDigit
  if ds.isEmpty then .error .badParam
  else
    let v : Int := if neg then - (digitsValue ds : Int) else (digitsValue ds : Int)
    if v < -2147483648 ∨ 2147483647 < v then .error .badParam else .ok v

/-- Conversion of an `int` to `unsigned`. -/
def toUnsigned (v : Int) : Nat := (v % 4294967296).toNat

/-- Conversion of an `int` to `bool`. -/
def toBool (v : Int) : Bool := v != 0

/-! ## `tile_at`, `find_config`, `get_ieren`, `set_config` -/

/-- Tile type at `(x, y)`. -/
def tile_at (chip : Chip) (x y : Nat) : TileType :=
  chip.chip_info.tile_grid (y * chip.chip_info.width + x)

/-- First entry of the layout with the given name; aborts when there is none. -/
def find_config (tile : TileInfoPOD) (name : String) : Except Err ConfigEntryPOD :=
  match tile.entries.find? (fun e => e.name == name) with
  | some e => .ok e
  | none => .error .configLayout

/-- Enable-register coordinate of pin `(x, y, z)`, or `(-1, -1, -1)`. -/
def get_ieren (bi : BitstreamInfoPOD) (x y z : Int) : Int × Int × Int :=
  match bi.ierens.find? (fun ie => ie.iox == x && ie.ioy == y && ie.ioz == z) with
  | some ie => (ie.ierx, ie.iery, ie.ierz)
  | none => (-1, -1, -1)

/-- The assignment `tile_cfg.at(row).at(col) = value`. -/
def setBit (tile_cfg : TileCfg) (bit : ConfigBitPOD) (value : Bool) : Except Err TileCfg :=
  match vecAt tile_cfg bit.row with
  | none => .error .outOfRange
  | some r =>
    match vecAt r bit.col with
    | none => .error .outOfRange
    | some _ => .ok (tile_cfg.set bit.row.toNat (r.set bit.col.toNat value))

/-- Writes `value` to the option `name` of a tile: to all its bits when
`index = -1`, to the bit number `index` otherwise.  An `index` past the bit
list reads outside the array in the source; the embedding aborts there. -/
def set_config (ti : TileInfoPOD) (tile_cfg : TileCfg) (name : String) (value : Bool)
    (index : Int) : Except Err TileCfg :=
  match find_config ti name with
  | .error e => .error e
  | .ok cfg =>
    if index = -1 then
      foldExcept (fun tc b => setBit tc b value) tile_cfg cfg.bits
    else
      match vecAt cfg.bits index with
      | none => .error .outOfRange
      | some b => setBit tile_cfg b value

/-- Runs `f` on the tile `config.at(y).at(x)` and stores the result there. -/
def withTile (config : Config) (y x : Int) (f : TileCfg → Except Err TileCfg) :
    Except Err Config :=
  match vecAt config y with
  | none => .error .outOfRange
  | some r =>
    match vecAt r x with
    | none => .error .outOfRange
    | some t =>
      match f t with
      | .error e => .error e
      | .ok t1 => .ok (config.set y.toNat (r.set x.toNat t1))

/-! ## Grid allocation and device line -/

/-- The zero grid: one `rows × cols` matrix per tile, sized by its type. -/
def initConfig (chip : Chip) : Config :=
  (List.range chip.chip_info.height).map fun y =>
    (List.range chip.chip_info.width).map fun x =>
      let ti := chip.chip_info.bits_info.tiles_nonrouting (tile_at chip x y)
      List.replicate ti.rows (List.replicate ti.cols false)

/-- The `.device` line of a family; `none` is the aborting `default:` branch. -/
def deviceLine : ChipType → Option String
  | .LP384 => some ".device 384"
  | .HX1K => some ".device 1k"
  | .LP1K => some ".device 1k"
  | .HX8K => some ".device 8k"
  | .LP8K => some ".device 8k"
  | .UP5K => some ".device 5k"
  | .NONE => none

/-- The family test `type == LP1K || type == HX1K`. -/
def is1k (t : ChipType) : Bool := t == .LP1K || t == .HX1K

/-! ## Routing encoder -/

/-- The select bit `(pi.switch_mask & (1 << ((swi.num_bits - 1) - i))) != 0`.
The shift does not overflow an `int` as long as `num_bits ≤ 31`. -/
def pipVal (switch_mask : Int) (num_bits i : Nat) : Bool :=
  Int.land switch_mask ((1 : Int) <<< ((((num_bits - 1) - i : Nat)) : Int)) != 0

/-- One iteration of the bit loop of a routing edge, inside the switch's tile:
the bit must not be set already, then it receives `val`. -/
def pipSetBit (t : TileCfg) (bit : ConfigBitPOD) (val : Bool) : Except Err TileCfg :=
  match vecAt t bit.row with
  | none => .error .outOfRange
  | some l =>
    match vecAt l bit.col with
    | none => .error .outOfRange
    | some cbit =>
      if cbit then .error .bitCollision
      else .ok (t.set bit.row.toNat (l.set bit.col.toNat val))

/-- The bit loop of a routing edge, from iteration `i` on; `bs` are the
positions `swi.cbits[i], swi.cbits[i+1], ...` still to be written. -/
def setPipBits (swi : SwitchInfoPOD) (switch_mask : Int) :
    Config → Nat → List ConfigBitPOD → Except Err Config
  | config, _, [] => .ok config
  | config, i, b :: bs =>
    match withTile config swi.y swi.x
        (fun t => pipSetBit t b (pipVal switch_mask swi.cbits.length i)) with
    | .error e => .error e
    | .ok c1 => setPipBits swi switch_mask c1 (i + 1) bs

/-- The body of the loop over `chip.getPips()`. -/
def setPip (chip : Chip) (config : Config) (pip : Nat) : Except Err Config :=
  if chip.pip_to_net pip != "" then
    let swi := chip.chip_info.bits_info.switches (chip.chip_info.pip_data pip).switch_index
    setPipBits swi (chip.chip_info.pip_data pip).switch_mask config 0 swi.cbits
  else .ok config

/-- The loop "Set pips". -/
def setPips (chip : Chip) (config : Config) : Except Err Config :=
  foldExcept (setPip chip) config (List.range chip.chip_info.num_pips)

/-! ## Cell encoders -/

/-- The truth-table permutation (from arachne-pnr). -/
def lut_perm : List Nat := [4, 14, 15, 5, 6, 16, 17, 7, 3, 13, 12, 2, 1, 11, 10, 0]

/-- The 20-position vector `lc` of a logic cell. -/
def lcVector (lut_init : Nat) (carry_enable dff_enable set_noreset async_sr : Bool) :
    List Bool :=
  let lc := (List.range 16).foldl
    (fun lc i => if (lut_init >>> i) &&& 1 ≠ 0 then lc.set (lut_perm.getD i 0) true else lc)
    (List.replicate 20 false)
  (((lc.set 8 carry_enable).set 9 dff_enable).set 18 set_noreset).set 19 async_sr

/-- One iteration of the truth-table loop of `lcVector`. -/
def lutStep (lut_init : Nat) (lc : List Bool) (i : Nat) : List Bool :=
  if (lut_init >>> i) &&& 1 ≠ 0 then lc.set (lut_perm.getD i 0) true else lc

/-- The parsed parameters of a logic cell. -/
structure LCParams where
  lut_init : Nat
  neg_clk : Bool
  dff_enable : Bool
  async_sr : Bool
  set_noreset : Bool
  carry_enable : Bool
  deriving DecidableEq, Repr

/-- The six `std::stoi` calls of the `ICESTORM_LC` branch, in source order. -/
def lcParams (cell : CellInfo) : Except Err LCParams :=
  match stoi (paramOf cell.params "LUT_INIT") with
  | .error e => .error e
  | .ok lut_init =>
  match stoi (paramOf cell.params "NEG_CLK") with
  | .error e => .error e
  | .ok neg_clk =>
  match stoi (paramOf cell.params "DFF_ENABLE") with
  | .error e => .error e
  | .ok dff_enable =>
  match stoi (paramOf cell.params "ASYNC_SR") with
  | .error e => .error e
  | .ok async_sr =>
  match stoi (paramOf cell.params "SET_NORESET") with
  | .error e => .error e
  | .ok set_noreset =>
  match stoi (paramOf cell.params "CARRY_ENABLE") with
  | .error e => .error e
  | .ok carry_enable =>
    .ok ⟨toUnsigned lut_init, toBool neg_clk, toBool dff_enable, toBool async_sr,
      toBool set_noreset, toBool carry_enable⟩

/-- The loop `for i in 0..19: set_config(ti, config.at(y).at(x), "LC_<z>", lc.at(i), i)`. -/
def setLCBits (ti : TileInfoPOD) (config : Config) (x y z : Int) (lc : List Bool) :
    Except Err Config :=
  foldExcept
    (fun c i => withTile c y x
      (fun t => set_config ti t ("LC_" ++ toString z) (lc.getD i false) (i : Int)))
    config (List.range 20)

/-- The `ICESTORM_LC` branch. -/
def setLCCell (chip : Chip) (config : Config) (cell : CellInfo) (x y z : Int) :
    Except Err Config :=
  let ti := chip.chip_info.bits_info.tiles_nonrouting .TILE_LOGIC
  match lcParams cell with
  | .error e => .error e
  | .ok p =>
    match setLCBits ti config x y z
        (lcVector p.lut_init p.carry_enable p.dff_enable p.set_noreset p.async_sr) with
    | .error e => .error e
    | .ok c1 => withTile c1 y x (fun t => set_config ti t "NegClk" p.neg_clk (-1))

/-- The parsed parameters of an I/O cell. -/
structure IOParams where
  pin_type : Nat
  neg_trigger : Bool
  pullup : Bool
  deriving DecidableEq, Repr

/-- The three `std::stoi` calls of the `SB_IO` branch, in source order. -/
def ioParams (cell : CellInfo) : Except Err IOParams :=
  match stoi (paramOf cell.params "PIN_TYPE") with
  | .error e => .error e
  | .ok pin_type =>
  match stoi (paramOf cell.params "NEG_TRIGGER") with
  | .error e => .error e
  | .ok neg_trigger =>
  match stoi (paramOf cell.params "PULLUP") with
  | .error e => .error e
  | .ok pullup => .ok ⟨toUnsigned pin_type, toBool neg_trigger, toBool pullup⟩

/-- The loop writing the six pin-type options of an I/O cell. -/
def setPinType (ti : TileInfoPOD) (config : Config) (x y z : Int) (pin_type : Nat) :
    Except Err Config :=
  foldExcept
    (fun c i => withTile c y x
      (fun t => set_config ti t ("IOB_" ++ toString z ++ ".PINTYPE_" ++ toString i)
        ((pin_type >>> i) &&& 1 != 0) (-1)))
    config (List.range 6)

/-- The derived input enable of the I/O bel `bel`. -/
def inputEn (chip : Chip) (bel : Nat) : Bool :=
  chip.wire_to_net (chip.getWireBelPin bel .PIN_D_IN_0) != "" ||
    chip.wire_to_net (chip.getWireBelPin bel .PIN_D_IN_1) != ""

/-- The two writes to the enable register `(iex, iey, iez)`. -/
def setIeren (ti : TileInfoPOD) (config : Config) (iex iey iez : Int) (ie ren : Bool) :
    Except Err Config :=
  match withTile config iey iex
      (fun t => set_config ti t ("IoCtrl.IE_" ++ toString iez) ie (-1)) with
  | .error e => .error e
  | .ok c1 =>
    withTile c1 iey iex (fun t => set_config ti t ("IoCtrl.REN_" ++ toString iez) ren (-1))

/-- The `SB_IO` branch. -/
def setIOCell (chip : Chip) (config : Config) (cell : CellInfo) (bel : Nat) (x y z : Int) :
    Except Err Config :=
  let ti := chip.chip_info.bits_info.tiles_nonrouting TileType.TILE_IO
  match ioParams cell with
  | .error e => .error e
  | .ok p =>
    match setPinType ti config x y z p.pin_type with
    | .error e => .error e
    | .ok c1 =>
      let ieren := get_ieren chip.chip_info.bits_info x y z
      if ieren.2.2 = -1 then .error .missingIeren
      else if is1k chip.args_type then
        setIeren ti c1 ieren.1 ieren.2.1 ieren.2.2 (!inputEn chip bel) (!p.pullup)
      else
        setIeren ti c1 ieren.1 ieren.2.1 ieren.2.2 (inputEn chip bel) (!p.pullup)

/-- The dispatch on the type of a placed cell. -/
def setCell (chip : Chip) (config : Config) (cell : CellInfo) (bel : Nat) :
    Except Err Config :=
  let beli := chip.chip_info.bel_data bel
  if cell.type = "ICESTORM_LC" then setLCCell chip config cell beli.x beli.y beli.z
  else if cell.type = "SB_IO" then setIOCell chip config cell bel beli.x beli.y beli.z
  else if cell.type = "SB_GB" then .ok config
  else .error .unsupportedCell

/-- The line printed on `std::cout` for an unplaced cell. -/
def unplacedWarning (name : String) : String :=
  "Found unplaced cell " ++ name ++ " while generating bitstream!"

/-- The loop "Set logic cell config": the lines printed on `std::cout` and the
grid, or the abort. -/
def setCells (chip : Chip) : Config → List (String × CellInfo) → List String × Except Err Config
  | config, [] => ([], .ok config)
  | config, cell :: cells =>
    match cell.2.bel with
    | none =>
      let r := setCells chip config cells
      (unplacedWarning cell.1 :: r.1, r.2)
    | some bel =>
      match setCell chip config cell.2 bel with
      | .error e => ([], .error e)
      | .ok c1 => setCells chip c1 cells

/-! ## Default pass -/

/-- The body of the loop "Set config bits in unused IO". -/
def setUnusedIOBel (chip : Chip) (config : Config) (bel : Nat) : Except Err Config :=
  if chip.bel_to_cell bel == "" && (chip.chip_info.bel_data bel).type == BelType.TYPE_SB_IO then
    let ti := chip.chip_info.bits_info.tiles_nonrouting TileType.TILE_IO
    let beli := chip.chip_info.bel_data bel
    let ieren := get_ieren chip.chip_info.bits_info beli.x beli.y beli.z
    if ieren.2.2 ≠ -1 then
      if is1k chip.args_type then setIeren ti config ieren.1 ieren.2.1 ieren.2.2 true false
      else .ok config
    else .ok config
  else .ok config

/-- The loop "Set config bits in unused IO". -/
def setUnusedIOBels (chip : Chip) (config : Config) : Except Err Config :=
  foldExcept (setUnusedIOBel chip) config (List.range chip.chip_info.num_bels)

/-- The flag `setColBufCtrl` computed for a tile of type `tile` in row `y`. -/
def setColBufCtrl (type : ChipType) (tile : TileType) (y : Nat) : Bool :=
  if type = .LP1K ∨ type = .HX1K then
    if tile = .TILE_RAMB ∨ tile = .TILE_RAMT then y == 3 || y == 5 || y == 11 || y == 13
    else y == 4 || y == 5 || y == 12 || y == 13
  else if type = .LP8K ∨ type = .HX8K then y == 8 || y == 9 || y == 24 || y == 25
  else if type = .UP5K then
    if tile = .TILE_LOGIC then y == 4 || y == 5 || y == 14 || y == 15 || y == 26 || y == 27
    else false
  else true

/-- The eight option names written when `setColBufCtrl` holds. -/
def colBufCtrlNames : List String :=
  ["ColBufCtrl.glb_netwk_0", "ColBufCtrl.glb_netwk_1", "ColBufCtrl.glb_netwk_2",
   "ColBufCtrl.glb_netwk_3", "ColBufCtrl.glb_netwk_4", "ColBufCtrl.glb_netwk_5",
   "ColBufCtrl.glb_netwk_6", "ColBufCtrl.glb_netwk_7"]

/-- The body of the loops "Set other config bits" at tile `(x, y)`. -/
def setOtherTile (chip : Chip) (y : Nat) (config : Config) (x : Nat) : Except Err Config :=
  let tile := tile_at chip x y
  let ti := chip.chip_info.bits_info.tiles_nonrouting tile
  match (if tile = .TILE_RAMB ∧ (chip.args_type = .LP1K ∨ chip.args_type = .HX1K) then
      withTile config y x (fun t => set_config ti t "RamConfig.PowerUp" true (-1))
    else .ok config) with
  | .error e => .error e
  | .ok c1 =>
    if setColBufCtrl chip.args_type tile y then
      foldExcept (fun c name => withTile c y x (fun t => set_config ti t name true (-1)))
        c1 colBufCtrlNames
    else .ok c1

/-- The loops "Set other config bits". -/
def setOtherBits (chip : Chip) (config : Config) : Except Err Config :=
  foldExcept
    (fun c y => foldExcept (setOtherTile chip y) c (List.range chip.chip_info.width))
    config (List.range chip.chip_info.height)

/-- The Default/Fixup pass: unused I/O, then the other config bits. -/
def defaultPass (chip : Chip) (config : Config) : Except Err Config :=
  match setUnusedIOBels chip config with
  | .error e => .error e
  | .ok c1 => setOtherBits chip c1

/-! ## Serializer -/

/-- A loop that writes lines and may abort: the lines written, and the abort. -/
def emitLoop {α : Type} (f : α → List String × Option Err) : List α → List String × Option Err
  | [] => ([], none)
  | a :: as =>
    match f a with
    | (ls, some e) => (ls, some e)
    | (ls, none) => (ls ++ (emitLoop f as).1, (emitLoop f as).2)

/-- The label of a tile type; `none` for `TILE_NONE`, which is skipped. -/
def tileLabel : TileType → Option String
  | .TILE_NONE => none
  | .TILE_LOGIC => some ".logic_tile"
  | TileType.TILE_IO => some ".io_tile"
  | .TILE_RAMB => some ".ramb_tile"
  | .TILE_RAMT => some ".ramt_tile"

/-- The character written for one grid cell. -/
def bitChar (b : Bool) : Char := if b then '1' else '0'

/-- The text line of one matrix row. -/
def rowLine (row : List Bool) : String := String.mk (row.map bitChar)

/-- The header line of tile `(x, y)`. -/
def headerLine (label : String) (x y : Nat) : String :=
  label ++ " " ++ toString x ++ " " ++ toString y

/-- The body of the loops "Write config out" at tile `(x, y)`. -/
def writeTile (chip : Chip) (config : Config) (y x : Nat) : List String × Option Err :=
  match tileLabel (tile_at chip x y) with
  | none => ([], none)
  | some label =>
    match vecAt config y with
    | none => ([headerLine label x y], some .outOfRange)
    | some r =>
      match vecAt r x with
      | none => ([headerLine label x y], some .outOfRange)
      | some t => (headerLine label x y :: (t.map rowLine ++ [""]), none)

/-- The loops "Write config out". -/
def writeConfig (chip : Chip) (config : Config) : List String × Option Err :=
  emitLoop
    (fun y => emitLoop (writeTile chip config y) (List.range chip.chip_info.width))
    (List.range chip.chip_info.height)

/-! ## `write_asc` -/

/-- The routing and cell phases, from the zero grid. -/
def routeAndCells (design : Design) : List String × Except Err Config :=
  match setPips design.chip (initConfig design.chip) with
  | .error e => ([], .error e)
  | .ok c1 => setCells design.chip c1 design.cells

/-- The grid handed to the serializer: routing, cells, then defaults. -/
def encodeConfig (design : Design) : List String × Except Err Config :=
  match routeAndCells design with
  | (w, .error e) => (w, .error e)
  | (w, .ok c2) => (w, defaultPass design.chip c2)

/-- What a run of `write_asc` leaves behind. -/
structure Output where
  /-- The lines written to the stream `out`. -/
  out : List String
  /-- The lines written to `std::cout`. -/
  cout : List String
  /-- The abort, if the run did not return. -/
  err : Option Err
  deriving DecidableEq, Repr

/-- The encoder. -/
def write_asc (design : Design) : Output :=
  match deviceLine design.chip.args_type with
  | none => ⟨[".comment from next-pnr"], [], some .unsupportedDevice⟩
  | some dev =>
    match encodeConfig design with
    | (w, .error e) => ⟨[".comment from next-pnr", dev], w, some e⟩
    | (w, .ok config) =>
      ⟨[".comment from next-pnr", dev] ++ (writeConfig design.chip config).1, w,
        (writeConfig design.chip config).2⟩

/-- The text of a list of lines, each ended by a newline. -/
def textOf (lines : List String) : String :=
  String.join (lines.map fun l => l ++ "\n")

/-! ## The reference rendering of a grid

These definitions follow the words of the specification, not the code: they are
what the output of a successful encode is compared with. -/

/-- The device label of a family (none is specified for `NONE`). -/
def specDeviceLine : ChipType → String
  | .LP384 => ".device 384"
  | .HX1K => ".device 1k"
  | .LP1K => ".device 1k"
  | .HX8K => ".device 8k"
  | .LP8K => ".device 8k"
  | .UP5K => ".device 5k"
  | .NONE => ""

/-- The label of a tile type (none is specified for the absent type). -/
def specTileLabel : TileType → String
  | .TILE_LOGIC => ".logic_tile"
  | TileType.TILE_IO => ".io_tile"
  | .TILE_RAMB => ".ramb_tile"
  | .TILE_RAMT => ".ramt_tile"
  | .TILE_NONE => ""

/-- The header line of tile `(x, y)`: label, a space, `x`, a space, `y`. -/
def specHeader (chip : Chip) (x y : Nat) : String :=
  specTileLabel (tile_at chip x y) ++ " " ++ toString x ++ " " ++ toString y

/-- The block of tile `(x, y)`: its header line, then `rows` lines of `cols`
characters, `'1'` where the grid bit is set and `'0'` elsewhere, then an empty
line; `rows` and `cols` are those declared for the tile's type. -/
def specTileBlock (chip : Chip) (config : Config) (x y : Nat) : List String :=
  specHeader chip x y ::
    ((List.range (chip.chip_info.bits_info.tiles_nonrouting (tile_at chip x y)).rows).map
      fun (r : Nat) => String.mk
        ((List.range (chip.chip_info.bits_info.tiles_nonrouting (tile_at chip x y)).cols).map
          fun (c : Nat) => if getBit config y x r c = some true then '1' else '0'))
    ++ [""]

/-- The coordinates `(x, y)` of the tiles that are not absent, `y` outer and
`x` inner. -/
def presentTiles (chip : Chip) : List (Nat × Nat) :=
  (List.range chip.chip_info.height).flatMap fun y =>
    ((List.range chip.chip_info.width).filter
      fun x => decide (tile_at chip x y ≠ .TILE_NONE)).map fun x => (x, y)

/-- The reference rendering: the comment line, the device line, then the block
of every tile that is not absent, in row-major order. -/
def referenceRendering (chip : Chip) (config : Config) : List String :=
  ".comment from next-pnr" :: specDeviceLine chip.args_type ::
    (presentTiles chip).flatMap fun xy => specTileBlock chip config xy.1 xy.2

/-- A line that starts with a dot: the comment line, the device line and the
tile header lines, but no line of a bit matrix and no empty line. -/
def isDotLine (l : String) : Bool := l.toList.head? == some '.'

/-- The tile header lines of an output: its dot lines after the first two lines. -/
def tileHeaders (out : List String) : List String := (out.drop 2).filter isDotLine

/-- A placed cell of a type the encoder does not know. -/
def ramDemoCell : CellInfo :=
  { type := "SB_RAM40_4K", params := [], bel := some 0 }

/-! ## Vocabulary of the properties -/

/-- Grid `c1` is grid `c` after a successful write of `v` to the positions
`bits` of tile `(x, y)`: same sizes, `v` at these positions, every other bit
as before. -/
def WritesTo (c c1 : Config) (y x : Int) (bits : List ConfigBitPOD) (v : Bool) : Prop :=
  gridDims c1 = gridDims c ∧
  (∀ b ∈ bits, (getBit c y x b.row b.col).isSome = true ∧
    getBit c1 y x b.row b.col = some v) ∧
  (∀ y1 x1 r col, ¬ (y1 = y ∧ x1 = x ∧ (ConfigBitPOD.mk r col) ∈ bits) →
    getBit c1 y1 x1 r col = getBit c y1 x1 r col)

/-- Grids `c` and `c1` have the same bits outside tile `(x, y)`, and the same
sizes everywhere. -/
def SameOutsideTile (c c1 : Config) (y x : Int) : Prop :=
  gridDims c1 = gridDims c ∧
  ∀ y1 x1 r col, ¬ (y1 = y ∧ x1 = x) → getBit c1 y1 x1 r col = getBit c y1 x1 r col

/-- The bit position `b` (when there is one) lies inside tile `(x, y)` of the grid. -/
def bitInRange (config : Config) (y x : Int) (b : Option ConfigBitPOD) : Bool :=
  match b with
  | none => false
  | some b => (getBit config y x b.row b.col).isSome

/-- A logic-tile layout whose option `LC_0` lists the 20 bits of row 0. -/
def lcDemoTile : TileInfoPOD :=
  { cols := 20, rows := 1,
    entries := [⟨"NegClk", []⟩,
      ⟨"LC_0", (List.range 20).map fun i => ⟨0, Int.ofNat i⟩⟩] }

/-- A grid of one tile with one row of 20 bits, all false. -/
def lcDemoConfig : Config := [[[List.replicate 20 false]]]

/-- An I/O-tile layout of 2 rows and 8 columns: the six pin-type options of
slot 0 in row 0, the enable-register options of slots 0 and 1 in row 1. -/
def ioDemoTile : TileInfoPOD :=
  { cols := 8, rows := 2,
    entries := [
      ⟨"IOB_0.PINTYPE_0", [⟨0, 0⟩]⟩, ⟨"IOB_0.PINTYPE_1", [⟨0, 1⟩]⟩,
      ⟨"IOB_0.PINTYPE_2", [⟨0, 2⟩]⟩, ⟨"IOB_0.PINTYPE_3", [⟨0, 3⟩]⟩,
      ⟨"IOB_0.PINTYPE_4", [⟨0, 4⟩]⟩, ⟨"IOB_0.PINTYPE_5", [⟨0, 5⟩]⟩,
      ⟨"IoCtrl.IE_0", [⟨1, 0⟩]⟩, ⟨"IoCtrl.REN_0", [⟨1, 1⟩]⟩,
      ⟨"IoCtrl.IE_1", [⟨1, 2⟩]⟩, ⟨"IoCtrl.REN_1", [⟨1, 3⟩]⟩] }

/-- A device of one I/O tile with one I/O bel at `(0, 0, 0)`, whose enable
register is `(0, 0, 1)`: slot 1 of the same tile.  The family and the nets of
the two input-data wires (wire 0 for `D_IN_0`, wire 1 for `D_IN_1`) are
parameters; no cell is bound to the bel when `bound` is the empty string. -/
def ioDemoChip (type : ChipType) (net0 net1 bound : String) : Chip :=
  { args_type := type,
    chip_info :=
      { width := 1, height := 1, num_bels := 1, num_pips := 0,
        bel_data := fun _ => ⟨BelType.TYPE_SB_IO, 0, 0, 0⟩,
        pip_data := fun _ => ⟨0, 0⟩,
        tile_grid := fun _ => TileType.TILE_IO,
        bits_info :=
          { switches := fun _ => ⟨0, 0, []⟩,
            ierens := [⟨0, 0, 0, 0, 0, 1⟩],
            tiles_nonrouting := fun _ => ioDemoTile } },
    pip_to_net := fun _ => "",
    wire_to_net := fun w => if w = 0 then net0 else net1,
    bel_to_cell := fun _ => bound,
    getWireBelPin := fun _ pin =>
      match pin with
      | .PIN_D_IN_0 => 0
      | .PIN_D_IN_1 => 1 }

/-- An I/O cell placed on bel 0: pin type `0b000001`, pull-up on. -/
def ioDemoCell : CellInfo :=
  { type := "SB_IO",
    params := [("PIN_TYPE", "1"), ("NEG_TRIGGER", "0"), ("PULLUP", "1")],
    bel := some 0 }

/-- The number read from a list of bits, most significant bit first. -/
def readBits (bs : List Bool) : Nat := bs.foldl (fun a b => 2 * a + b.toNat) 0

/-- A device of one logic tile (layout `lcDemoTile`) with one logic bel at
`(0, 0, 0)` and two routing edges: edge 0 drives the switch with bits
`(0, 0), (0, 1)`, edge 1 the switch with bits `(0, 1), (0, 2)`, so that the two
switches share the bit `(0, 1)`.  The select codes and the nets of the two
edges are parameters. -/
def pipDemoChip (type : ChipType) (mask0 mask1 : Int) (net0 net1 : String) : Chip :=
  { args_type := type,
    chip_info :=
      { width := 1, height := 1, num_bels := 1, num_pips := 2,
        bel_data := fun _ => ⟨BelType.TYPE_ICESTORM_LC, 0, 0, 0⟩,
        pip_data := fun p => if p = 0 then ⟨mask0, 0⟩ else ⟨mask1, 1⟩,
        tile_grid := fun _ => TileType.TILE_LOGIC,
        bits_info :=
          { switches := fun k =>
              if k = 0 then ⟨0, 0, [⟨0, 0⟩, ⟨0, 1⟩]⟩ else ⟨0, 0, [⟨0, 1⟩, ⟨0, 2⟩]⟩,
            ierens := [],
            tiles_nonrouting := fun _ => lcDemoTile } },
    pip_to_net := fun p => if p = 0 then net0 else net1,
    wire_to_net := fun _ => "",
    bel_to_cell := fun _ => "",
    getWireBelPin := fun _ _ => 0 }

/-- Grids `c` and `c1` have the same bit positions. -/
def SameDomain (c c1 : Config) : Prop :=
  ∀ y x r col, (getBit c1 y x r col).isSome = (getBit c y x r col).isSome

/-- Every bit that is true in `c` is true in `c1`. -/
def KeepsTrue (c c1 : Config) : Prop :=
  ∀ y x r col, getBit c y x r col = some true → getBit c1 y x r col = some true

/-- All the bit positions of the switch of routing edge `pip` lie inside the grid. -/
def pipInRange (chip : Chip) (c : Config) (pip : Nat) : Prop :=
  ∀ b ∈ (chip.chip_info.bits_info.switches (chip.chip_info.pip_data pip).switch_index).cbits,
    (getBit c
      (chip.chip_info.bits_info.switches (chip.chip_info.pip_data pip).switch_index).y
      (chip.chip_info.bits_info.switches (chip.chip_info.pip_data pip).switch_index).x
      b.row b.col).isSome = true

instance (chip : Chip) (c : Config) (pip : Nat) : Decidable (pipInRange chip c pip) := by
  unfold pipInRange
  infer_instance

/-- A logic cell placed on bel 0 with truth table 0 and all flags 0. -/
def lcZeroCell : CellInfo :=
  { type := "ICESTORM_LC",
    params := [("LUT_INIT", "0"), ("NEG_CLK", "0"), ("DFF_ENABLE", "0"), ("ASYNC_SR", "0"),
      ("SET_NORESET", "0"), ("CARRY_ENABLE", "0")],
    bel := some 0 }

/-- Every bit that is true in `c` is true in `c1`, the coordinates in `E` excepted. -/
def KeepsTrueExcept (E : Int → Int → Int → Int → Prop) (c c1 : Config) : Prop :=
  ∀ y x r col, getBit c y x r col = some true → getBit c1 y x r col = some true ∨ E y x r col

/-- Bit `(y, x, row, col)` is a bit of option `IoCtrl.REN_<iez>`, in the tile of
the enable register `(iex, iey, iez)` of an I/O bel that has no cell, on a
family LP1K or HX1K: the bits that the default pass writes to 0. -/
def unusedRenBit (chip : Chip) (y x r col : Int) : Prop :=
  is1k chip.args_type = true ∧
  ∃ bel, bel < chip.chip_info.num_bels ∧ chip.bel_to_cell bel = "" ∧
    (chip.chip_info.bel_data bel).type = BelType.TYPE_SB_IO ∧
    (get_ieren chip.chip_info.bits_info (chip.chip_info.bel_data bel).x
      (chip.chip_info.bel_data bel).y (chip.chip_info.bel_data bel).z).2.2 ≠ -1 ∧
    y = (get_ieren chip.chip_info.bits_info (chip.chip_info.bel_data bel).x
      (chip.chip_info.bel_data bel).y (chip.chip_info.bel_data bel).z).2.1 ∧
    x = (get_ieren chip.chip_info.bits_info (chip.chip_info.bel_data bel).x
      (chip.chip_info.bel_data bel).y (chip.chip_info.bel_data bel).z).1 ∧
    ∃ cfg, find_config (chip.chip_info.bits_info.tiles_nonrouting TileType.TILE_IO)
        ("IoCtrl.REN_" ++ toString (get_ieren chip.chip_info.bits_info
          (chip.chip_info.bel_data bel).x (chip.chip_info.bel_data bel).y
          (chip.chip_info.bel_data bel).z).2.2) = .ok cfg ∧
      (ConfigBitPOD.mk r col) ∈ cfg.bits

/-- The device `ioDemoChip` of family LP1K with no cell on its I/O bel, and with
one routing edge, bound to a net, whose switch has the single bit `(1, 3)` of
tile `(0, 0)` (the bit of `IoCtrl.REN_1`) and whose select code is 1. -/
def ioPipDemoChip : Chip :=
  { args_type := .LP1K,
    chip_info :=
      { width := 1, height := 1, num_bels := 1, num_pips := 1,
        bel_data := fun _ => ⟨BelType.TYPE_SB_IO, 0, 0, 0⟩,
        pip_data := fun _ => ⟨1, 0⟩,
        tile_grid := fun _ => TileType.TILE_IO,
        bits_info :=
          { switches := fun _ => ⟨0, 0, [⟨1, 3⟩]⟩,
            ierens := [⟨0, 0, 0, 0, 0, 1⟩],
            tiles_nonrouting := fun _ => ioDemoTile } },
    pip_to_net := fun _ => "n",
    wire_to_net := fun _ => "",
    bel_to_cell := fun _ => "",
    getWireBelPin := fun _ _ => 0 }

/-- The tile as `set_config` leaves it when the loop over `bits` returns or
aborts: the writes made before an abort stay. -/
def setBitsState (value : Bool) : TileCfg → List ConfigBitPOD → TileCfg × Option Err
  | t, [] => (t, none)
  | t, b :: bs =>
    match setBit t b value with
    | .error e => (t, some e)
    | .ok t1 => setBitsState value t1 bs

/-- The function `set_config` once more, keeping the state of the tile at the
moment the call returns (`none`) or aborts (`some e`). -/
def set_config_state (ti : TileInfoPOD) (tile_cfg : TileCfg) (name : String) (value : Bool)
    (index : Int) : TileCfg × Option Err :=
  match find_config ti name with
  | .error e => (tile_cfg, some e)
  | .ok cfg =>
    if index = -1 then setBitsState value tile_cfg cfg.bits
    else
      match vecAt cfg.bits index with
      | none => (tile_cfg, some .outOfRange)
      | some b =>
        match setBit tile_cfg b value with
        | .error e => (tile_cfg, some e)
        | .ok t1 => (t1, none)

/-- The result of a call from its final state: the tile when it returned, the
error when it aborted. -/
def resultOfState (s : TileCfg × Option Err) : Except Err TileCfg :=
  match s.2 with
  | none => .ok s.1
  | some e => .error e

/-- A cell of unknown type without a physical location. -/
def unplacedDemoCell : CellInfo :=
  { type := "SB_RAM40_4K", params := [("LUT_INIT", "x")], bel := none }

/-- A global-buffer cell placed on bel 0. -/
def gbDemoCell : CellInfo :=
  { type := "SB_GB", params := [], bel := some 0 }

/-- The first statement of the body of "Set other config bits": the write of
`RamConfig.PowerUp`. -/
def setPowerUpTile (chip : Chip) (y : Nat) (config : Config) (x : Nat) : Except Err Config :=
  if tile_at chip x y = .TILE_RAMB ∧ (chip.args_type = .LP1K ∨ chip.args_type = .HX1K) then
    withTile config y x (fun t =>
      set_config (chip.chip_info.bits_info.tiles_nonrouting (tile_at chip x y)) t
        "RamConfig.PowerUp" true (-1))
  else .ok config

/-- The second statement of the body of "Set other config bits": the eight
writes of `ColBufCtrl.glb_netwk_<k>`, made when `setColBufCtrl` holds. -/
def setColBufTile (chip : Chip) (y : Nat) (config : Config) (x : Nat) : Except Err Config :=
  if setColBufCtrl chip.args_type (tile_at chip x y) y then
    foldExcept (fun c name => withTile c y x (fun t =>
      set_config (chip.chip_info.bits_info.tiles_nonrouting (tile_at chip x y)) t name true (-1)))
      config colBufCtrlNames
  else .ok config

/-- All the bits of option `name` of the layout `ti` are true in tile `(x, y)`
of the grid, the option being in the layout. -/
def optionAllTrue (ti : TileInfoPOD) (name : String) (c : Config) (y x : Nat) : Prop :=
  ∃ cfg, find_config ti name = .ok cfg ∧
    ∀ b ∈ cfg.bits, getBit c (y : Int) (x : Int) b.row b.col = some true

/-- A storage-array layout of 1 row and 2 columns, whose option
`RamConfig.PowerUp` is bit `(0, 0)`. -/
def ramDemoTile : TileInfoPOD :=
  { cols := 2, rows := 1, entries := [⟨"RamConfig.PowerUp", [⟨0, 0⟩]⟩] }

/-- A device of one tile of type `tile` with layout `ramDemoTile`, without bels
and routing edges. -/
def ramDemoChip (type : ChipType) (tile : TileType) : Chip :=
  { args_type := type,
    chip_info :=
      { width := 1, height := 1, num_bels := 0, num_pips := 0,
        bel_data := fun _ => ⟨BelType.TYPE_NONE, 0, 0, 0⟩,
        pip_data := fun _ => ⟨0, 0⟩,
        tile_grid := fun _ => tile,
        bits_info :=
          { switches := fun _ => ⟨0, 0, []⟩,
            ierens := [],
            tiles_nonrouting := fun _ => ramDemoTile } },
    pip_to_net := fun _ => "",
    wire_to_net := fun _ => "",
    bel_to_cell := fun _ => "",
    getWireBelPin := fun _ _ => 0 }

/-- A logic-tile layout of 1 row and 8 columns with the eight options
`ColBufCtrl.glb_netwk_<k>`, one bit each. -/
def colBufDemoTile : TileInfoPOD :=
  { cols := 8, rows := 1,
    entries := [
      ⟨"ColBufCtrl.glb_netwk_0", [⟨0, 0⟩]⟩, ⟨"ColBufCtrl.glb_netwk_1", [⟨0, 1⟩]⟩,
      ⟨"ColBufCtrl.glb_netwk_2", [⟨0, 2⟩]⟩, ⟨"ColBufCtrl.glb_netwk_3", [⟨0, 3⟩]⟩,
      ⟨"ColBufCtrl.glb_netwk_4", [⟨0, 4⟩]⟩, ⟨"ColBufCtrl.glb_netwk_5", [⟨0, 5⟩]⟩,
      ⟨"ColBufCtrl.glb_netwk_6", [⟨0, 6⟩]⟩, ⟨"ColBufCtrl.glb_netwk_7", [⟨0, 7⟩]⟩] }

/-- A device of width 1 and of the given height, every tile of type `tile`
with layout `colBufDemoTile`, without bels and routing edges. -/
def colBufDemoChip (type : ChipType) (tile : TileType) (height : Nat) : Chip :=
  { args_type := type,
    chip_info :=
      { width := 1, height := height, num_bels := 0, num_pips := 0,
        bel_data := fun _ => ⟨BelType.TYPE_NONE, 0, 0, 0⟩,
        pip_data := fun _ => ⟨0, 0⟩,
        tile_grid := fun _ => tile,
        bits_info :=
          { switches := fun _ => ⟨0, 0, []⟩,
            ierens := [],
            tiles_nonrouting := fun _ => colBufDemoTile } },
    pip_to_net := fun _ => "",
    wire_to_net := fun _ => "",
    bel_to_cell := fun _ => "",
    getWireBelPin := fun _ _ => 0 }

/-- The truth table read back from a vector: bit `i` is position `lut_perm[i]`. -/
def lutOfVector (v : List Bool) : Nat :=
  ((List.range 16).map fun (i : Nat) => v.getD (lut_perm.getD i 0) false).foldr
    (fun b n => Nat.bit b n) 0

/-- Cells `a` and `b` are the same cell up to the value of the parameter
`NEG_TRIGGER` of a cell of type `SB_IO`, a valid integer in both. -/
def sameButNegTrigger (a b : CellInfo) : Prop :=
  a = b ∨
  (a.type = "SB_IO" ∧ b.type = "SB_IO" ∧ a.bel = b.bel ∧
    (∀ key, key ≠ "NEG_TRIGGER" → paramOf a.params key = paramOf b.params key) ∧
    (∃ va, stoi (paramOf a.params "NEG_TRIGGER") = .ok va) ∧
    (∃ vb, stoi (paramOf b.params "NEG_TRIGGER") = .ok vb))

/-- The cell lists of two designs that differ only in `NEG_TRIGGER` values of
`SB_IO` cells: same names, in the same order. -/
def negTriggerVariant (cells1 cells2 : List (String × CellInfo)) : Prop :=
  List.Forall₂ (fun a b => a.1 = b.1 ∧ sameButNegTrigger a.2 b.2) cells1 cells2

/-- The cell `ioDemoCell` with the negative-trigger flag set. -/
def ioDemoCellNeg : CellInfo :=
  { type := "SB_IO",
    params := [("PIN_TYPE", "1"), ("NEG_TRIGGER", "1"), ("PULLUP", "1")],
    bel := some 0 }

/-- A tile layout of `rows` rows and `cols` columns without any option. -/
def bareDemoTile (rows cols : Nat) : TileInfoPOD :=
  { cols := cols, rows := rows, entries := [] }

/-- A device of family UP5K, 3 tiles wide and 2 tiles high, without bels and
routing edges.  Row 0 holds a logic tile, an absent tile and an I/O tile; row 1
holds a RAMB tile, a RAMT tile and an absent tile.  The layouts have no option
(none is written on this family in rows 0 and 1). -/
def gridDemoChip : Chip :=
  { args_type := .UP5K,
    chip_info :=
      { width := 3, height := 2, num_bels := 0, num_pips := 0,
        bel_data := fun _ => ⟨BelType.TYPE_NONE, 0, 0, 0⟩,
        pip_data := fun _ => ⟨0, 0⟩,
        tile_grid := fun k =>
          if k = 0 then .TILE_LOGIC else if k = 2 then TileType.TILE_IO
          else if k = 3 then .TILE_RAMB else if k = 4 then .TILE_RAMT else .TILE_NONE,
        bits_info :=
          { switches := fun _ => ⟨0, 0, []⟩,
            ierens := [],
            tiles_nonrouting := fun t =>
              match t with
              | .TILE_NONE => bareDemoTile 0 0
              | .TILE_LOGIC => bareDemoTile 1 2
              | _ => bareDemoTile 1 1 } },
    pip_to_net := fun _ => "",
    wire_to_net := fun _ => "",
    bel_to_cell := fun _ => "",
    getWireBelPin := fun _ _ => 0 }

/-- A grid of `ioPipDemoChip` as a routing phase can leave it: bit `(0, 0)` and
bit `(1, 3)`, the bit of `IoCtrl.REN_1`, are set. -/
def ioSetDemoGrid : Config :=
  [[[[true, false, false, false, false, false, false, false],
     [false, false, false, true, false, false, false, false]]]]

/-- A grid of `colBufDemoChip` of height 1: bits `(0, 0)` and `(0, 7)` are set. -/
def colBufSetDemoGrid : Config :=
  [[[[true, false, false, false, false, false, false, true]]]]

/-- The device `ioDemoChip` with an empty enable-register table: the pin
`(0, 0, 0)` of its I/O bel has no register. -/
def ioBareDemoChip (type : ChipType) : Chip :=
  { args_type := type,
    chip_info :=
      { width := 1, height := 1, num_bels := 1, num_pips := 0,
        bel_data := fun _ => ⟨BelType.TYPE_SB_IO, 0, 0, 0⟩,
        pip_data := fun _ => ⟨0, 0⟩,
        tile_grid := fun _ => TileType.TILE_IO,
        bits_info :=
          { switches := fun _ => ⟨0, 0, []⟩,
            ierens := [],
            tiles_nonrouting := fun _ => ioDemoTile } },
    pip_to_net := fun _ => "",
    wire_to_net := fun _ => "",
    bel_to_cell := fun _ => "io",
    getWireBelPin := fun _ pin =>
      match pin with
      | .PIN_D_IN_0 => 0
      | .PIN_D_IN_1 => 1 }

/-- An I/O cell placed on bel 0 whose `PIN_TYPE` is not a number. -/
def ioBadDemoCell : CellInfo :=
  { type := "SB_IO",
    params := [("PIN_TYPE", "abc"), ("NEG_TRIGGER", "0"), ("PULLUP", "1")],
    bel := some 0 }

/-- A logic-tile layout of 2 rows and 20 columns: option `LC_0` lists the 20
bits of row 0 in order, option `NegClk` is bit `(1, 0)`. -/
def lcNegDemoTile : TileInfoPOD :=
  { cols := 20, rows := 2,
    entries := [⟨"NegClk", [⟨1, 0⟩]⟩,
      ⟨"LC_0", (List.range 20).map fun i => ⟨0, Int.ofNat i⟩⟩] }

/-- The layout `lcNegDemoTile` with one change: the listed bit number 8 of
`LC_0` (the carry-enable position) is `(0, 4)`, the coordinate that bit number 4
(the position of truth-table bit 0) lists too. -/
def lcDupDemoTile : TileInfoPOD :=
  { cols := 20, rows := 2,
    entries := [⟨"NegClk", [⟨1, 0⟩]⟩,
      ⟨"LC_0", (List.range 20).map fun i => ⟨0, if i = 8 then 4 else Int.ofNat i⟩⟩] }

/-- A device of family HX8K with one logic tile of layout `ti` and one logic bel
at `(0, 0, 0)`, without routing edges. -/
def lcDemoChip (ti : TileInfoPOD) : Chip :=
  { args_type := .HX8K,
    chip_info :=
      { width := 1, height := 1, num_bels := 1, num_pips := 0,
        bel_data := fun _ => ⟨BelType.TYPE_ICESTORM_LC, 0, 0, 0⟩,
        pip_data := fun _ => ⟨0, 0⟩,
        tile_grid := fun _ => TileType.TILE_LOGIC,
        bits_info :=
          { switches := fun _ => ⟨0, 0, []⟩,
            ierens := [],
            tiles_nonrouting := fun _ => ti } },
    pip_to_net := fun _ => "",
    wire_to_net := fun _ => "",
    bel_to_cell := fun _ => "lc",
    getWireBelPin := fun _ _ => 0 }

/-- A logic cell placed on bel 0 with truth table `0x0001` and all flags 0. -/
def lcOneDemoCell : CellInfo :=
  { type := "ICESTORM_LC",
    params := [("LUT_INIT", "1"), ("NEG_CLK", "0"), ("DFF_ENABLE", "0"), ("ASYNC_SR", "0"),
      ("SET_NORESET", "0"), ("CARRY_ENABLE", "0")],
    bel := some 0 }

/-- A logic cell placed on bel 0 with truth table `0x8001`, negative clock and
carry enable set, the three other flags 0. -/
def lcCarryDemoCell : CellInfo :=
  { type := "ICESTORM_LC",
    params := [("LUT_INIT", "32769"), ("NEG_CLK", "1"), ("DFF_ENABLE", "0"),
      ("ASYNC_SR", "0"), ("SET_NORESET", "0"), ("CARRY_ENABLE", "1")],
    bel := some 0 }

/-- The step `f` does not read the bits of its state.  On two states of the
same shape it aborts with the same error on both or returns on both; the two
results have the same shape, and each bit either holds the same value in both
results (it was written) or is in each result as it was in the state the step
started from (it was not written). -/
def Blind {σ ι κ : Type} (shape : σ → κ) (read : σ → ι → Option Bool)
    (f : σ → Except Err σ) : Prop :=
  ∀ s s2, shape s = shape s2 →
    (∀ e, f s = .error e → f s2 = .error e) ∧
    (∀ s1, f s = .ok s1 → ∃ s3, f s2 = .ok s3 ∧ shape s1 = shape s3 ∧
      ∀ k, read s1 k = read s3 k ∨ (read s1 k = read s k ∧ read s3 k = read s2 k))

/-- Bit `(row, col)` of a tile matrix. -/
def tileRead (t : TileCfg) (k : Int × Int) : Option Bool := get2 t k.1 k.2

/-- Bit `(y, x, row, col)` of the grid. -/
def gridRead (c : Config) (k : Int × Int × Int × Int) : Option Bool :=
  getBit c k.1 k.2.1 k.2.2.1 k.2.2.2

/-- A grid of `pipDemoChip` as a routing phase can leave it: bits `(0, 0)`,
`(0, 1)` and `(0, 4)` of the logic tile are set. -/
def lcSetDemoGrid : Config :=
  [[[[true, true, false, false, true, false, false, false, false, false,
      false, false, false, false, false, false, false, false, false, false]]]]

/-! # Properties -/

set_option maxRecDepth 4000

/-! ## Vectors and vectors of vectors -/

theorem vecAt_some_nonneg {α : Type} {l : List α} {i : Int} {a : α} (h : vecAt l i = some a) :
    0 ≤ i := by
  unfold vecAt at h
  by_contra hn
  rw [if_pos (by omega)] at h
  cases h

theorem vecAt_some_getElem? {α : Type} {l : List α} {i : Int} {a : α} (h : vecAt l i = some a) :
    l[i.toNat]? = some a := by
  have h0 := vecAt_some_nonneg h
  unfold vecAt at h
  rwa [if_neg (by omega)] at h

theorem vecAt_natCast {α : Type} (l : List α) (n : Nat) : vecAt l (n : Int) = l[n]? := by
  unfold vecAt
  rw [if_neg (by omega)]
  simp

theorem vecAt_set {α : Type} (l : List α) (i j : Int) (v a : α) (h : vecAt l i = some a) :
    vecAt (l.set i.toNat v) j = if j = i then some v else vecAt l j := by
  have h0 := vecAt_some_nonneg h
  have hg := vecAt_some_getElem? h
  have hlt : i.toNat < l.length := by
    rcases List.getElem?_eq_some_iff.1 hg with ⟨hl, _⟩
    exact hl
  unfold vecAt
  by_cases hj : j < 0
  · rw [if_pos hj, if_neg (by omega)]
    simp [hj]
  · rw [if_neg hj, List.getElem?_set]
    by_cases hji : j = i
    · subst hji; simp [hlt]
    · have : i.toNat ≠ j.toNat := by omega
      simp [hji, this, hj]

theorem get2_set {α : Type} (g : List (List α)) (r : List α) (i j : Int) (a v : α)
    (hr : vecAt g i = some r) (hc : vecAt r j = some a) (i1 j1 : Int) :
    get2 (g.set i.toNat (r.set j.toNat v)) i1 j1 =
      if i1 = i ∧ j1 = j then some v else get2 g i1 j1 := by
  unfold get2
  rw [vecAt_set g i i1 _ r hr]
  by_cases hi : i1 = i
  · subst hi
    simp only [if_true, true_and, hr]
    exact vecAt_set r j j1 v a hc
  · simp [hi]

theorem map_set_same {α β : Type} (f : α → β) (l : List α) (n : Nat) (a v : α)
    (h : l[n]? = some a) (hf : f v = f a) : (l.set n v).map f = l.map f := by
  rw [List.map_set]
  apply List.ext_getElem?
  intro k
  rw [List.getElem?_set]
  by_cases hk : n = k
  · subst hk
    simp [h, hf]
    rcases List.getElem?_eq_some_iff.1 h with ⟨hl, _⟩
    exact hl
  · simp [hk]

theorem vecAt_isSome_iff {α : Type} (l : List α) (i : Int) :
    (vecAt l i).isSome = true ↔ 0 ≤ i ∧ i.toNat < l.length := by
  unfold vecAt
  by_cases hi : i < 0
  · rw [if_pos hi]; simp; omega
  · rw [if_neg hi]
    simp only [List.getElem?_eq_some_iff, Option.isSome_iff_exists]
    constructor
    · rintro ⟨a, hl, _⟩; exact ⟨by omega, hl⟩
    · rintro ⟨_, hl⟩; exact ⟨_, hl, rfl⟩

/-! ## Loops that may abort -/

theorem foldExcept_inv {σ α : Type} (P : σ → Prop) (f : σ → α → Except Err σ)
    (hf : ∀ s a s1, P s → f s a = .ok s1 → P s1) :
    ∀ (as : List α) (s s1 : σ), P s → foldExcept f s as = .ok s1 → P s1 := by
  intro as
  induction as with
  | nil =>
    intro s s1 hs h
    simp only [foldExcept, Except.ok.injEq] at h
    exact h ▸ hs
  | cons a as ih =>
    intro s s1 hs h
    simp only [foldExcept] at h
    cases hfa : f s a with
    | error e => rw [hfa] at h; cases h
    | ok s2 =>
      rw [hfa] at h
      exact ih s2 s1 (hf s a s2 hs hfa) h

theorem foldExcept_rel {σ α : Type} (R : σ → σ → Prop) (f : σ → α → Except Err σ)
    (hrefl : ∀ s, R s s) (htrans : ∀ a b c, R a b → R b c → R a c)
    (hf : ∀ s a s1, f s a = .ok s1 → R s s1) :
    ∀ (as : List α) (s s1 : σ), foldExcept f s as = .ok s1 → R s s1 := by
  intro as s s1 h
  exact foldExcept_inv (fun t => R s t) f
    (fun t a t1 ht hfa => htrans _ _ _ ht (hf t a t1 hfa)) as s s1 (hrefl s) h

theorem foldExcept_append {σ α : Type} (f : σ → α → Except Err σ) (as bs : List α) (s : σ) :
    foldExcept f s (as ++ bs) =
      match foldExcept f s as with
      | .error e => .error e
      | .ok s1 => foldExcept f s1 bs := by
  induction as generalizing s with
  | nil => rfl
  | cons a as ih =>
    simp only [List.cons_append, foldExcept]
    cases f s a with
    | error e => rfl
    | ok s1 => exact ih s1

/-! ## Single writes -/

theorem setBit_ok {t t1 : TileCfg} {b : ConfigBitPOD} {v : Bool} (h : setBit t b v = .ok t1) :
    tileDims t1 = tileDims t ∧
      ∀ r c, get2 t1 r c = if r = b.row ∧ c = b.col then some v else get2 t r c := by
  unfold setBit at h
  cases hr : vecAt t b.row with
  | none => rw [hr] at h; cases h
  | some l =>
    rw [hr] at h; dsimp only at h
    cases hc : vecAt l b.col with
    | none => rw [hc] at h; cases h
    | some a =>
      rw [hc] at h; dsimp only at h
      simp only [Except.ok.injEq] at h
      subst h
      refine ⟨?_, fun r c => get2_set t l b.row b.col a v hr hc r c⟩
      exact map_set_same List.length t _ l _ (vecAt_some_getElem? hr) (List.length_set ..)

theorem setBit_succeeds {t : TileCfg} {b : ConfigBitPOD} {a : Bool} (v : Bool)
    (h : get2 t b.row b.col = some a) : ∃ t1, setBit t b v = .ok t1 := by
  unfold get2 at h
  unfold setBit
  cases hr : vecAt t b.row with
  | none => rw [hr] at h; cases h
  | some l =>
    rw [hr] at h; dsimp only at h
    simp only [h]
    exact ⟨_, rfl⟩

theorem pipSetBit_ok {t t1 : TileCfg} {b : ConfigBitPOD} {v : Bool}
    (h : pipSetBit t b v = .ok t1) :
    get2 t b.row b.col = some false ∧ setBit t b v = .ok t1 := by
  unfold pipSetBit at h
  unfold get2 setBit
  cases hr : vecAt t b.row with
  | none => rw [hr] at h; cases h
  | some l =>
    rw [hr] at h; dsimp only at h
    cases hc : vecAt l b.col with
    | none => rw [hc] at h; cases h
    | some a =>
      rw [hc] at h; dsimp only at h
      cases a with
      | true => simp at h
      | false => simp at h; simp [h, hc]

theorem pipSetBit_of_false {t : TileCfg} {b : ConfigBitPOD} (v : Bool)
    (h : get2 t b.row b.col = some false) : pipSetBit t b v = setBit t b v := by
  unfold get2 at h
  unfold pipSetBit setBit
  cases hr : vecAt t b.row with
  | none => simp [hr] at h
  | some l =>
    rw [hr] at h; dsimp only at h
    simp [h]

theorem pipSetBit_of_true {t : TileCfg} {b : ConfigBitPOD} (v : Bool)
    (h : get2 t b.row b.col = some true) : pipSetBit t b v = .error .bitCollision := by
  unfold get2 at h
  unfold pipSetBit
  cases hr : vecAt t b.row with
  | none => simp [hr] at h
  | some l =>
    rw [hr] at h; dsimp only at h
    simp [h]

theorem withTile_ok {config c1 : Config} {y x : Int} {f : TileCfg → Except Err TileCfg}
    (h : withTile config y x f = .ok c1) :
    ∃ t t1, get2 config y x = some t ∧ f t = .ok t1 ∧
      (∀ y1 x1, get2 c1 y1 x1 = if y1 = y ∧ x1 = x then some t1 else get2 config y1 x1) ∧
      (tileDims t1 = tileDims t → gridDims c1 = gridDims config) := by
  unfold withTile at h
  cases hr : vecAt config y with
  | none => rw [hr] at h; cases h
  | some r =>
    rw [hr] at h; dsimp only at h
    cases hc : vecAt r x with
    | none => rw [hc] at h; cases h
    | some t =>
      rw [hc] at h; dsimp only at h
      cases hf : f t with
      | error e => rw [hf] at h; cases h
      | ok t1 =>
        rw [hf] at h; dsimp only at h
        simp only [Except.ok.injEq] at h
        subst h
        refine ⟨t, t1, ?_, hf, fun y1 x1 => get2_set config r y x t t1 hr hc y1 x1, ?_⟩
        · unfold get2; rw [hr]; exact hc
        · intro hd
          refine map_set_same _ config _ r _ (vecAt_some_getElem? hr) ?_
          exact map_set_same tileDims r _ t _ (vecAt_some_getElem? hc) hd

theorem withTile_succeeds {config : Config} {y x : Int} {f : TileCfg → Except Err TileCfg}
    {t t1 : TileCfg} (ht : get2 config y x = some t) (hf : f t = .ok t1) :
    ∃ c1, withTile config y x f = .ok c1 := by
  unfold get2 at ht
  unfold withTile
  cases hr : vecAt config y with
  | none => rw [hr] at ht; cases ht
  | some r =>
    rw [hr] at ht; dsimp only at ht
    simp only [ht, hf]
    exact ⟨_, rfl⟩

/-! ## The logic-cell vector -/

theorem lutStep_length (l : Nat) (lc : List Bool) (i : Nat) : (lutStep l lc i).length = lc.length := by
  unfold lutStep; split <;> simp

theorem lutStep_cond (l i : Nat) : ((l >>> i) &&& 1 ≠ 0) ↔ l.testBit i = true := by
  have ht : l.testBit i = (1 &&& (l >>> i) != 0) := rfl
  rw [ht, Nat.land_comm]; simp

theorem lutStep_getD (l : Nat) (lc : List Bool) (i j : Nat) (hj : j < lc.length) :
    (lutStep l lc i).getD j false = (lc.getD j false || (decide (lut_perm.getD i 0 = j) && l.testBit i)) := by
  unfold lutStep
  generalize lut_perm.getD i 0 = p
  by_cases hb : l.testBit i = true
  · rw [if_pos ((lutStep_cond l i).2 hb), hb]
    by_cases hp : p = j
    · subst hp; simp [List.getElem?_set, hj]
    · simp [List.getElem?_set, hp]
  · rw [if_neg (fun h => hb ((lutStep_cond l i).1 h))]
    simp at hb
    simp [hb]

theorem lutFold_getD (l : Nat) (is : List Nat) (lc : List Bool) (j : Nat) (hj : j < lc.length) :
    (is.foldl (lutStep l) lc).getD j false =
      (lc.getD j false || is.any (fun i => decide (lut_perm.getD i 0 = j) && l.testBit i)) := by
  induction is generalizing lc with
  | nil => simp
  | cons i is ih =>
    simp only [List.foldl_cons, List.any_cons]
    rw [ih _ (by rw [lutStep_length]; exact hj), lutStep_getD _ _ _ _ hj, Bool.or_assoc]


theorem getD_set_bool (l : List Bool) (p j : Nat) (v : Bool) :
    (l.set p v).getD j false =
      if p = j then (if j < l.length then v else false) else l.getD j false := by
  simp only [List.getD_eq_getElem?_getD, List.getElem?_set]
  by_cases hp : p = j
  · subst hp; by_cases hl : p < l.length <;> simp [hl]
  · simp [hp]

theorem getD_replicate_false (n j : Nat) : (List.replicate n false).getD j false = false := by
  simp only [List.getD_eq_getElem?_getD, List.getElem?_replicate]
  split <;> rfl

theorem lutFold_length (l : Nat) (is : List Nat) (lc : List Bool) :
    (is.foldl (lutStep l) lc).length = lc.length := by
  induction is generalizing lc with
  | nil => rfl
  | cons i is ih => simp only [List.foldl_cons]; rw [ih, lutStep_length]

theorem lcVector_getD (l : Nat) (c d s a : Bool) (j : Nat) (hj : j < 20) :
    (lcVector l c d s a).getD j false =
      if j = 19 then a else if j = 18 then s else if j = 9 then d else if j = 8 then c
      else (List.range 16).any (fun i => decide (lut_perm.getD i 0 = j) && l.testBit i) := by
  have hfold : lcVector l c d s a =
      (((((List.range 16).foldl (lutStep l) (List.replicate 20 false)).set 8 c).set 9 d).set
        18 s).set 19 a := rfl
  rw [hfold]
  simp only [getD_set_bool, List.length_set, lutFold_length, List.length_replicate]
  rw [lutFold_getD l _ _ j (by simpa using hj), getD_replicate_false, Bool.false_or]
  simp only [hj, if_true]
  simp only [eq_comm]

theorem lcVector_perm (l : Nat) (c d s a : Bool) (i : Nat) (hi : i < 16) :
    (lcVector l c d s a).getD (lut_perm.getD i 0) false = l.testBit i := by
  rw [lcVector_getD _ _ _ _ _ _ (by interval_cases i <;> decide)]
  interval_cases i <;> simp [lut_perm, List.range, List.range.loop]

theorem lcParams_of_stoi {cell : CellInfo} {l nc de asr snr ce : Int}
    (h1 : stoi (paramOf cell.params "LUT_INIT") = .ok l)
    (h2 : stoi (paramOf cell.params "NEG_CLK") = .ok nc)
    (h3 : stoi (paramOf cell.params "DFF_ENABLE") = .ok de)
    (h4 : stoi (paramOf cell.params "ASYNC_SR") = .ok asr)
    (h5 : stoi (paramOf cell.params "SET_NORESET") = .ok snr)
    (h6 : stoi (paramOf cell.params "CARRY_ENABLE") = .ok ce) :
    lcParams cell =
      .ok ⟨toUnsigned l, toBool nc, toBool de, toBool asr, toBool snr, toBool ce⟩ := by
  unfold lcParams
  rw [h1]; dsimp only
  rw [h2]; dsimp only
  rw [h3]; dsimp only
  rw [h4]; dsimp only
  rw [h5]; dsimp only
  rw [h6]

theorem lcVector_pow_two (i : Nat) (hi : i < 16) :
    (lcVector (2 ^ i) false false false false).length = 20 ∧
    (lcVector (2 ^ i) false false false false).getD (lut_perm.getD i 0) false = true ∧
    ∀ j, j < 20 → j ≠ lut_perm.getD i 0 →
      (lcVector (2 ^ i) false false false false).getD j false = false := by
  interval_cases i <;> decide

/-- C1: the logic-cell encoder applied to a cell whose parameter `LUT_INIT`
reads as the truth table `2^i` (`i < 16`) and whose carry-enable,
flip-flop-enable, set-not-reset and asynchronous-set/reset parameters read as
false builds a vector `lc` of 20 positions that is true at `lut_perm[i]` and
false at the 19 others: that vector is what the encoder hands to the 20 indexed
writes of option `LC_<z>`, before it writes `NegClk`. -/
theorem lcVector_one_hot (chip : Chip) (config : Config) (cell : CellInfo) (x y z : Int)
    (i : Nat) (l nc de asr snr ce : Int) (hi : i < 16)
    (hlut : stoi (paramOf cell.params "LUT_INIT") = .ok l)
    (hneg : stoi (paramOf cell.params "NEG_CLK") = .ok nc)
    (hdff : stoi (paramOf cell.params "DFF_ENABLE") = .ok de)
    (hasr : stoi (paramOf cell.params "ASYNC_SR") = .ok asr)
    (hsnr : stoi (paramOf cell.params "SET_NORESET") = .ok snr)
    (hcar : stoi (paramOf cell.params "CARRY_ENABLE") = .ok ce)
    (hl : toUnsigned l = 2 ^ i)
    (hde : toBool de = false) (hasr0 : toBool asr = false) (hsnr0 : toBool snr = false)
    (hce : toBool ce = false) :
    ∃ lc : List Bool,
      lc.length = 20 ∧
      lc.getD (lut_perm.getD i 0) false = true ∧
      (∀ j, j < 20 → j ≠ lut_perm.getD i 0 → lc.getD j false = false) ∧
      setLCCell chip config cell x y z =
        (match setLCBits (chip.chip_info.bits_info.tiles_nonrouting .TILE_LOGIC) config x y z
            lc with
          | .error e => .error e
          | .ok c1 =>
            withTile c1 y x (fun t =>
              set_config (chip.chip_info.bits_info.tiles_nonrouting .TILE_LOGIC) t "NegClk"
                (toBool nc) (-1))) := by
  obtain ⟨h1, h2, h3⟩ := lcVector_pow_two i hi
  refine ⟨lcVector (2 ^ i) false false false false, h1, h2, h3, ?_⟩
  unfold setLCCell
  dsimp only
  rw [lcParams_of_stoi hlut hneg hdff hasr hsnr hcar]
  dsimp only
  rw [hl, hde, hasr0, hsnr0, hce]

/-- Scenario A on the device `lcDemoChip lcNegDemoTile`: the cell `lcOneDemoCell`
has truth table `0x0001` and all flags 0; the vector of the encoder is true at
position 4 only, and the serialized logic tile has its only 1 at bit 4 of the
row of `LC_0`. -/
theorem lcVector_one_hot_witness :
    (∃ lc : List Bool,
      lc.length = 20 ∧
      lc.getD (lut_perm.getD 0 0) false = true ∧
      (∀ j, j < 20 → j ≠ lut_perm.getD 0 0 → lc.getD j false = false) ∧
      setLCCell (lcDemoChip lcNegDemoTile) (initConfig (lcDemoChip lcNegDemoTile))
          lcOneDemoCell 0 0 0 =
        (match setLCBits ((lcDemoChip lcNegDemoTile).chip_info.bits_info.tiles_nonrouting
            .TILE_LOGIC) (initConfig (lcDemoChip lcNegDemoTile)) 0 0 0 lc with
          | .error e => .error e
          | .ok c1 =>
            withTile c1 0 0 (fun t =>
              set_config ((lcDemoChip lcNegDemoTile).chip_info.bits_info.tiles_nonrouting
                .TILE_LOGIC) t "NegClk" (toBool 0) (-1)))) ∧
    lut_perm.getD 0 0 = 4 ∧
    (write_asc ⟨lcDemoChip lcNegDemoTile, [("lc", lcOneDemoCell)]⟩).out =
      [".comment from next-pnr", ".device 8k", ".logic_tile 0 0",
       "00001000000000000000", "00000000000000000000", ""] := by
  refine ⟨?_, by decide, by decide⟩
  exact lcVector_one_hot (lcDemoChip lcNegDemoTile) (initConfig (lcDemoChip lcNegDemoTile))
    lcOneDemoCell 0 0 0 0 1 0 0 0 0 0 (by decide) rfl rfl rfl rfl rfl rfl rfl rfl rfl rfl rfl

/-! ## Writes seen from the grid -/

theorem getBit_of_tile {c : Config} {y x : Int} {t : TileCfg} (h : get2 c y x = some t)
    (r col : Int) : getBit c y x r col = get2 t r col := by
  unfold getBit; rw [h]

theorem setBits_ok {v : Bool} :
    ∀ (bits : List ConfigBitPOD) (t t1 : TileCfg),
      foldExcept (fun tc b => setBit tc b v) t bits = .ok t1 →
      tileDims t1 = tileDims t ∧
      (∀ b ∈ bits, (get2 t b.row b.col).isSome = true ∧ get2 t1 b.row b.col = some v) ∧
      (∀ r c, (ConfigBitPOD.mk r c) ∉ bits → get2 t1 r c = get2 t r c) := by
  intro bits
  induction bits with
  | nil =>
    intro t t1 h
    simp only [foldExcept, Except.ok.injEq] at h
    subst h
    exact ⟨rfl, by simp, fun _ _ _ => rfl⟩
  | cons b bs ih =>
    intro t t1 h
    simp only [foldExcept] at h
    cases hb : setBit t b v with
    | error e => rw [hb] at h; cases h
    | ok t2 =>
      rw [hb] at h; dsimp only at h
      obtain ⟨hd2, hg2⟩ := setBit_ok hb
      obtain ⟨hd1, hin, hout⟩ := ih t2 t1 h
      have hbsome : (get2 t b.row b.col).isSome = true := by
        unfold setBit at hb
        unfold get2
        cases hr : vecAt t b.row with
        | none => rw [hr] at hb; cases hb
        | some l =>
          rw [hr] at hb; dsimp only at hb
          cases hc : vecAt l b.col with
          | none => rw [hc] at hb; cases hb
          | some a => simp [hc]
      refine ⟨hd1.trans hd2, ?_, ?_⟩
      · intro b1 hb1
        have hsome : (get2 t b1.row b1.col).isSome = true := by
          rcases List.mem_cons.1 hb1 with h1 | h1
          · rw [h1]; exact hbsome
          · have := (hin b1 h1).1
            rw [hg2] at this
            split at this
            · rename_i heq; rw [heq.1, heq.2]; exact hbsome
            · exact this
        refine ⟨hsome, ?_⟩
        by_cases hmem : b1 ∈ bs
        · exact (hin b1 hmem).2
        · have h1 : b1 = b := by
            rcases List.mem_cons.1 hb1 with h1 | h1
            · exact h1
            · exact absurd h1 hmem
          have hnot : (ConfigBitPOD.mk b1.row b1.col) ∉ bs := hmem
          rw [hout b1.row b1.col hnot, hg2, h1]
          simp
      · intro r c hnot
        have hnb : ¬ (r = b.row ∧ c = b.col) := by
          rintro ⟨h1, h2⟩
          apply hnot
          subst h1; subst h2
          exact List.mem_cons_self _ _
        have hnbs : (ConfigBitPOD.mk r c) ∉ bs := fun hm => hnot (List.mem_cons_of_mem _ hm)
        rw [hout r c hnbs, hg2, if_neg hnb]

theorem setBits_succeeds {v : Bool} :
    ∀ (bits : List ConfigBitPOD) (t : TileCfg),
      (∀ b ∈ bits, (get2 t b.row b.col).isSome = true) →
      ∃ t1, foldExcept (fun tc b => setBit tc b v) t bits = .ok t1 := by
  intro bits
  induction bits with
  | nil => intro t _; exact ⟨t, rfl⟩
  | cons b bs ih =>
    intro t h
    have hb := h b (List.mem_cons_self _ _)
    obtain ⟨a, ha⟩ := Option.isSome_iff_exists.1 hb
    obtain ⟨t2, ht2⟩ := setBit_succeeds v ha
    obtain ⟨_, hg2⟩ := setBit_ok ht2
    have h2 : ∀ b1 ∈ bs, (get2 t2 b1.row b1.col).isSome = true := by
      intro b1 hb1
      rw [hg2]
      split
      · rfl
      · exact h b1 (List.mem_cons_of_mem _ hb1)
    obtain ⟨t1, ht1⟩ := ih t2 h2
    refine ⟨t1, ?_⟩
    simp only [foldExcept, ht2]
    exact ht1

theorem set_config_all_ok {ti : TileInfoPOD} {t t1 : TileCfg} {name : String} {v : Bool}
    (h : set_config ti t name v (-1) = .ok t1) :
    ∃ cfg, find_config ti name = .ok cfg ∧
      foldExcept (fun tc b => setBit tc b v) t cfg.bits = .ok t1 := by
  unfold set_config at h
  cases hf : find_config ti name with
  | error e => rw [hf] at h; cases h
  | ok cfg =>
    rw [hf] at h; dsimp only at h
    rw [if_pos rfl] at h
    exact ⟨cfg, rfl, h⟩

theorem set_config_all_eq {ti : TileInfoPOD} {name : String} {cfg : ConfigEntryPOD}
    (hf : find_config ti name = .ok cfg) (t : TileCfg) (v : Bool) :
    set_config ti t name v (-1) = foldExcept (fun tc b => setBit tc b v) t cfg.bits := by
  unfold set_config
  rw [hf]; dsimp only
  rw [if_pos rfl]

theorem set_config_index_eq {ti : TileInfoPOD} {name : String} {cfg : ConfigEntryPOD}
    (hf : find_config ti name = .ok cfg) (t : TileCfg) (v : Bool) (i : Nat) :
    set_config ti t name v (i : Int) =
      match cfg.bits[i]? with
      | none => .error .outOfRange
      | some b => setBit t b v := by
  unfold set_config
  rw [hf]; dsimp only
  rw [if_neg (by omega), vecAt_natCast]

theorem set_config_dims {ti : TileInfoPOD} {t t1 : TileCfg} {name : String} {v : Bool}
    {index : Int} (h : set_config ti t name v index = .ok t1) : tileDims t1 = tileDims t := by
  unfold set_config at h
  cases hf : find_config ti name with
  | error e => rw [hf] at h; cases h
  | ok cfg =>
    rw [hf] at h; dsimp only at h
    by_cases hi : index = -1
    · rw [if_pos hi] at h
      exact (setBits_ok _ _ _ h).1
    · rw [if_neg hi] at h
      cases hb : vecAt cfg.bits index with
      | none => rw [hb] at h; cases h
      | some b =>
        rw [hb] at h; dsimp only at h
        exact (setBit_ok h).1

theorem withTile_frame {c c1 : Config} {y x : Int} {f : TileCfg → Except Err TileCfg}
    (hdims : ∀ t t1, f t = .ok t1 → tileDims t1 = tileDims t)
    (h : withTile c y x f = .ok c1) : SameOutsideTile c c1 y x := by
  obtain ⟨t, t1, ht, hf, hg, hd⟩ := withTile_ok h
  refine ⟨hd (hdims t t1 hf), ?_⟩
  intro y1 x1 r col hne
  unfold getBit
  rw [hg, if_neg hne]

theorem withTile_setBits_ok {c c1 : Config} {y x : Int} {bits : List ConfigBitPOD} {v : Bool}
    (h : withTile c y x (fun t => foldExcept (fun tc b => setBit tc b v) t bits) = .ok c1) :
    WritesTo c c1 y x bits v := by
  obtain ⟨t, t1, ht, hf, hg, hd⟩ := withTile_ok h
  obtain ⟨hdim, hin, hout⟩ := setBits_ok _ _ _ hf
  have ht1 : get2 c1 y x = some t1 := by rw [hg]; simp
  refine ⟨hd hdim, ?_, ?_⟩
  · intro b hb
    rw [getBit_of_tile ht, getBit_of_tile ht1]
    exact hin b hb
  · intro y1 x1 r col hne
    by_cases hyx : y1 = y ∧ x1 = x
    · obtain ⟨hy, hx⟩ := hyx
      subst hy; subst hx
      rw [getBit_of_tile ht, getBit_of_tile ht1]
      exact hout r col (fun hm => hne ⟨rfl, rfl, hm⟩)
    · unfold getBit
      rw [hg, if_neg hyx]

theorem withTile_set_config_all_ok {ti : TileInfoPOD} {c c1 : Config} {y x : Int}
    {name : String} {v : Bool}
    (h : withTile c y x (fun t => set_config ti t name v (-1)) = .ok c1) :
    ∃ cfg, find_config ti name = .ok cfg ∧ WritesTo c c1 y x cfg.bits v := by
  obtain ⟨t, t1, ht, hf, hg, hd⟩ := withTile_ok h
  obtain ⟨cfg, hfind, hfold⟩ := set_config_all_ok hf
  refine ⟨cfg, hfind, withTile_setBits_ok ?_⟩
  have : (fun t => set_config ti t name v (-1)) =
      (fun t => foldExcept (fun tc b => setBit tc b v) t cfg.bits) := by
    funext t; exact set_config_all_eq hfind t v
  rw [← this]; exact h

theorem withTile_setBit_ok {c c1 : Config} {y x : Int} {b : ConfigBitPOD} {v : Bool}
    (h : withTile c y x (fun t => setBit t b v) = .ok c1) : WritesTo c c1 y x [b] v := by
  apply withTile_setBits_ok
  have : (fun t => foldExcept (fun tc b => setBit tc b v) t [b]) = (fun t => setBit t b v) := by
    funext t
    simp only [foldExcept]
    cases setBit t b v <;> rfl
  rw [this]; exact h

theorem withTile_setBit_succeeds {c : Config} {y x : Int} {b : ConfigBitPOD} (v : Bool)
    (h : (getBit c y x b.row b.col).isSome = true) :
    ∃ c1, withTile c y x (fun t => setBit t b v) = .ok c1 := by
  unfold getBit at h
  cases ht : get2 c y x with
  | none => rw [ht] at h; cases h
  | some t =>
    rw [ht] at h; dsimp only at h
    obtain ⟨a, ha⟩ := Option.isSome_iff_exists.1 h
    obtain ⟨t1, ht1⟩ := setBit_succeeds v ha
    exact withTile_succeeds ht ht1

theorem withTile_set_config_all_succeeds {ti : TileInfoPOD} {c : Config} {y x : Int}
    {name : String} {cfg : ConfigEntryPOD} (v : Bool)
    (hfind : find_config ti name = .ok cfg)
    (htile : (get2 c y x).isSome = true)
    (hr : ∀ b ∈ cfg.bits, (getBit c y x b.row b.col).isSome = true) :
    ∃ c1, withTile c y x (fun t => set_config ti t name v (-1)) = .ok c1 ∧
      (get2 c1 y x).isSome = true ∧ WritesTo c c1 y x cfg.bits v := by
  obtain ⟨t, ht⟩ := Option.isSome_iff_exists.1 htile
  have hr1 : ∀ b ∈ cfg.bits, (get2 t b.row b.col).isSome = true := by
    intro b hb
    rw [← getBit_of_tile ht]; exact hr b hb
  obtain ⟨t1, ht1⟩ := setBits_succeeds (v := v) cfg.bits t hr1
  have hset : set_config ti t name v (-1) = .ok t1 := by
    rw [set_config_all_eq hfind]; exact ht1
  obtain ⟨c1, hc1⟩ := withTile_succeeds (f := fun t => set_config ti t name v (-1)) ht hset
  obtain ⟨cfg1, hfind1, hw⟩ := withTile_set_config_all_ok hc1
  have hcfg : cfg1 = cfg := by
    rw [hfind] at hfind1; exact (Except.ok.inj hfind1).symm
  subst hcfg
  obtain ⟨t0, t2, _, _, hg, _⟩ := withTile_ok hc1
  refine ⟨c1, hc1, ?_, hw⟩
  rw [hg]; simp

/-! ## Writes of a vector through an indexed option -/

theorem bitInRange_some {config : Config} {y x : Int} {ob : Option ConfigBitPOD}
    (h : bitInRange config y x ob = true) :
    ∃ b, ob = some b ∧ (getBit config y x b.row b.col).isSome = true := by
  cases ob with
  | none => cases h
  | some b => exact ⟨b, rfl, h⟩

theorem indexedWrites (pos : Nat → Option ConfigBitPOD) (val : Nat → Bool) (y x : Int) :
    ∀ (is : List Nat) (c : Config),
      is.Nodup →
      (∀ i ∈ is, bitInRange c y x (pos i) = true) →
      (∀ i ∈ is, ∀ j ∈ is, pos i = pos j → i = j) →
      ∃ c1,
        foldExcept (fun c i => withTile c y x (fun t =>
          match pos i with
          | none => .error .outOfRange
          | some b => setBit t b (val i))) c is = .ok c1 ∧
        gridDims c1 = gridDims c ∧
        (∀ i ∈ is, ∀ b, pos i = some b → getBit c1 y x b.row b.col = some (val i)) ∧
        (∀ y1 x1 r col, ¬ (y1 = y ∧ x1 = x ∧ ∃ i ∈ is, pos i = some ⟨r, col⟩) →
          getBit c1 y1 x1 r col = getBit c y1 x1 r col) := by
  intro is
  induction is with
  | nil =>
    intro c _ _ _
    exact ⟨c, rfl, rfl, by simp, fun _ _ _ _ _ => rfl⟩
  | cons i is ih =>
    intro c hnd hr hinj
    obtain ⟨b, hb, hbr⟩ := bitInRange_some (hr i (List.mem_cons_self _ _))
    obtain ⟨c2, hc2⟩ := withTile_setBit_succeeds (val i) hbr
    obtain ⟨hd2, hin2, hout2⟩ := withTile_setBit_ok hc2
    have hnd1 : is.Nodup := (List.nodup_cons.1 hnd).2
    have hi_notin : i ∉ is := (List.nodup_cons.1 hnd).1
    have hr2 : ∀ j ∈ is, bitInRange c2 y x (pos j) = true := by
      intro j hj
      obtain ⟨bj, hbj, hbjr⟩ := bitInRange_some (hr j (List.mem_cons_of_mem _ hj))
      rw [hbj]
      show (getBit c2 y x bj.row bj.col).isSome = true
      by_cases hm : (ConfigBitPOD.mk bj.row bj.col) ∈ [b]
      · have hbjb : bj = b := by simpa using hm
        rw [hbjb, (hin2 b (List.mem_singleton.2 rfl)).2]; rfl
      · rw [hout2 _ _ _ _ (fun h => hm h.2.2)]; exact hbjr
    have hinj2 : ∀ j ∈ is, ∀ k ∈ is, pos j = pos k → j = k := fun j hj k hk =>
      hinj j (List.mem_cons_of_mem _ hj) k (List.mem_cons_of_mem _ hk)
    obtain ⟨c1, hc1, hd1, hin1, hout1⟩ := ih c2 hnd1 hr2 hinj2
    refine ⟨c1, ?_, hd1.trans hd2, ?_, ?_⟩
    · simp only [foldExcept, hb, hc2]
      exact hc1
    · intro j hj bj hbj
      rcases List.mem_cons.1 hj with hji | hjm
      · subst hji
        have hbb : bj = b := by rw [hb] at hbj; exact (Option.some.inj hbj).symm
        subst hbb
        have hfr : ¬ (y = y ∧ x = x ∧ ∃ k ∈ is, pos k = some ⟨bj.row, bj.col⟩) := by
          rintro ⟨_, _, k, hk, hpk⟩
          have : j = k := hinj j (List.mem_cons_self _ _) k (List.mem_cons_of_mem _ hk)
            (by rw [hb, hpk])
          exact hi_notin (this ▸ hk)
        rw [hout1 _ _ _ _ hfr]
        exact (hin2 bj (List.mem_singleton.2 rfl)).2
      · exact hin1 j hjm bj hbj
    · intro y1 x1 r col hne
      have h1 : ¬ (y1 = y ∧ x1 = x ∧ ∃ k ∈ is, pos k = some ⟨r, col⟩) := by
        rintro ⟨h1, h2, k, hk, hpk⟩
        exact hne ⟨h1, h2, k, List.mem_cons_of_mem _ hk, hpk⟩
      have h2 : ¬ (y1 = y ∧ x1 = x ∧ (ConfigBitPOD.mk r col) ∈ [b]) := by
        rintro ⟨h1, h2, hm⟩
        have : (ConfigBitPOD.mk r col) = b := by simpa using hm
        exact hne ⟨h1, h2, i, List.mem_cons_self _ _, by rw [hb, this]⟩
      rw [hout1 _ _ _ _ h1, hout2 _ _ _ _ h2]

theorem setLCBits_eq {ti : TileInfoPOD} {z : Int} {cfg : ConfigEntryPOD}
    (hfind : find_config ti ("LC_" ++ toString z) = .ok cfg) (config : Config) (x y : Int)
    (lc : List Bool) :
    setLCBits ti config x y z lc =
      foldExcept (fun c i => withTile c y x (fun t =>
        match (fun i => cfg.bits[i]?) i with
        | none => .error .outOfRange
        | some b => setBit t b ((fun i => lc.getD i false) i))) config (List.range 20) := by
  unfold setLCBits
  congr 1
  funext c i
  congr 1
  funext t
  exact set_config_index_eq hfind t _ i

theorem setCell_of_lc_type {chip : Chip} {cell : CellInfo} (htype : cell.type = "ICESTORM_LC")
    (config : Config) (bel : Nat) :
    setCell chip config cell bel =
      setLCCell chip config cell (chip.chip_info.bel_data bel).x
        (chip.chip_info.bel_data bel).y (chip.chip_info.bel_data bel).z := by
  unfold setCell
  dsimp only
  rw [if_pos htype]

theorem lcVector_positions (lut_init : Nat) (carry_enable dff_enable set_noreset async_sr : Bool) :
    (lcVector lut_init carry_enable dff_enable set_noreset async_sr).length = 20 ∧
    (∀ i, i < 16 →
      (lcVector lut_init carry_enable dff_enable set_noreset async_sr).getD
        (lut_perm.getD i 0) false = lut_init.testBit i) ∧
    (lcVector lut_init carry_enable dff_enable set_noreset async_sr).getD 8 false
      = carry_enable ∧
    (lcVector lut_init carry_enable dff_enable set_noreset async_sr).getD 9 false
      = dff_enable ∧
    (lcVector lut_init carry_enable dff_enable set_noreset async_sr).getD 18 false
      = set_noreset ∧
    (lcVector lut_init carry_enable dff_enable set_noreset async_sr).getD 19 false
      = async_sr := by
  refine ⟨?_, fun i hi => lcVector_perm _ _ _ _ _ i hi, ?_, ?_, ?_, ?_⟩
  · have hfold : lcVector lut_init carry_enable dff_enable set_noreset async_sr =
        (((((List.range 16).foldl (lutStep lut_init) (List.replicate 20 false)).set 8
          carry_enable).set 9 dff_enable).set 18 set_noreset).set 19 async_sr := rfl
    rw [hfold]
    simp only [List.length_set, lutFold_length, List.length_replicate]
  · rw [lcVector_getD _ _ _ _ _ 8 (by decide)]; simp
  · rw [lcVector_getD _ _ _ _ _ 9 (by decide)]; simp
  · rw [lcVector_getD _ _ _ _ _ 18 (by decide)]; simp
  · rw [lcVector_getD _ _ _ _ _ 19 (by decide)]; simp

theorem setLCCell_writes {chip : Chip} {config : Config} {cell : CellInfo} {x y z : Int}
    {p : LCParams} {cfg ncfg : ConfigEntryPOD}
    (hp : lcParams cell = .ok p)
    (hfind : find_config (chip.chip_info.bits_info.tiles_nonrouting .TILE_LOGIC)
      ("LC_" ++ toString z) = .ok cfg)
    (hrange : ∀ i, i < 20 → bitInRange config y x cfg.bits[i]? = true)
    (hdist : ∀ i, i < 20 → ∀ j, j < 20 → cfg.bits[i]? = cfg.bits[j]? → i = j)
    (hnfind : find_config (chip.chip_info.bits_info.tiles_nonrouting .TILE_LOGIC) "NegClk"
      = .ok ncfg)
    (hnrange : ∀ b ∈ ncfg.bits, (getBit config y x b.row b.col).isSome = true) :
    ∃ c2, setLCCell chip config cell x y z = .ok c2 ∧
      (∀ i, i < 20 → ∀ b, cfg.bits[i]? = some b → b ∉ ncfg.bits →
        getBit c2 y x b.row b.col =
          some ((lcVector p.lut_init p.carry_enable p.dff_enable p.set_noreset
            p.async_sr).getD i false)) ∧
      (∀ b ∈ ncfg.bits, getBit c2 y x b.row b.col = some p.neg_clk) ∧
      (∀ y1 x1 r col,
        ¬ (y1 = y ∧ x1 = x ∧
          ((∃ i, i < 20 ∧ cfg.bits[i]? = some ⟨r, col⟩) ∨ (ConfigBitPOD.mk r col) ∈ ncfg.bits)) →
        getBit c2 y1 x1 r col = getBit config y1 x1 r col) := by
  obtain ⟨c1, hc1, _, hin, hout⟩ := indexedWrites (fun i => cfg.bits[i]?)
    (fun i => (lcVector p.lut_init p.carry_enable p.dff_enable p.set_noreset
      p.async_sr).getD i false)
    y x (List.range 20) config (List.nodup_range 20)
    (fun i hi => hrange i (List.mem_range.1 hi))
    (fun i hi j hj h => hdist i (List.mem_range.1 hi) j (List.mem_range.1 hj) h)
  have hlc : setLCBits (chip.chip_info.bits_info.tiles_nonrouting .TILE_LOGIC) config x y z
      (lcVector p.lut_init p.carry_enable p.dff_enable p.set_noreset p.async_sr) = .ok c1 := by
    rw [setLCBits_eq hfind]; exact hc1
  have hr1 : ∀ b ∈ ncfg.bits, (getBit c1 y x b.row b.col).isSome = true := by
    intro b hb
    by_cases hw : ∃ i ∈ List.range 20, cfg.bits[i]? = some ⟨b.row, b.col⟩
    · obtain ⟨i, hi, hbi⟩ := hw
      have := hin i hi ⟨b.row, b.col⟩ hbi
      rw [this]; rfl
    · rw [hout y x b.row b.col (fun h => hw h.2.2)]
      exact hnrange b hb
  have htile : (get2 c1 y x).isSome = true := by
    obtain ⟨b0, hb0, _⟩ := bitInRange_some (hrange 0 (by decide))
    have := hin 0 (by simp) b0 hb0
    unfold getBit at this
    cases hg : get2 c1 y x with
    | none => rw [hg] at this; cases this
    | some t => rfl
  obtain ⟨c2, hc2, _, hw⟩ := withTile_set_config_all_succeeds p.neg_clk hnfind htile hr1
  refine ⟨c2, ?_, ?_, ?_, ?_⟩
  · unfold setLCCell
    dsimp only
    rw [hp]; dsimp only
    rw [hlc]; exact hc2
  · intro i hi b hb hnot
    rw [hw.2.2 y x b.row b.col (fun h => hnot h.2.2)]
    exact hin i (List.mem_range.2 hi) b hb
  · intro b hb
    exact (hw.2.1 b hb).2
  · intro y1 x1 r col hne
    rw [hw.2.2 y1 x1 r col (fun h => hne ⟨h.1, h.2.1, Or.inr h.2.2⟩)]
    apply hout
    rintro ⟨h1, h2, i, hi, hpi⟩
    exact hne ⟨h1, h2, Or.inl ⟨i, List.mem_range.1 hi, hpi⟩⟩

/-- C2 (as amended): for every truth table and every combination of the four
flags the vector of a logic cell holds bit `i` of `LUT_INIT` at position
`lut_perm[i]` and the flags at positions 8, 9, 18 and 19.  For a placed cell
of type `ICESTORM_LC` in slot `z` of tile `(x, y)` whose six parameters parse,
on a layout whose option `LC_<z>` lists at least 20 bits, the first 20 inside
the tile and pairwise distinct, and whose option `NegClk` has its listed bits
inside the tile, the encoder succeeds and position `i` of the vector is in the
`i`-th listed bit of `LC_<z>` (a bit that `NegClk` lists too excepted: the bits
of `NegClk` hold the negative-clock flag), every other bit of the grid keeping
its value. -/
theorem lc_vector_layout (chip : Chip) (config : Config) (cell : CellInfo) (bel : Nat)
    (l nc de asr snr ce : Int) (cfg ncfg : ConfigEntryPOD)
    (htype : cell.type = "ICESTORM_LC")
    (hlut : stoi (paramOf cell.params "LUT_INIT") = .ok l)
    (hneg : stoi (paramOf cell.params "NEG_CLK") = .ok nc)
    (hdff : stoi (paramOf cell.params "DFF_ENABLE") = .ok de)
    (hasr : stoi (paramOf cell.params "ASYNC_SR") = .ok asr)
    (hsnr : stoi (paramOf cell.params "SET_NORESET") = .ok snr)
    (hcar : stoi (paramOf cell.params "CARRY_ENABLE") = .ok ce)
    (hfind : find_config (chip.chip_info.bits_info.tiles_nonrouting .TILE_LOGIC)
      ("LC_" ++ toString (chip.chip_info.bel_data bel).z) = .ok cfg)
    (hrange : ∀ i, i < 20 →
      bitInRange config (chip.chip_info.bel_data bel).y (chip.chip_info.bel_data bel).x
        cfg.bits[i]? = true)
    (hdist : ∀ i, i < 20 → ∀ j, j < 20 → cfg.bits[i]? = cfg.bits[j]? → i = j)
    (hnfind : find_config (chip.chip_info.bits_info.tiles_nonrouting .TILE_LOGIC) "NegClk"
      = .ok ncfg)
    (hnrange : ∀ b ∈ ncfg.bits,
      (getBit config (chip.chip_info.bel_data bel).y (chip.chip_info.bel_data bel).x
        b.row b.col).isSome = true) :
    (∀ (lut_init : Nat) (carry_enable dff_enable set_noreset async_sr : Bool),
      (lcVector lut_init carry_enable dff_enable set_noreset async_sr).length = 20 ∧
      (∀ i, i < 16 →
        (lcVector lut_init carry_enable dff_enable set_noreset async_sr).getD
          (lut_perm.getD i 0) false = lut_init.testBit i) ∧
      (lcVector lut_init carry_enable dff_enable set_noreset async_sr).getD 8 false
        = carry_enable ∧
      (lcVector lut_init carry_enable dff_enable set_noreset async_sr).getD 9 false
        = dff_enable ∧
      (lcVector lut_init carry_enable dff_enable set_noreset async_sr).getD 18 false
        = set_noreset ∧
      (lcVector lut_init carry_enable dff_enable set_noreset async_sr).getD 19 false
        = async_sr) ∧
    ∃ c1,
      setCell chip config cell bel = .ok c1 ∧
      (∀ i, i < 20 → ∀ b, cfg.bits[i]? = some b → b ∉ ncfg.bits →
        getBit c1 (chip.chip_info.bel_data bel).y (chip.chip_info.bel_data bel).x b.row b.col =
          some ((lcVector (toUnsigned l) (toBool ce) (toBool de) (toBool snr)
            (toBool asr)).getD i false)) ∧
      (∀ b ∈ ncfg.bits,
        getBit c1 (chip.chip_info.bel_data bel).y (chip.chip_info.bel_data bel).x b.row b.col =
          some (toBool nc)) ∧
      (∀ y1 x1 r col,
        ¬ (y1 = (chip.chip_info.bel_data bel).y ∧ x1 = (chip.chip_info.bel_data bel).x ∧
          ((∃ i, i < 20 ∧ cfg.bits[i]? = some ⟨r, col⟩) ∨
            (ConfigBitPOD.mk r col) ∈ ncfg.bits)) →
        getBit c1 y1 x1 r col = getBit config y1 x1 r col) := by
  refine ⟨fun lut c d s a => lcVector_positions lut c d s a, ?_⟩
  rw [setCell_of_lc_type htype]
  have h := setLCCell_writes
    (p := ⟨toUnsigned l, toBool nc, toBool de, toBool asr, toBool snr, toBool ce⟩)
    (lcParams_of_stoi hlut hneg hdff hasr hsnr hcar) hfind hrange hdist hnfind hnrange
  exact h

/-- The cell `lcCarryDemoCell` (truth table `0x8001`, carry enable and negative
clock set) on the device `lcDemoChip lcNegDemoTile`, from the zero grid: the
hypotheses hold, and the serialized tile shows truth-table bits 0 and 15 at
positions 4 and 0, the carry flag at position 8 and the `NegClk` bit. -/
theorem lc_vector_layout_witness :
    ((∀ (lut_init : Nat) (carry_enable dff_enable set_noreset async_sr : Bool),
        (lcVector lut_init carry_enable dff_enable set_noreset async_sr).length = 20 ∧
        (∀ i, i < 16 →
          (lcVector lut_init carry_enable dff_enable set_noreset async_sr).getD
            (lut_perm.getD i 0) false = lut_init.testBit i) ∧
        (lcVector lut_init carry_enable dff_enable set_noreset async_sr).getD 8 false
          = carry_enable ∧
        (lcVector lut_init carry_enable dff_enable set_noreset async_sr).getD 9 false
          = dff_enable ∧
        (lcVector lut_init carry_enable dff_enable set_noreset async_sr).getD 18 false
          = set_noreset ∧
        (lcVector lut_init carry_enable dff_enable set_noreset async_sr).getD 19 false
          = async_sr) ∧
      ∃ c1,
        setCell (lcDemoChip lcNegDemoTile) (initConfig (lcDemoChip lcNegDemoTile))
          lcCarryDemoCell 0 = .ok c1 ∧
        (∀ i, i < 20 → ∀ b,
          (ConfigEntryPOD.mk "LC_0"
            ((List.range 20).map fun i => ⟨0, Int.ofNat i⟩)).bits[i]? = some b →
          b ∉ (ConfigEntryPOD.mk "NegClk" [⟨1, 0⟩]).bits →
          getBit c1 ((lcDemoChip lcNegDemoTile).chip_info.bel_data 0).y
              ((lcDemoChip lcNegDemoTile).chip_info.bel_data 0).x b.row b.col =
            some ((lcVector (toUnsigned 32769) (toBool 1) (toBool 0) (toBool 0)
              (toBool 0)).getD i false)) ∧
        (∀ b ∈ (ConfigEntryPOD.mk "NegClk" [⟨1, 0⟩]).bits,
          getBit c1 ((lcDemoChip lcNegDemoTile).chip_info.bel_data 0).y
              ((lcDemoChip lcNegDemoTile).chip_info.bel_data 0).x b.row b.col =
            some (toBool 1)) ∧
        (∀ y1 x1 r col,
          ¬ (y1 = ((lcDemoChip lcNegDemoTile).chip_info.bel_data 0).y ∧
            x1 = ((lcDemoChip lcNegDemoTile).chip_info.bel_data 0).x ∧
            ((∃ i, i < 20 ∧
              (ConfigEntryPOD.mk "LC_0"
                ((List.range 20).map fun i => ⟨0, Int.ofNat i⟩)).bits[i]? = some ⟨r, col⟩) ∨
              (ConfigBitPOD.mk r col) ∈ (ConfigEntryPOD.mk "NegClk" [⟨1, 0⟩]).bits)) →
          getBit c1 y1 x1 r col =
            getBit (initConfig (lcDemoChip lcNegDemoTile)) y1 x1 r col)) ∧
    (write_asc ⟨lcDemoChip lcNegDemoTile, [("lc", lcCarryDemoCell)]⟩).out =
      [".comment from next-pnr", ".device 8k", ".logic_tile 0 0",
       "10001000100000000000", "10000000000000000000", ""] := by
  refine ⟨?_, by decide⟩
  exact lc_vector_layout (lcDemoChip lcNegDemoTile) (initConfig (lcDemoChip lcNegDemoTile))
    lcCarryDemoCell 0 32769 1 0 0 0 1
    ⟨"LC_0", (List.range 20).map fun i => ⟨0, Int.ofNat i⟩⟩ ⟨"NegClk", [⟨1, 0⟩]⟩
    rfl rfl rfl rfl rfl rfl rfl rfl (by decide) (by decide) rfl (by decide)

/-- C2 (counterexample): in the layout `lcDupDemoTile` the listed bits number 4
and number 8 of `LC_0` are the same coordinate `(0, 4)`.  For the placed cell
`lcOneDemoCell` (truth table `0x0001`, carry enable 0) position 4 of the vector
is true and is written to `(0, 4)`; the write of position 8, the carry flag,
then stores 0 there.  The encode succeeds and the truth-table bit is lost: a
flag has overwritten a truth-table bit. -/
theorem flag_overwrites_truth_table_bit :
    (lcVector 1 false false false false).getD 4 false = true ∧
    (lcVector 1 false false false false).getD 8 false = false ∧
    (find_config lcDupDemoTile "LC_0").toOption.map (fun e => (e.bits[4]?, e.bits[8]?)) =
      some (some ⟨0, 4⟩, some ⟨0, 4⟩) ∧
    (write_asc ⟨lcDemoChip lcDupDemoTile, [("lc", lcOneDemoCell)]⟩).err = none ∧
    (encodeConfig ⟨lcDemoChip lcDupDemoTile, [("lc", lcOneDemoCell)]⟩).2.toOption.map
      (fun c => getBit c 0 0 0 4) = some (some false) ∧
    (write_asc ⟨lcDemoChip lcDupDemoTile, [("lc", lcOneDemoCell)]⟩).out =
      [".comment from next-pnr", ".device 8k", ".logic_tile 0 0",
       "00000000000000000000", "00000000000000000000", ""] ∧
    (write_asc ⟨lcDemoChip lcNegDemoTile, [("lc", lcOneDemoCell)]⟩).out =
      [".comment from next-pnr", ".device 8k", ".logic_tile 0 0",
       "00001000000000000000", "00000000000000000000", ""] := by
  decide

/-! ## The enable register of an I/O cell -/

theorem WritesTo_isSome {c c1 : Config} {y x : Int} {bits : List ConfigBitPOD} {v : Bool}
    (h : WritesTo c c1 y x bits v) (y1 x1 r col : Int) :
    (getBit c1 y1 x1 r col).isSome = (getBit c y1 x1 r col).isSome := by
  obtain ⟨_, hin, hout⟩ := h
  by_cases hm : y1 = y ∧ x1 = x ∧ (ConfigBitPOD.mk r col) ∈ bits
  · obtain ⟨hy, hx, hb⟩ := hm
    subst hy; subst hx
    have := hin _ hb
    rw [this.2, this.1]; rfl
  · rw [hout _ _ _ _ hm]

theorem setIeren_total {ti : TileInfoPOD} {c1 : Config} {iex iey iez : Int}
    {cfgIE cfgREN : ConfigEntryPOD} (ie ren : Bool)
    (hIE : find_config ti ("IoCtrl.IE_" ++ toString iez) = .ok cfgIE)
    (hREN : find_config ti ("IoCtrl.REN_" ++ toString iez) = .ok cfgREN)
    (htile : (get2 c1 iey iex).isSome = true)
    (hrIE : ∀ b ∈ cfgIE.bits, (getBit c1 iey iex b.row b.col).isSome = true)
    (hrREN : ∀ b ∈ cfgREN.bits, (getBit c1 iey iex b.row b.col).isSome = true) :
    ∃ cIE c2, setIeren ti c1 iex iey iez ie ren = .ok c2 ∧
      WritesTo c1 cIE iey iex cfgIE.bits ie ∧ WritesTo cIE c2 iey iex cfgREN.bits ren := by
  obtain ⟨cIE, hcIE, htile1, hw1⟩ := withTile_set_config_all_succeeds ie hIE htile hrIE
  have hr2 : ∀ b ∈ cfgREN.bits, (getBit cIE iey iex b.row b.col).isSome = true := by
    intro b hb
    rw [WritesTo_isSome hw1]; exact hrREN b hb
  obtain ⟨c2, hc2, _, hw2⟩ := withTile_set_config_all_succeeds ren hREN htile1 hr2
  refine ⟨cIE, c2, ?_, hw1, hw2⟩
  unfold setIeren
  rw [hcIE]; exact hc2

theorem setIeren_ok {ti : TileInfoPOD} {c1 c2 : Config} {iex iey iez : Int} {ie ren : Bool}
    (h : setIeren ti c1 iex iey iez ie ren = .ok c2) :
    ∃ cfgIE cfgREN cIE,
      find_config ti ("IoCtrl.IE_" ++ toString iez) = .ok cfgIE ∧
      find_config ti ("IoCtrl.REN_" ++ toString iez) = .ok cfgREN ∧
      WritesTo c1 cIE iey iex cfgIE.bits ie ∧ WritesTo cIE c2 iey iex cfgREN.bits ren := by
  unfold setIeren at h
  cases h1 : withTile c1 iey iex
      (fun t => set_config ti t ("IoCtrl.IE_" ++ toString iez) ie (-1)) with
  | error e => rw [h1] at h; cases h
  | ok cIE =>
    rw [h1] at h; dsimp only at h
    obtain ⟨cfgIE, hIE, hw1⟩ := withTile_set_config_all_ok h1
    obtain ⟨cfgREN, hREN, hw2⟩ := withTile_set_config_all_ok h
    exact ⟨cfgIE, cfgREN, cIE, hIE, hREN, hw1, hw2⟩

theorem setIeren_final {c1 cIE c2 : Config} {iex iey : Int} {bitsIE bitsREN : List ConfigBitPOD}
    {ie ren : Bool} (hw1 : WritesTo c1 cIE iey iex bitsIE ie)
    (hw2 : WritesTo cIE c2 iey iex bitsREN ren) :
    (∀ b ∈ bitsREN, getBit c2 iey iex b.row b.col = some ren) ∧
    (∀ b ∈ bitsIE, b ∉ bitsREN → getBit c2 iey iex b.row b.col = some ie) ∧
    (∀ y1 x1 r col,
      ¬ (y1 = iey ∧ x1 = iex ∧
        ((ConfigBitPOD.mk r col) ∈ bitsIE ∨ (ConfigBitPOD.mk r col) ∈ bitsREN)) →
      getBit c2 y1 x1 r col = getBit c1 y1 x1 r col) := by
  obtain ⟨_, hin1, hout1⟩ := hw1
  obtain ⟨_, hin2, hout2⟩ := hw2
  refine ⟨fun b hb => (hin2 b hb).2, ?_, ?_⟩
  · intro b hb hnb
    rw [hout2 _ _ _ _ (fun h => hnb h.2.2)]
    exact (hin1 b hb).2
  · intro y1 x1 r col hne
    rw [hout2 _ _ _ _ (fun h => hne ⟨h.1, h.2.1, Or.inr h.2.2⟩),
      hout1 _ _ _ _ (fun h => hne ⟨h.1, h.2.1, Or.inl h.2.2⟩)]

/-- C3 (as amended): for a placed I/O cell whose enable register
`(iex, iey, iez)` exists, the encoder writes in tile `(iex, iey)` (which may
be the cell's own tile) every bit of `IoCtrl.REN_<iez>` to `not pullup` and
every bit of `IoCtrl.IE_<iez>` to the derived input enable, negated on LP1K and
HX1K, and touches no other bit after the pin-type writes; the input enable is
true iff one of the two input-data wires is bound to a net. -/
theorem io_enable_register (chip : Chip) (config c1 : Config) (cell : CellInfo) (bel : Nat)
    (x y z : Int) (p : IOParams) (cfgIE cfgREN : ConfigEntryPOD)
    (hp : ioParams cell = .ok p)
    (hpin : setPinType (chip.chip_info.bits_info.tiles_nonrouting TileType.TILE_IO)
      config x y z p.pin_type = .ok c1)
    (hreg : (get_ieren chip.chip_info.bits_info x y z).2.2 ≠ -1)
    (hIE : find_config (chip.chip_info.bits_info.tiles_nonrouting TileType.TILE_IO)
      ("IoCtrl.IE_" ++ toString (get_ieren chip.chip_info.bits_info x y z).2.2) = .ok cfgIE)
    (hREN : find_config (chip.chip_info.bits_info.tiles_nonrouting TileType.TILE_IO)
      ("IoCtrl.REN_" ++ toString (get_ieren chip.chip_info.bits_info x y z).2.2) = .ok cfgREN)
    (htile : (get2 c1 (get_ieren chip.chip_info.bits_info x y z).2.1
      (get_ieren chip.chip_info.bits_info x y z).1).isSome = true)
    (hrIE : ∀ b ∈ cfgIE.bits, bitInRange c1 (get_ieren chip.chip_info.bits_info x y z).2.1
      (get_ieren chip.chip_info.bits_info x y z).1 (some b) = true)
    (hrREN : ∀ b ∈ cfgREN.bits, bitInRange c1 (get_ieren chip.chip_info.bits_info x y z).2.1
      (get_ieren chip.chip_info.bits_info x y z).1 (some b) = true) :
    (inputEn chip bel = true ↔
      (chip.wire_to_net (chip.getWireBelPin bel .PIN_D_IN_0) ≠ "" ∨
        chip.wire_to_net (chip.getWireBelPin bel .PIN_D_IN_1) ≠ "")) ∧
    ∃ c2, setIOCell chip config cell bel x y z = .ok c2 ∧
      (∀ b ∈ cfgREN.bits,
        getBit c2 (get_ieren chip.chip_info.bits_info x y z).2.1
          (get_ieren chip.chip_info.bits_info x y z).1 b.row b.col = some (!p.pullup)) ∧
      (∀ b ∈ cfgIE.bits, b ∉ cfgREN.bits →
        getBit c2 (get_ieren chip.chip_info.bits_info x y z).2.1
          (get_ieren chip.chip_info.bits_info x y z).1 b.row b.col =
          some (if chip.args_type = .LP1K ∨ chip.args_type = .HX1K
            then !inputEn chip bel else inputEn chip bel)) ∧
      (∀ y1 x1 r col,
        ¬ (y1 = (get_ieren chip.chip_info.bits_info x y z).2.1 ∧
           x1 = (get_ieren chip.chip_info.bits_info x y z).1 ∧
           ((ConfigBitPOD.mk r col) ∈ cfgIE.bits ∨ (ConfigBitPOD.mk r col) ∈ cfgREN.bits)) →
        getBit c2 y1 x1 r col = getBit c1 y1 x1 r col) := by
  refine ⟨by simp [inputEn], ?_⟩
  by_cases h1k : chip.args_type = .LP1K ∨ chip.args_type = .HX1K
  · have his : is1k chip.args_type = true := by
      rcases h1k with h | h <;> rw [h] <;> rfl
    obtain ⟨cIE, c2, hc2, hw1, hw2⟩ := setIeren_total (!inputEn chip bel) (!p.pullup)
      hIE hREN htile hrIE hrREN
    refine ⟨c2, ?_, ?_⟩
    · unfold setIOCell
      simp only [hp, hpin, if_neg hreg, his, if_true]
      exact hc2
    · simpa only [if_pos h1k] using setIeren_final hw1 hw2
  · have his : is1k chip.args_type = false := by
      cases ht : chip.args_type <;> simp_all [is1k]
    obtain ⟨cIE, c2, hc2, hw1, hw2⟩ := setIeren_total (inputEn chip bel) (!p.pullup)
      hIE hREN htile hrIE hrREN
    refine ⟨c2, ?_, ?_⟩
    · unfold setIOCell
      simp only [hp, hpin, if_neg hreg, his]
      exact hc2
    · simpa only [if_neg h1k] using setIeren_final hw1 hw2

/-- Scenario B on a direct-polarity family (HX8K): pin type 1, pull-up on, no
input wire connected; the bit of `IoCtrl.REN_1` and the bit of `IoCtrl.IE_1`
are both 0 after the cell is encoded. -/
theorem io_enable_register_witness :
    ∃ c2, setIOCell (ioDemoChip .HX8K "" "" "io") (initConfig (ioDemoChip .HX8K "" "" "io"))
        ioDemoCell 0 0 0 0 = .ok c2 ∧
      getBit c2 0 0 1 3 = some false ∧ getBit c2 0 0 1 2 = some false := by
  obtain ⟨_, c2, h, hren, hie, _⟩ := io_enable_register (ioDemoChip .HX8K "" "" "io")
    (initConfig (ioDemoChip .HX8K "" "" "io"))
    [[[[true, false, false, false, false, false, false, false],
       [false, false, false, false, false, false, false, false]]]]
    ioDemoCell 0 0 0 0 ⟨1, false, true⟩ ⟨"IoCtrl.IE_1", [⟨1, 2⟩]⟩ ⟨"IoCtrl.REN_1", [⟨1, 3⟩]⟩
    rfl rfl (by decide) rfl rfl (by decide) (by decide) (by decide)
  exact ⟨c2, h, hren ⟨1, 3⟩ (List.mem_singleton.2 rfl),
    hie ⟨1, 2⟩ (List.mem_singleton.2 rfl) (by decide)⟩

/-- Scenario B evaluated: pin type 1, pull-up on.  With no input wire connected
the bits of `IoCtrl.IE_1` (column 2) and `IoCtrl.REN_1` (column 3) are 0, 0 on
HX8K and 1, 0 on LP1K; connecting `D_IN_1` flips the first to 1 on HX8K and to
0 on LP1K. -/
theorem io_scenario_B :
    (setIOCell (ioDemoChip .HX8K "" "" "io") (initConfig (ioDemoChip .HX8K "" "" "io"))
      ioDemoCell 0 0 0 0).toOption =
      some [[[[true, false, false, false, false, false, false, false],
              [false, false, false, false, false, false, false, false]]]] ∧
    (setIOCell (ioDemoChip .LP1K "" "" "io") (initConfig (ioDemoChip .LP1K "" "" "io"))
      ioDemoCell 0 0 0 0).toOption =
      some [[[[true, false, false, false, false, false, false, false],
              [false, false, true, false, false, false, false, false]]]] ∧
    (setIOCell (ioDemoChip .HX8K "" "n" "io") (initConfig (ioDemoChip .HX8K "" "n" "io"))
      ioDemoCell 0 0 0 0).toOption =
      some [[[[true, false, false, false, false, false, false, false],
              [false, false, true, false, false, false, false, false]]]] ∧
    (setIOCell (ioDemoChip .LP1K "" "n" "io") (initConfig (ioDemoChip .LP1K "" "n" "io"))
      ioDemoCell 0 0 0 0).toOption =
      some [[[[true, false, false, false, false, false, false, false],
              [false, false, false, false, false, false, false, false]]]] :=
  ⟨by decide, by decide, by decide, by decide⟩

/-- C3 (counterexample): on `ioDemoChip` the enable register of the pin
`(0, 0, 0)` is `(0, 0, 1)`, in the cell's own tile `(0, 0)`; with `D_IN_0`
connected on HX8K, encoding the cell turns bit `(1, 2)` of that tile, the bit
of `IoCtrl.IE_1`, from 0 to 1: the enable write lands in the cell's own tile. -/
theorem io_enable_register_own_tile :
    get_ieren (ioDemoChip .HX8K "n" "" "io").chip_info.bits_info 0 0 0 = (0, 0, 1) ∧
    ((ioDemoChip .HX8K "n" "" "io").chip_info.bel_data 0).x = 0 ∧
    ((ioDemoChip .HX8K "n" "" "io").chip_info.bel_data 0).y = 0 ∧
    (setPinType ioDemoTile (initConfig (ioDemoChip .HX8K "n" "" "io")) 0 0 0 1).toOption =
      some [[[[true, false, false, false, false, false, false, false],
              [false, false, false, false, false, false, false, false]]]] ∧
    (setIOCell (ioDemoChip .HX8K "n" "" "io") (initConfig (ioDemoChip .HX8K "n" "" "io"))
      ioDemoCell 0 0 0 0).toOption =
      some [[[[true, false, false, false, false, false, false, false],
              [false, false, true, false, false, false, false, false]]]] := by
  decide

/-! ## Select codes -/

theorem nat_single_bit (x k : Nat) (b : Bool)
    (h : ∀ j, x.testBit j = (decide (k = j) && b)) : (x != 0) = b := by
  cases b with
  | false =>
    have : x = 0 := by
      apply Nat.eq_of_testBit_eq
      intro j
      rw [h j]; simp
    simp [this]
  | true =>
    have hk := h k
    simp at hk
    have : x ≠ 0 := by
      intro h0
      rw [h0] at hk
      simp at hk
    simpa using this

theorem pipVal_eq_testBit (m : Int) (n i : Nat) : pipVal m n i = m.testBit (n - 1 - i) := by
  unfold pipVal
  rw [Int.one_shiftLeft]
  generalize n - 1 - i = k
  cases m with
  | ofNat a =>
    have h1 : Int.land (Int.ofNat a) ((2 ^ k : ℕ) : ℤ) = ((a &&& 2 ^ k : ℕ) : ℤ) := rfl
    rw [h1]
    have h2 : (((a &&& 2 ^ k : ℕ) : ℤ) != 0) = ((a &&& 2 ^ k) != 0) := by
      simp [bne]
    rw [h2]
    show _ = a.testBit k
    apply nat_single_bit _ k
    intro j
    rw [Nat.testBit_and, Nat.testBit_two_pow]
    by_cases hkj : k = j
    · subst hkj; simp
    · simp [hkj]
  | negSucc a =>
    have h1 : Int.land (Int.negSucc a) ((2 ^ k : ℕ) : ℤ) = ((Nat.ldiff (2 ^ k) a : ℕ) : ℤ) := rfl
    rw [h1]
    have h2 : (((Nat.ldiff (2 ^ k) a : ℕ) : ℤ) != 0) = ((Nat.ldiff (2 ^ k) a) != 0) := by
      simp [bne]
    rw [h2]
    show _ = !a.testBit k
    apply nat_single_bit _ k
    intro j
    rw [Nat.testBit_ldiff, Nat.testBit_two_pow]
    by_cases hkj : k = j
    · subst hkj; simp
    · simp [hkj]

theorem nat_mod_two_pow_succ (a n : Nat) :
    a % 2 ^ (n + 1) = (a.testBit n).toNat * 2 ^ n + a % 2 ^ n := by
  rw [Nat.mod_pow_succ, Nat.testBit_to_div_mod]
  have : a / 2 ^ n % 2 < 2 := Nat.mod_lt _ (by decide)
  rcases Nat.lt_succ_iff_lt_or_eq.1 this with h | h
  · have h0 : a / 2 ^ n % 2 = 0 := by omega
    simp [h0]
  · simp [h]; ring

theorem int_mod_two_pow_succ (m : Int) (n : Nat) :
    (m % 2 ^ (n + 1)).toNat = (m.testBit n).toNat * 2 ^ n + (m % 2 ^ n).toNat := by
  have hpos : (0 : Int) < 2 ^ n := by positivity
  have hpos1 : (0 : Int) < 2 ^ (n + 1) := by positivity
  cases m with
  | ofNat a =>
    have e1 : (Int.ofNat a % 2 ^ (n + 1)).toNat = a % 2 ^ (n + 1) := by
      have : (Int.ofNat a % 2 ^ (n + 1)) = ((a % 2 ^ (n + 1) : ℕ) : ℤ) := by
        simp
      rw [this]; exact Int.toNat_natCast _
    have e2 : (Int.ofNat a % 2 ^ n).toNat = a % 2 ^ n := by
      have : (Int.ofNat a % 2 ^ n) = ((a % 2 ^ n : ℕ) : ℤ) := by
        simp
      rw [this]; exact Int.toNat_natCast _
    rw [e1, e2]
    exact nat_mod_two_pow_succ a n
  | negSucc a =>
    rw [Int.negSucc_emod a hpos1, Int.negSucc_emod a hpos]
    show _ = (!a.testBit n).toNat * 2 ^ n + _
    have hn := nat_mod_two_pow_succ a n
    have hlt : a % 2 ^ n < 2 ^ n := Nat.mod_lt _ (by positivity)
    have c1 : ((a : ℤ) % 2 ^ (n + 1)) = ((a % 2 ^ (n + 1) : ℕ) : ℤ) := by simp
    have c2 : ((a : ℤ) % 2 ^ n) = ((a % 2 ^ n : ℕ) : ℤ) := by simp
    have c3 : ((2 : ℤ) ^ (n + 1)) = 2 * ((2 ^ n : ℕ) : ℤ) := by push_cast; ring
    have c4 : ((2 : ℤ) ^ n) = ((2 ^ n : ℕ) : ℤ) := by push_cast; ring
    rw [c1, c2, c3, c4, hn]
    generalize 2 ^ n = P at *
    generalize a % P = r at *
    cases a.testBit n <;> simp <;> omega

theorem readBits_cons (b : Bool) (l : List Bool) :
    readBits (b :: l) = b.toNat * 2 ^ l.length + readBits l := by
  unfold readBits
  have : ∀ (l : List Bool) (acc : Nat),
      l.foldl (fun a b => 2 * a + b.toNat) acc
        = acc * 2 ^ l.length + l.foldl (fun a b => 2 * a + b.toNat) 0 := by
    intro l
    induction l with
    | nil => intro acc; simp
    | cons c l ih =>
      intro acc
      simp only [List.foldl_cons, List.length_cons]
      rw [ih (2 * acc + c.toNat), ih (2 * 0 + c.toNat)]
      ring
  simp only [List.foldl_cons]
  rw [this]
  simp

theorem readBits_testBit (m : Int) (n : Nat) :
    readBits ((List.range n).map fun i => m.testBit (n - 1 - i)) = (m % 2 ^ n).toNat := by
  induction n with
  | zero => simp [readBits, Int.emod_one]
  | succ n ih =>
    rw [List.range_succ_eq_map, List.map_cons, readBits_cons, int_mod_two_pow_succ]
    simp only [List.map_map, List.length_map, List.length_range]
    have : ((fun i => m.testBit (n + 1 - 1 - i)) ∘ Nat.succ) = fun i => m.testBit (n - 1 - i) := by
      funext i
      simp only [Function.comp]
      congr 1
      omega
    rw [this, ih]
    simp

/-! ## The bit loop of a routing edge -/

theorem withTile_congr {c : Config} {y x : Int} {f g : TileCfg → Except Err TileCfg}
    {t : TileCfg} (ht : get2 c y x = some t) (hfg : f t = g t) :
    withTile c y x f = withTile c y x g := by
  unfold get2 at ht
  unfold withTile
  cases hr : vecAt c y with
  | none => rfl
  | some r =>
    rw [hr] at ht; dsimp only at ht
    simp only [ht, hfg]

theorem withTile_pipSetBit_of_false {c : Config} {y x : Int} {b : ConfigBitPOD} (v : Bool)
    (h : getBit c y x b.row b.col = some false) :
    withTile c y x (fun t => pipSetBit t b v) = withTile c y x (fun t => setBit t b v) := by
  unfold getBit at h
  cases ht : get2 c y x with
  | none => rw [ht] at h; cases h
  | some t =>
    rw [ht] at h; dsimp only at h
    exact withTile_congr ht (pipSetBit_of_false v h)

theorem setPipBits_spec (swi : SwitchInfoPOD) (m : Int) :
    ∀ (bs : List ConfigBitPOD) (c : Config) (i : Nat),
      bs.Nodup →
      (∀ b ∈ bs, getBit c swi.y swi.x b.row b.col = some false) →
      ∃ c1, setPipBits swi m c i bs = .ok c1 ∧ gridDims c1 = gridDims c ∧
        (∀ k b, bs[k]? = some b →
          getBit c1 swi.y swi.x b.row b.col = some (pipVal m swi.cbits.length (i + k))) ∧
        (∀ y1 x1 r col, ¬ (y1 = swi.y ∧ x1 = swi.x ∧ (ConfigBitPOD.mk r col) ∈ bs) →
          getBit c1 y1 x1 r col = getBit c y1 x1 r col) := by
  intro bs
  induction bs with
  | nil =>
    intro c i _ _
    exact ⟨c, rfl, rfl, by simp, fun _ _ _ _ _ => rfl⟩
  | cons b bs ih =>
    intro c i hnd hfalse
    have hb := hfalse b (List.mem_cons_self _ _)
    have hbsome : (getBit c swi.y swi.x b.row b.col).isSome = true := by rw [hb]; rfl
    obtain ⟨c2, hc2⟩ := withTile_setBit_succeeds (pipVal m swi.cbits.length i) hbsome
    obtain ⟨hd2, hin2, hout2⟩ := withTile_setBit_ok hc2
    have hb_notin : b ∉ bs := (List.nodup_cons.1 hnd).1
    have hfalse2 : ∀ b1 ∈ bs, getBit c2 swi.y swi.x b1.row b1.col = some false := by
      intro b1 hb1
      have hne : ¬ (swi.y = swi.y ∧ swi.x = swi.x ∧ (ConfigBitPOD.mk b1.row b1.col) ∈ [b]) := by
        rintro ⟨_, _, hm⟩
        have : b1 = b := by simpa using hm
        exact hb_notin (this ▸ hb1)
      rw [hout2 _ _ _ _ hne]
      exact hfalse b1 (List.mem_cons_of_mem _ hb1)
    obtain ⟨c1, hc1, hd1, hin1, hout1⟩ := ih c2 (i + 1) (List.nodup_cons.1 hnd).2 hfalse2
    refine ⟨c1, ?_, hd1.trans hd2, ?_, ?_⟩
    · simp only [setPipBits]
      rw [withTile_pipSetBit_of_false _ hb, hc2]
      exact hc1
    · intro k b1 hk
      cases k with
      | zero =>
        simp only [List.getElem?_cons_zero, Option.some.injEq] at hk
        subst hk
        have hne : ¬ (swi.y = swi.y ∧ swi.x = swi.x ∧ (ConfigBitPOD.mk b.row b.col) ∈ bs) :=
          fun h => hb_notin h.2.2
        rw [hout1 _ _ _ _ hne]
        exact (hin2 b (List.mem_singleton.2 rfl)).2
      | succ k =>
        simp only [List.getElem?_cons_succ] at hk
        have := hin1 k b1 hk
        rw [this]
        congr 2
        omega
    · intro y1 x1 r col hne
      have h1 : ¬ (y1 = swi.y ∧ x1 = swi.x ∧ (ConfigBitPOD.mk r col) ∈ bs) :=
        fun h => hne ⟨h.1, h.2.1, List.mem_cons_of_mem _ h.2.2⟩
      have h2 : ¬ (y1 = swi.y ∧ x1 = swi.x ∧ (ConfigBitPOD.mk r col) ∈ [b]) := by
        rintro ⟨h1, h2, hm⟩
        have : (ConfigBitPOD.mk r col) = b := by simpa using hm
        exact hne ⟨h1, h2, this ▸ List.mem_cons_self _ _⟩
      rw [hout1 _ _ _ _ h1, hout2 _ _ _ _ h2]

/-- C4: a routing edge bound to a net, whose switch declares at most 31 bit
positions that are pairwise distinct and all false in the grid, is encoded
without abort; afterwards the `i`-th declared position holds bit `n-1-i` of the
select code (most significant bit first), reading the positions in declared
order gives the select code modulo `2^n`, and every other bit is unchanged.
An edge bound to no net leaves the grid as it is. -/
theorem pip_select_bits (chip : Chip) (config : Config) (pip : Nat) :
    (chip.pip_to_net pip = "" → setPip chip config pip = .ok config) ∧
    (chip.pip_to_net pip ≠ "" →
      (chip.chip_info.bits_info.switches
        (chip.chip_info.pip_data pip).switch_index).cbits.length ≤ 31 →
      (chip.chip_info.bits_info.switches
        (chip.chip_info.pip_data pip).switch_index).cbits.Nodup →
      (∀ b ∈ (chip.chip_info.bits_info.switches
          (chip.chip_info.pip_data pip).switch_index).cbits,
        getBit config
          (chip.chip_info.bits_info.switches (chip.chip_info.pip_data pip).switch_index).y
          (chip.chip_info.bits_info.switches (chip.chip_info.pip_data pip).switch_index).x
          b.row b.col = some false) →
      ∃ c1, setPip chip config pip = .ok c1 ∧
        (∀ i b, (chip.chip_info.bits_info.switches
            (chip.chip_info.pip_data pip).switch_index).cbits[i]? = some b →
          getBit c1
            (chip.chip_info.bits_info.switches (chip.chip_info.pip_data pip).switch_index).y
            (chip.chip_info.bits_info.switches (chip.chip_info.pip_data pip).switch_index).x
            b.row b.col =
          some ((chip.chip_info.pip_data pip).switch_mask.testBit
            ((chip.chip_info.bits_info.switches
              (chip.chip_info.pip_data pip).switch_index).cbits.length - 1 - i))) ∧
        readBits ((chip.chip_info.bits_info.switches
            (chip.chip_info.pip_data pip).switch_index).cbits.map fun b =>
          (getBit c1
            (chip.chip_info.bits_info.switches (chip.chip_info.pip_data pip).switch_index).y
            (chip.chip_info.bits_info.switches (chip.chip_info.pip_data pip).switch_index).x
            b.row b.col).getD false) =
          ((chip.chip_info.pip_data pip).switch_mask %
            2 ^ (chip.chip_info.bits_info.switches
              (chip.chip_info.pip_data pip).switch_index).cbits.length).toNat ∧
        (∀ y1 x1 r col,
          ¬ (y1 = (chip.chip_info.bits_info.switches
                (chip.chip_info.pip_data pip).switch_index).y ∧
             x1 = (chip.chip_info.bits_info.switches
                (chip.chip_info.pip_data pip).switch_index).x ∧
             (ConfigBitPOD.mk r col) ∈ (chip.chip_info.bits_info.switches
                (chip.chip_info.pip_data pip).switch_index).cbits) →
          getBit c1 y1 x1 r col = getBit config y1 x1 r col)) := by
  generalize hswi : chip.chip_info.bits_info.switches
    (chip.chip_info.pip_data pip).switch_index = swi at *
  generalize hm : (chip.chip_info.pip_data pip).switch_mask = m at *
  constructor
  · intro hnet
    unfold setPip
    simp [hnet]
  · intro hnet _ hnd hfalse
    obtain ⟨c1, hc1, _, hin, hout⟩ := setPipBits_spec swi m swi.cbits config 0 hnd hfalse
    have hval : ∀ i b, swi.cbits[i]? = some b →
        getBit c1 swi.y swi.x b.row b.col = some (m.testBit (swi.cbits.length - 1 - i)) := by
      intro i b hb
      rw [hin i b hb, Nat.zero_add, pipVal_eq_testBit]
    refine ⟨c1, ?_, hval, ?_, hout⟩
    · unfold setPip
      simp only [hswi, hm]
      rw [if_pos (by simpa using hnet)]
      exact hc1
    · rw [← readBits_testBit]
      congr 1
      apply List.ext_getElem?
      intro i
      simp only [List.getElem?_map, List.getElem?_range]
      by_cases hi : i < swi.cbits.length
      · have hget : swi.cbits[i]? = some swi.cbits[i] := List.getElem?_eq_getElem hi
        rw [hget]
        simp only [Option.map_some']
        rw [hval i _ hget]
        simp [List.getElem?_range hi]
      · have hnone : swi.cbits[i]? = none := List.getElem?_eq_none (by omega)
        rw [hnone]
        have hr : (List.range swi.cbits.length)[i]? = none :=
          List.getElem?_eq_none (by simpa using Nat.le_of_not_lt hi)
        rw [hr]; rfl

/-- Edge 0 of `pipDemoChip`, bound to a net and with select code 2, on the zero
grid: its two bits receive 1 and 0. -/
theorem pip_select_bits_witness :
    ∃ c1, setPip (pipDemoChip .HX8K 2 0 "n" "") (initConfig (pipDemoChip .HX8K 2 0 "n" "")) 0
        = .ok c1 ∧
      getBit c1 0 0 0 0 = some true ∧ getBit c1 0 0 0 1 = some false := by
  obtain ⟨c1, h, hbits, _, _⟩ := (pip_select_bits (pipDemoChip .HX8K 2 0 "n" "")
    (initConfig (pipDemoChip .HX8K 2 0 "n" "")) 0).2
    (by decide) (by decide) (by decide) (by decide)
  exact ⟨c1, h, hbits 0 ⟨0, 0⟩ rfl, hbits 1 ⟨0, 1⟩ rfl⟩

/-! ## Routing: collisions and what a successful edge leaves behind -/

theorem SameDomain_refl (c : Config) : SameDomain c c := fun _ _ _ _ => rfl

theorem SameDomain_trans {a b c : Config} (h1 : SameDomain a b) (h2 : SameDomain b c) :
    SameDomain a c := fun y x r col => (h2 y x r col).trans (h1 y x r col)

theorem KeepsTrue_refl (c : Config) : KeepsTrue c c := fun _ _ _ _ h => h

theorem KeepsTrue_trans {a b c : Config} (h1 : KeepsTrue a b) (h2 : KeepsTrue b c) :
    KeepsTrue a c := fun y x r col h => h2 y x r col (h1 y x r col h)

theorem WritesTo_sameDomain {c c1 : Config} {y x : Int} {bits : List ConfigBitPOD} {v : Bool}
    (h : WritesTo c c1 y x bits v) : SameDomain c c1 :=
  fun y1 x1 r col => WritesTo_isSome h y1 x1 r col

theorem WritesTo_keepsTrue {c c1 : Config} {y x : Int} {bits : List ConfigBitPOD}
    (h : WritesTo c c1 y x bits true) : KeepsTrue c c1 := by
  intro y1 x1 r col ht
  obtain ⟨_, hin, hout⟩ := h
  by_cases hm : y1 = y ∧ x1 = x ∧ (ConfigBitPOD.mk r col) ∈ bits
  · obtain ⟨hy, hx, hb⟩ := hm
    subst hy; subst hx
    exact (hin _ hb).2
  · rw [hout _ _ _ _ hm]; exact ht

theorem pipInRange_of_sameDomain {chip : Chip} {c c1 : Config} {pip : Nat}
    (hd : SameDomain c c1) (h : pipInRange chip c pip) : pipInRange chip c1 pip := by
  intro b hb
  rw [hd]; exact h b hb

/-- One iteration of the bit loop: either the bit was false and is now `v`, or
the bit was true and the loop aborts with a collision, or it does not exist. -/
theorem pipStep_cases (c : Config) (y x : Int) (b : ConfigBitPOD) (v : Bool) :
    (getBit c y x b.row b.col = some false ∧
      ∃ c1, withTile c y x (fun t => pipSetBit t b v) = .ok c1 ∧ WritesTo c c1 y x [b] v) ∨
    (getBit c y x b.row b.col = some true ∧
      withTile c y x (fun t => pipSetBit t b v) = .error .bitCollision) ∨
    (getBit c y x b.row b.col = none ∧
      withTile c y x (fun t => pipSetBit t b v) = .error .outOfRange) := by
  cases hg : getBit c y x b.row b.col with
  | none =>
    refine Or.inr (Or.inr ⟨rfl, ?_⟩)
    unfold getBit get2 at hg
    unfold withTile pipSetBit
    cases hr : vecAt c y with
    | none => rfl
    | some r =>
      rw [hr] at hg; dsimp only at hg ⊢
      cases hc : vecAt r x with
      | none => rfl
      | some t =>
        rw [hc] at hg; dsimp only at hg ⊢
        cases hl : vecAt t b.row with
        | none => rfl
        | some l =>
          rw [hl] at hg; dsimp only at hg ⊢
          rw [hg]
  | some a =>
    cases a with
    | false =>
      refine Or.inl ⟨rfl, ?_⟩
      obtain ⟨c1, hc1⟩ := withTile_setBit_succeeds (c := c) (y := y) (x := x) (b := b) v
        (by rw [hg]; rfl)
      refine ⟨c1, ?_, withTile_setBit_ok hc1⟩
      rw [withTile_pipSetBit_of_false v hg]; exact hc1
    | true =>
      refine Or.inr (Or.inl ⟨rfl, ?_⟩)
      unfold getBit at hg
      cases ht : get2 c y x with
      | none => rw [ht] at hg; cases hg
      | some t =>
        rw [ht] at hg; dsimp only at hg
        rw [withTile_congr (g := fun _ => .error .bitCollision) ht (pipSetBit_of_true v hg)]
        unfold get2 at ht
        unfold withTile
        cases hr : vecAt c y with
        | none => rw [hr] at ht; cases ht
        | some r =>
          rw [hr] at ht; dsimp only at ht ⊢
          rw [ht]

theorem WritesTo_single_keepsTrue {c c1 : Config} {y x : Int} {b : ConfigBitPOD} {v : Bool}
    (hold : getBit c y x b.row b.col = some false) (h : WritesTo c c1 y x [b] v) :
    KeepsTrue c c1 := by
  intro y1 x1 r col ht
  obtain ⟨_, _, hout⟩ := h
  by_cases hm : y1 = y ∧ x1 = x ∧ (ConfigBitPOD.mk r col) ∈ [b]
  · obtain ⟨hy, hx, hb⟩ := hm
    subst hy; subst hx
    have hb1 : (ConfigBitPOD.mk r col) = b := by simpa using hb
    rw [← hb1] at hold
    rw [hold] at ht
    cases ht
  · rw [hout _ _ _ _ hm]; exact ht

theorem setPipBits_ok (swi : SwitchInfoPOD) (m : Int) :
    ∀ (bs : List ConfigBitPOD) (c c1 : Config) (i : Nat),
      setPipBits swi m c i bs = .ok c1 →
      gridDims c1 = gridDims c ∧ SameDomain c c1 ∧ KeepsTrue c c1 ∧
      (∀ k b, bs[k]? = some b → pipVal m swi.cbits.length (i + k) = true →
        getBit c1 swi.y swi.x b.row b.col = some true) := by
  intro bs
  induction bs with
  | nil =>
    intro c c1 i h
    simp only [setPipBits, Except.ok.injEq] at h
    subst h
    exact ⟨rfl, SameDomain_refl _, KeepsTrue_refl _, by simp⟩
  | cons b bs ih =>
    intro c c1 i h
    simp only [setPipBits] at h
    rcases pipStep_cases c swi.y swi.x b (pipVal m swi.cbits.length i) with
      ⟨hold, c2, hc2, hw⟩ | ⟨_, herr⟩ | ⟨_, herr⟩
    · rw [hc2] at h; dsimp only at h
      obtain ⟨hd1, hs1, hk1, hv1⟩ := ih c2 c1 (i + 1) h
      have hk2 := WritesTo_single_keepsTrue hold hw
      refine ⟨hd1.trans hw.1, SameDomain_trans (WritesTo_sameDomain hw) hs1,
        KeepsTrue_trans hk2 hk1, ?_⟩
      intro k b1 hb1 hv
      cases k with
      | zero =>
        simp only [List.getElem?_cons_zero, Option.some.injEq] at hb1
        subst hb1
        apply hk1
        rw [(hw.2.1 b (List.mem_singleton.2 rfl)).2]
        simpa using hv
      | succ k =>
        simp only [List.getElem?_cons_succ] at hb1
        apply hv1 k b1 hb1
        have : i + 1 + k = i + (k + 1) := by omega
        rw [this]; exact hv
    · rw [herr] at h; cases h
    · rw [herr] at h; cases h

theorem setPipBits_error (swi : SwitchInfoPOD) (m : Int) :
    ∀ (bs : List ConfigBitPOD) (c : Config) (i : Nat) (e : Err),
      (∀ b ∈ bs, (getBit c swi.y swi.x b.row b.col).isSome = true) →
      setPipBits swi m c i bs = .error e → e = .bitCollision := by
  intro bs
  induction bs with
  | nil => intro c i e _ h; cases h
  | cons b bs ih =>
    intro c i e hr h
    simp only [setPipBits] at h
    rcases pipStep_cases c swi.y swi.x b (pipVal m swi.cbits.length i) with
      ⟨_, c2, hc2, hw⟩ | ⟨_, herr⟩ | ⟨hnone, _⟩
    · rw [hc2] at h; dsimp only at h
      refine ih c2 (i + 1) e ?_ h
      intro b1 hb1
      rw [WritesTo_sameDomain hw]; exact hr b1 (List.mem_cons_of_mem _ hb1)
    · rw [herr] at h
      exact (Except.error.inj h).symm
    · have := hr b (List.mem_cons_self _ _)
      rw [hnone] at this; cases this

theorem setPipBits_collides (swi : SwitchInfoPOD) (m : Int) :
    ∀ (bs : List ConfigBitPOD) (c : Config) (i : Nat) (b : ConfigBitPOD),
      b ∈ bs → getBit c swi.y swi.x b.row b.col = some true →
      ∀ c1, setPipBits swi m c i bs ≠ .ok c1 := by
  intro bs
  induction bs with
  | nil => intro c i b hb; cases hb
  | cons b0 bs ih =>
    intro c i b hb htrue c1 h
    simp only [setPipBits] at h
    rcases pipStep_cases c swi.y swi.x b0 (pipVal m swi.cbits.length i) with
      ⟨hold, c2, hc2, hw⟩ | ⟨_, herr⟩ | ⟨_, herr⟩
    · rw [hc2] at h; dsimp only at h
      rcases List.mem_cons.1 hb with hbb | hbs
      · rw [hbb, hold] at htrue; cases htrue
      · exact ih c2 (i + 1) b hbs (WritesTo_single_keepsTrue hold hw _ _ _ _ htrue) c1 h
    · rw [herr] at h; cases h
    · rw [herr] at h; cases h

theorem setPip_ok {chip : Chip} {c c1 : Config} {pip : Nat} (h : setPip chip c pip = .ok c1) :
    gridDims c1 = gridDims c ∧ SameDomain c c1 ∧ KeepsTrue c c1 := by
  unfold setPip at h
  split at h
  · obtain ⟨h1, h2, h3, _⟩ := setPipBits_ok _ _ _ _ _ _ h
    exact ⟨h1, h2, h3⟩
  · simp only [Except.ok.injEq] at h
    subst h
    exact ⟨rfl, SameDomain_refl _, KeepsTrue_refl _⟩

theorem setPip_error {chip : Chip} {c : Config} {pip : Nat} {e : Err}
    (hr : chip.pip_to_net pip ≠ "" → pipInRange chip c pip)
    (h : setPip chip c pip = .error e) : e = .bitCollision := by
  unfold setPip at h
  split at h
  · rename_i hb
    exact setPipBits_error _ _ _ _ _ _ (hr (by simpa using hb)) h
  · cases h

theorem setPips_list_ok {chip : Chip} :
    ∀ (ps : List Nat) (c c1 : Config), foldExcept (setPip chip) c ps = .ok c1 →
      gridDims c1 = gridDims c ∧ SameDomain c c1 ∧ KeepsTrue c c1 := by
  intro ps c c1 h
  exact foldExcept_rel
    (fun a b => gridDims b = gridDims a ∧ SameDomain a b ∧ KeepsTrue a b) (setPip chip)
    (fun s => ⟨rfl, SameDomain_refl s, KeepsTrue_refl s⟩)
    (fun a b c h1 h2 => ⟨h2.1.trans h1.1, SameDomain_trans h1.2.1 h2.2.1, KeepsTrue_trans h1.2.2 h2.2.2⟩)
    (fun s a s1 hs => setPip_ok hs) ps c c1 h

/-- With an edge of the list bound to a net and one of its bits already true, the
routing loop aborts with a collision (all positions being inside the grid). -/
theorem setPips_list_collides {chip : Chip} (p2 : Nat) (b : ConfigBitPOD)
    (hbound : chip.pip_to_net p2 ≠ "")
    (hb : b ∈ (chip.chip_info.bits_info.switches
      (chip.chip_info.pip_data p2).switch_index).cbits) :
    ∀ (ps : List Nat) (c : Config), p2 ∈ ps →
      (∀ p ∈ ps, chip.pip_to_net p ≠ "" → pipInRange chip c p) →
      getBit c (chip.chip_info.bits_info.switches (chip.chip_info.pip_data p2).switch_index).y
        (chip.chip_info.bits_info.switches (chip.chip_info.pip_data p2).switch_index).x
        b.row b.col = some true →
      foldExcept (setPip chip) c ps = .error .bitCollision := by
  intro ps
  induction ps with
  | nil => intro c h; cases h
  | cons p ps ih =>
    intro c hmem hr htrue
    simp only [foldExcept]
    cases hstep : setPip chip c p with
    | error e =>
      rw [setPip_error (hr p (List.mem_cons_self _ _)) hstep]
    | ok c2 =>
      dsimp only
      obtain ⟨_, hs, hk⟩ := setPip_ok hstep
      by_cases hp : p = p2
      · subst hp
        exfalso
        unfold setPip at hstep
        rw [if_pos (by simpa using hbound)] at hstep
        exact setPipBits_collides _ _ _ _ _ b hb htrue c2 hstep
      · have hmem2 : p2 ∈ ps := by
          rcases List.mem_cons.1 hmem with h | h
          · exact absurd h.symm hp
          · exact h
        exact ih c2 hmem2
          (fun q hq hqb =>
            pipInRange_of_sameDomain hs (hr q (List.mem_cons_of_mem _ hq) hqb))
          (hk _ _ _ _ htrue)

theorem setPips_list_overlap {chip : Chip} (p1 p2 i : Nat) (b : ConfigBitPOD)
    (hb1 : chip.pip_to_net p1 ≠ "") (hb2 : chip.pip_to_net p2 ≠ "")
    (hx : (chip.chip_info.bits_info.switches (chip.chip_info.pip_data p1).switch_index).x =
      (chip.chip_info.bits_info.switches (chip.chip_info.pip_data p2).switch_index).x)
    (hy : (chip.chip_info.bits_info.switches (chip.chip_info.pip_data p1).switch_index).y =
      (chip.chip_info.bits_info.switches (chip.chip_info.pip_data p2).switch_index).y)
    (hi : (chip.chip_info.bits_info.switches
      (chip.chip_info.pip_data p1).switch_index).cbits[i]? = some b)
    (hj : b ∈ (chip.chip_info.bits_info.switches
      (chip.chip_info.pip_data p2).switch_index).cbits)
    (hone : pipVal (chip.chip_info.pip_data p1).switch_mask
      (chip.chip_info.bits_info.switches
        (chip.chip_info.pip_data p1).switch_index).cbits.length i = true) :
    ∀ (l1 l2 : List Nat) (c : Config), p2 ∈ l2 →
      (∀ p ∈ l1 ++ p1 :: l2, chip.pip_to_net p ≠ "" → pipInRange chip c p) →
      foldExcept (setPip chip) c (l1 ++ p1 :: l2) = .error .bitCollision := by
  intro l1
  induction l1 with
  | nil =>
    intro l2 c hmem hr
    simp only [List.nil_append, foldExcept]
    cases hstep : setPip chip c p1 with
    | error e => rw [setPip_error (hr p1 (by simp)) hstep]
    | ok c2 =>
      dsimp only
      obtain ⟨_, hs, _⟩ := setPip_ok hstep
      unfold setPip at hstep
      rw [if_pos (by simpa using hb1)] at hstep
      obtain ⟨_, _, _, hv⟩ := setPipBits_ok _ _ _ _ _ _ hstep
      have htrue := hv i b hi (by rw [Nat.zero_add]; exact hone)
      rw [hx, hy] at htrue
      exact setPips_list_collides p2 b hb2 hj l2 c2 hmem
        (fun q hq hqb => pipInRange_of_sameDomain hs (hr q (by simp [hq]) hqb)) htrue
  | cons q l1 ih =>
    intro l2 c hmem hr
    simp only [List.cons_append, foldExcept]
    cases hstep : setPip chip c q with
    | error e => rw [setPip_error (hr q (by simp)) hstep]
    | ok c2 =>
      dsimp only
      obtain ⟨_, hs, _⟩ := setPip_ok hstep
      exact ih l2 c2 hmem
        (fun p hp hpb => pipInRange_of_sameDomain hs (hr p (List.mem_cons_of_mem _ hp) hpb))

theorem range_split (n p1 p2 : Nat) (h12 : p1 < p2) (hp2 : p2 < n) :
    ∃ l2, List.range n = List.range p1 ++ p1 :: l2 ∧ p2 ∈ l2 := by
  refine ⟨(List.range (n - (p1 + 1))).map (fun k => p1 + 1 + k), ?_, ?_⟩
  · have hn : n = (p1 + 1) + (n - (p1 + 1)) := by omega
    conv_lhs => rw [hn, List.range_add, List.range_succ]
    simp
  · simp only [List.mem_map, List.mem_range]
    exact ⟨p2 - (p1 + 1), by omega, by omega⟩

/-- C5 (as amended): on a supported family, with every bit position of every
routing edge bound to a net inside the grid: when two routing edges, both bound
to nets, list a common bit coordinate of the same tile and the edge processed
first has a 1 at that coordinate in its select code, the encode aborts with a
bit collision and only the two header lines have been written.  A single write
of a routing edge raises the collision exactly when the bit it targets is true
at that moment. -/
theorem pip_overlap_collision (design : Design) (dev : String) (p1 p2 i : Nat)
    (b : ConfigBitPOD)
    (hdev : deviceLine design.chip.args_type = some dev)
    (h12 : p1 < p2) (hp2 : p2 < design.chip.chip_info.num_pips)
    (hb1 : design.chip.pip_to_net p1 ≠ "") (hb2 : design.chip.pip_to_net p2 ≠ "")
    (hx : (design.chip.chip_info.bits_info.switches
        (design.chip.chip_info.pip_data p1).switch_index).x =
      (design.chip.chip_info.bits_info.switches
        (design.chip.chip_info.pip_data p2).switch_index).x)
    (hy : (design.chip.chip_info.bits_info.switches
        (design.chip.chip_info.pip_data p1).switch_index).y =
      (design.chip.chip_info.bits_info.switches
        (design.chip.chip_info.pip_data p2).switch_index).y)
    (hi : (design.chip.chip_info.bits_info.switches
      (design.chip.chip_info.pip_data p1).switch_index).cbits[i]? = some b)
    (hj : b ∈ (design.chip.chip_info.bits_info.switches
      (design.chip.chip_info.pip_data p2).switch_index).cbits)
    (hone : (design.chip.chip_info.pip_data p1).switch_mask.testBit
      ((design.chip.chip_info.bits_info.switches
        (design.chip.chip_info.pip_data p1).switch_index).cbits.length - 1 - i) = true)
    (hrange : ∀ p, p < design.chip.chip_info.num_pips → design.chip.pip_to_net p ≠ "" →
      pipInRange design.chip (initConfig design.chip) p) :
    (write_asc design).err = some .bitCollision ∧
    (write_asc design).out = [".comment from next-pnr", dev] ∧
    (∀ (c : Config) (y x : Int) (b1 : ConfigBitPOD) (v : Bool),
      withTile c y x (fun t => pipSetBit t b1 v) = .error .bitCollision ↔
        getBit c y x b1.row b1.col = some true) := by
  refine ⟨?_, ?_, ?_⟩
  rotate_left 2
  · intro c y x b1 v
    rcases pipStep_cases c y x b1 v with ⟨h1, c1, h2, _⟩ | ⟨h1, h2⟩ | ⟨h1, h2⟩
    · rw [h1, h2]
      exact ⟨fun h => (by cases h), fun h => (by cases h)⟩
    · rw [h1, h2]
      exact ⟨fun _ => rfl, fun _ => rfl⟩
    · rw [h1, h2]
      exact ⟨fun h => (by cases h), fun h => (by cases h)⟩
  all_goals
  obtain ⟨l2, hsplit, hmem⟩ := range_split _ p1 p2 h12 hp2
  have hpips : setPips design.chip (initConfig design.chip) = .error .bitCollision := by
    unfold setPips
    rw [hsplit]
    apply setPips_list_overlap p1 p2 i b hb1 hb2 hx hy hi hj
      (by rw [pipVal_eq_testBit]; exact hone) _ _ _ hmem
    intro p hp hpb
    apply hrange p _ hpb
    rw [← hsplit] at hp
    exact List.mem_range.1 hp
  all_goals
  unfold write_asc encodeConfig routeAndCells
  simp [hdev, hpips]

/-- Edges 0 and 1 of `pipDemoChip` share bit `(0, 1)`; with select code 1 edge 0
writes a 1 there, and the encode aborts. -/
theorem pip_overlap_collision_witness :
    (write_asc ⟨pipDemoChip .HX8K 1 3 "a" "b", []⟩).err = some .bitCollision ∧
    (write_asc ⟨pipDemoChip .HX8K 1 3 "a" "b", []⟩).out =
      [".comment from next-pnr", ".device 8k"] ∧
    (∀ (c : Config) (y x : Int) (b1 : ConfigBitPOD) (v : Bool),
      withTile c y x (fun t => pipSetBit t b1 v) = .error .bitCollision ↔
        getBit c y x b1.row b1.col = some true) :=
  pip_overlap_collision ⟨pipDemoChip .HX8K 1 3 "a" "b", []⟩ ".device 8k" 0 1 1 ⟨0, 1⟩
    rfl (by decide) (by decide) (by decide) (by decide) rfl rfl rfl (by decide) (by decide)
    (by decide)

/-- C5 (counterexample): edges 0 and 1 of `pipDemoChip` are both bound to nets
and both list bit `(0, 1)` of tile `(0, 0)`; with select codes 2 and 3 the first
edge writes 0 there, no collision is raised and the encode runs to its end. -/
theorem pip_overlap_no_abort :
    (pipDemoChip .HX8K 2 3 "a" "b").pip_to_net 0 ≠ "" ∧
    (pipDemoChip .HX8K 2 3 "a" "b").pip_to_net 1 ≠ "" ∧
    (ConfigBitPOD.mk 0 1) ∈ ((pipDemoChip .HX8K 2 3 "a" "b").chip_info.bits_info.switches
      ((pipDemoChip .HX8K 2 3 "a" "b").chip_info.pip_data 0).switch_index).cbits ∧
    (ConfigBitPOD.mk 0 1) ∈ ((pipDemoChip .HX8K 2 3 "a" "b").chip_info.bits_info.switches
      ((pipDemoChip .HX8K 2 3 "a" "b").chip_info.pip_data 1).switch_index).cbits ∧
    (write_asc ⟨pipDemoChip .HX8K 2 3 "a" "b", []⟩).err = none ∧
    (write_asc ⟨pipDemoChip .HX8K 2 3 "a" "b", []⟩).out =
      [".comment from next-pnr", ".device 8k", ".logic_tile 0 0",
       "11100000000000000000", ""] := by
  decide

/-! ## The default pass -/

theorem foldExcept_inv_mem {σ α : Type} (P : σ → Prop) (f : σ → α → Except Err σ) :
    ∀ (as : List α), (∀ s a s1, a ∈ as → P s → f s a = .ok s1 → P s1) →
      ∀ (s s1 : σ), P s → foldExcept f s as = .ok s1 → P s1 := by
  intro as
  induction as with
  | nil =>
    intro _ s s1 hs h
    simp only [foldExcept, Except.ok.injEq] at h
    exact h ▸ hs
  | cons a as ih =>
    intro hf s s1 hs h
    simp only [foldExcept] at h
    cases hfa : f s a with
    | error e => rw [hfa] at h; cases h
    | ok s2 =>
      rw [hfa] at h; dsimp only at h
      exact ih (fun t b t1 hb => hf t b t1 (List.mem_cons_of_mem _ hb)) s2 s1
        (hf s a s2 (List.mem_cons_self _ _) hs hfa) h

theorem KeepsTrue_except {E : Int → Int → Int → Int → Prop} {c c1 : Config}
    (h : KeepsTrue c c1) : KeepsTrueExcept E c c1 :=
  fun y x r col ht => Or.inl (h y x r col ht)

theorem KeepsTrueExcept_trans {E : Int → Int → Int → Int → Prop} {a b c : Config}
    (h1 : KeepsTrueExcept E a b) (h2 : KeepsTrueExcept E b c) : KeepsTrueExcept E a c := by
  intro y x r col ht
  rcases h1 y x r col ht with h | h
  · exact h2 y x r col h
  · exact Or.inr h

theorem withTile_set_config_dims {ti : TileInfoPOD} {c c1 : Config} {y x : Int}
    {name : String} {v : Bool} {index : Int}
    (h : withTile c y x (fun t => set_config ti t name v index) = .ok c1) :
    gridDims c1 = gridDims c :=
  (withTile_frame (fun _ _ ht => set_config_dims ht) h).1

theorem withTile_set_config_true {ti : TileInfoPOD} {c c1 : Config} {y x : Int}
    {name : String} (h : withTile c y x (fun t => set_config ti t name true (-1)) = .ok c1) :
    gridDims c1 = gridDims c ∧ KeepsTrue c c1 := by
  obtain ⟨cfg, _, hw⟩ := withTile_set_config_all_ok h
  exact ⟨hw.1, WritesTo_keepsTrue hw⟩

theorem setUnusedIOBel_ok {chip : Chip} {c c1 : Config} {bel : Nat}
    (hbel : bel < chip.chip_info.num_bels) (h : setUnusedIOBel chip c bel = .ok c1) :
    gridDims c1 = gridDims c ∧ KeepsTrueExcept (unusedRenBit chip) c c1 := by
  unfold setUnusedIOBel at h
  split at h
  · rename_i hcond
    simp only [Bool.and_eq_true, beq_iff_eq] at hcond
    dsimp only at h
    split at h
    · rename_i hreg
      split at h
      · rename_i h1k
        obtain ⟨cfgIE, cfgREN, cIE, _, hREN, hw1, hw2⟩ := setIeren_ok h
        refine ⟨hw2.1.trans hw1.1, ?_⟩
        intro y x r col ht
        have ht1 := WritesTo_keepsTrue hw1 y x r col ht
        by_cases hm : y = (get_ieren chip.chip_info.bits_info (chip.chip_info.bel_data bel).x
            (chip.chip_info.bel_data bel).y (chip.chip_info.bel_data bel).z).2.1 ∧
            x = (get_ieren chip.chip_info.bits_info (chip.chip_info.bel_data bel).x
            (chip.chip_info.bel_data bel).y (chip.chip_info.bel_data bel).z).1 ∧
            (ConfigBitPOD.mk r col) ∈ cfgREN.bits
        · exact Or.inr ⟨h1k, bel, hbel, hcond.1, hcond.2, hreg, hm.1, hm.2.1, cfgREN, hREN,
            hm.2.2⟩
        · left
          rw [hw2.2.2 _ _ _ _ hm]; exact ht1
      · simp only [Except.ok.injEq] at h
        subst h
        exact ⟨rfl, KeepsTrue_except (KeepsTrue_refl _)⟩
    · simp only [Except.ok.injEq] at h
      subst h
      exact ⟨rfl, KeepsTrue_except (KeepsTrue_refl _)⟩
  · simp only [Except.ok.injEq] at h
    subst h
    exact ⟨rfl, KeepsTrue_except (KeepsTrue_refl _)⟩

theorem setUnusedIOBels_ok {chip : Chip} {c c1 : Config}
    (h : setUnusedIOBels chip c = .ok c1) :
    gridDims c1 = gridDims c ∧ KeepsTrueExcept (unusedRenBit chip) c c1 := by
  unfold setUnusedIOBels at h
  exact foldExcept_inv_mem
    (fun s => gridDims s = gridDims c ∧ KeepsTrueExcept (unusedRenBit chip) c s)
    (setUnusedIOBel chip) _
    (fun s a s1 ha hs hstep =>
      have := setUnusedIOBel_ok (List.mem_range.1 ha) hstep
      ⟨this.1.trans hs.1, KeepsTrueExcept_trans hs.2 this.2⟩)
    c c1 ⟨rfl, KeepsTrue_except (KeepsTrue_refl _)⟩ h

theorem setOtherTile_ok {chip : Chip} {c c1 : Config} {y x : Nat}
    (h : setOtherTile chip y c x = .ok c1) : gridDims c1 = gridDims c ∧ KeepsTrue c c1 := by
  unfold setOtherTile at h
  dsimp only at h
  split at h
  · cases h
  · rename_i c2 hram
    have h2 : gridDims c2 = gridDims c ∧ KeepsTrue c c2 := by
      split at hram
      · exact withTile_set_config_true hram
      · simp only [Except.ok.injEq] at hram
        subst hram
        exact ⟨rfl, KeepsTrue_refl _⟩
    split at h
    · have h3 := foldExcept_rel (fun a b => gridDims b = gridDims a ∧ KeepsTrue a b)
        (fun c name => withTile c (y : Int) (x : Int)
          (fun t => set_config (chip.chip_info.bits_info.tiles_nonrouting (tile_at chip x y))
            t name true (-1)))
        (fun s => ⟨rfl, KeepsTrue_refl s⟩)
        (fun a b c h1 h2 => ⟨h2.1.trans h1.1, KeepsTrue_trans h1.2 h2.2⟩)
        (fun s a s1 hs => withTile_set_config_true hs) colBufCtrlNames c2 c1 h
      exact ⟨h3.1.trans h2.1, KeepsTrue_trans h2.2 h3.2⟩
    · simp only [Except.ok.injEq] at h
      subst h
      exact h2

theorem setOtherBits_ok {chip : Chip} {c c1 : Config} (h : setOtherBits chip c = .ok c1) :
    gridDims c1 = gridDims c ∧ KeepsTrue c c1 := by
  unfold setOtherBits at h
  refine foldExcept_rel (fun a b => gridDims b = gridDims a ∧ KeepsTrue a b) _
    (fun s => ⟨rfl, KeepsTrue_refl s⟩)
    (fun a b c h1 h2 => ⟨h2.1.trans h1.1, KeepsTrue_trans h1.2 h2.2⟩)
    ?_ _ c c1 h
  intro s y s1 hrow
  exact foldExcept_rel (fun a b => gridDims b = gridDims a ∧ KeepsTrue a b) _
    (fun s => ⟨rfl, KeepsTrue_refl s⟩)
    (fun a b c h1 h2 => ⟨h2.1.trans h1.1, KeepsTrue_trans h1.2 h2.2⟩)
    (fun s x s1 hs => setOtherTile_ok hs) _ s s1 hrow

/-- C7 (as amended): the default pass keeps the sizes of the grid and every
bit that is true before the pass is still true after it, except the bits of
`IoCtrl.REN_<iez>` in the enable-register tile of an I/O bel without cell on
LP1K or HX1K, which the pass writes to 0 whatever they held.  On every other
family no true bit is changed: the pass changes only bits that were false. -/
theorem default_pass_keeps_true (chip : Chip) (c c1 : Config)
    (h : defaultPass chip c = .ok c1) :
    gridDims c1 = gridDims c ∧
    (∀ y x r col, getBit c y x r col = some true →
      getBit c1 y x r col = some true ∨ unusedRenBit chip y x r col) ∧
    (is1k chip.args_type = false → KeepsTrue c c1) := by
  unfold defaultPass at h
  cases h1 : setUnusedIOBels chip c with
  | error e => rw [h1] at h; cases h
  | ok c2 =>
    rw [h1] at h; dsimp only at h
    obtain ⟨hd1, hk1⟩ := setUnusedIOBels_ok h1
    obtain ⟨hd2, hk2⟩ := setOtherBits_ok h
    have hk : KeepsTrueExcept (unusedRenBit chip) c c1 := KeepsTrueExcept_trans hk1 (KeepsTrue_except hk2)
    refine ⟨hd2.trans hd1, hk, ?_⟩
    intro hfam y x r col ht
    rcases hk y x r col ht with h3 | h3
    · exact h3
    · rw [h3.1] at hfam; cases hfam

/-- The default pass from grids that hold set bits.  On `ioPipDemoChip` (LP1K,
no cell on the I/O bel, enable register `(0, 0, 1)`) bit `(0, 0)` stays set,
`IoCtrl.IE_1` is set and the set bit `(1, 3)` of `IoCtrl.REN_1` is the excepted
one.  On `colBufDemoChip` of family LP384, where the second statement applies,
the set bits `(0, 0)` and `(0, 7)` stay set and the six others are set. -/
theorem default_pass_keeps_true_witness :
    (defaultPass ioPipDemoChip ioSetDemoGrid =
        .ok [[[[true, false, false, false, false, false, false, false],
                [false, false, true, false, false, false, false, false]]]] ∧
      getBit ioSetDemoGrid 0 0 0 0 = some true ∧ getBit ioSetDemoGrid 0 0 1 3 = some true ∧
      (gridDims [[[[true, false, false, false, false, false, false, false],
                   [false, false, true, false, false, false, false, false]]]] =
          gridDims ioSetDemoGrid ∧
        (∀ y x r col, getBit ioSetDemoGrid y x r col = some true →
          getBit [[[[true, false, false, false, false, false, false, false],
                    [false, false, true, false, false, false, false, false]]]] y x r col
            = some true ∨
          unusedRenBit ioPipDemoChip y x r col) ∧
        (is1k ioPipDemoChip.args_type = false →
          KeepsTrue ioSetDemoGrid
            [[[[true, false, false, false, false, false, false, false],
               [false, false, true, false, false, false, false, false]]]]))) ∧
    (defaultPass (colBufDemoChip .LP384 .TILE_LOGIC 1) colBufSetDemoGrid =
        .ok [[[[true, true, true, true, true, true, true, true]]]] ∧
      is1k (colBufDemoChip .LP384 .TILE_LOGIC 1).args_type = false ∧
      getBit colBufSetDemoGrid 0 0 0 7 = some true ∧
      (gridDims [[[[true, true, true, true, true, true, true, true]]]] =
          gridDims colBufSetDemoGrid ∧
        (∀ y x r col, getBit colBufSetDemoGrid y x r col = some true →
          getBit [[[[true, true, true, true, true, true, true, true]]]] y x r col = some true ∨
          unusedRenBit (colBufDemoChip .LP384 .TILE_LOGIC 1) y x r col) ∧
        (is1k (colBufDemoChip .LP384 .TILE_LOGIC 1).args_type = false →
          KeepsTrue colBufSetDemoGrid [[[[true, true, true, true, true, true, true, true]]]]))) :=
  ⟨⟨rfl, by decide, by decide,
      default_pass_keeps_true ioPipDemoChip ioSetDemoGrid
        [[[[true, false, false, false, false, false, false, false],
           [false, false, true, false, false, false, false, false]]]] rfl⟩,
    ⟨rfl, by decide, by decide,
      default_pass_keeps_true (colBufDemoChip .LP384 .TILE_LOGIC 1) colBufSetDemoGrid
        [[[[true, true, true, true, true, true, true, true]]]] rfl⟩⟩

/-- C7 (counterexample): on `ioPipDemoChip` (LP1K) the routing phase sets bit
`(1, 3)` of tile `(0, 0)`; the I/O bel has no cell and its enable register is
`(0, 0, 1)`, so the default pass writes `IoCtrl.REN_1`, that same bit, to 0: a
bit that was true before the pass is false after it. -/
theorem default_pass_clears_bit :
    (routeAndCells ⟨ioPipDemoChip, []⟩).2.toOption =
      some [[[[false, false, false, false, false, false, false, false],
              [false, false, false, true, false, false, false, false]]]] ∧
    (defaultPass ioPipDemoChip
      [[[[false, false, false, false, false, false, false, false],
         [false, false, false, true, false, false, false, false]]]]).toOption =
      some [[[[false, false, false, false, false, false, false, false],
              [false, false, true, false, false, false, false, false]]]] ∧
    getBit [[[[false, false, false, false, false, false, false, false],
              [false, false, false, true, false, false, false, false]]]] 0 0 1 3 = some true ∧
    getBit [[[[false, false, false, false, false, false, false, false],
              [false, false, true, false, false, false, false, false]]]] 0 0 1 3 = some false := by
  decide

/-! ## Sizes of the grid through the cell phase -/

theorem foldExcept_withTile_set_config_dims {α : Type} (ti : TileInfoPOD) (y x : Int)
    (name : α → String) (v : α → Bool) (index : α → Int) :
    ∀ (as : List α) (c c1 : Config),
      foldExcept (fun c a => withTile c y x
        (fun t => set_config ti t (name a) (v a) (index a))) c as = .ok c1 →
      gridDims c1 = gridDims c := by
  intro as c c1 h
  exact foldExcept_rel (fun a b => gridDims b = gridDims a) _ (fun _ => rfl)
    (fun _ _ _ h1 h2 => h2.trans h1)
    (fun s a s1 hs => withTile_set_config_dims hs) as c c1 h

theorem setLCCell_dims {chip : Chip} {c c1 : Config} {cell : CellInfo} {x y z : Int}
    (h : setLCCell chip c cell x y z = .ok c1) : gridDims c1 = gridDims c := by
  unfold setLCCell at h
  dsimp only at h
  split at h
  · cases h
  · split at h
    · cases h
    · rename_i c2 hbits
      unfold setLCBits at hbits
      have h2 := foldExcept_withTile_set_config_dims _ y x _ _ _ _ _ _ hbits
      exact (withTile_set_config_dims h).trans h2

theorem setIOCell_dims {chip : Chip} {c c1 : Config} {cell : CellInfo} {bel : Nat}
    {x y z : Int} (h : setIOCell chip c cell bel x y z = .ok c1) :
    gridDims c1 = gridDims c := by
  unfold setIOCell at h
  dsimp only at h
  split at h
  · cases h
  · split at h
    · cases h
    · rename_i c2 hpin
      unfold setPinType at hpin
      have h2 := foldExcept_withTile_set_config_dims _ y x _ _ _ _ _ _ hpin
      split at h
      · cases h
      · split at h
        · obtain ⟨_, _, _, _, _, hw1, hw2⟩ := setIeren_ok h
          exact (hw2.1.trans hw1.1).trans h2
        · obtain ⟨_, _, _, _, _, hw1, hw2⟩ := setIeren_ok h
          exact (hw2.1.trans hw1.1).trans h2

theorem setCell_dims {chip : Chip} {c c1 : Config} {cell : CellInfo} {bel : Nat}
    (h : setCell chip c cell bel = .ok c1) : gridDims c1 = gridDims c := by
  unfold setCell at h
  dsimp only at h
  split at h
  · exact setLCCell_dims h
  · split at h
    · exact setIOCell_dims h
    · split at h
      · simp only [Except.ok.injEq] at h
        subst h; rfl
      · cases h

theorem setCells_dims {chip : Chip} :
    ∀ (cells : List (String × CellInfo)) (c c1 : Config) (w : List String),
      setCells chip c cells = (w, .ok c1) → gridDims c1 = gridDims c := by
  intro cells
  induction cells with
  | nil =>
    intro c c1 w h
    simp only [setCells, Prod.mk.injEq, Except.ok.injEq] at h
    rw [← h.2]
  | cons cell cells ih =>
    intro c c1 w h
    simp only [setCells] at h
    split at h
    · simp only [Prod.mk.injEq] at h
      exact ih c c1 _ (Prod.ext rfl h.2)
    · rename_i bel hbel
      split at h
      · simp only [Prod.mk.injEq] at h
        cases h.2
      · rename_i c2 hc2
        exact (ih c2 c1 w h).trans (setCell_dims hc2)

theorem default_pass_dims_aux (chip : Chip) (c c1 : Config)
    (h : defaultPass chip c = .ok c1) : gridDims c1 = gridDims c := by
  unfold defaultPass at h
  cases h1 : setUnusedIOBels chip c with
  | error e => rw [h1] at h; cases h
  | ok c2 =>
    rw [h1] at h; dsimp only at h
    exact (setOtherBits_ok h).1.trans (setUnusedIOBels_ok h1).1

theorem encodeConfig_dims {design : Design} {w : List String} {c : Config}
    (h : encodeConfig design = (w, .ok c)) :
    gridDims c = gridDims (initConfig design.chip) := by
  unfold encodeConfig at h
  split at h
  · simp only [Prod.mk.injEq] at h
    cases h.2
  · rename_i w2 c2 hrc
    simp only [Prod.mk.injEq] at h
    have hd := (default_pass_dims_aux design.chip c2 c h.2)
    unfold routeAndCells at hrc
    split at hrc
    · simp only [Prod.mk.injEq] at hrc
      cases hrc.2
    · rename_i c1 hpips
      have h1 := (setPips_list_ok _ _ _ hpips).1
      have h2 := setCells_dims _ _ _ _ hrc
      exact hd.trans (h2.trans h1)

/-! ## The serializer -/

theorem get2_natCast {α : Type} (g : List (List α)) (i j : Nat) :
    get2 g (i : Int) (j : Int) = (g[i]?).bind (fun r => r[j]?) := by
  unfold get2
  rw [vecAt_natCast]
  cases g[i]? with
  | none => rfl
  | some r => exact vecAt_natCast r j

theorem get2_gridDims (g : Config) (y x : Nat) :
    ((gridDims g)[y]?).bind (fun r => r[x]?) = (get2 g (y : Int) (x : Int)).map tileDims := by
  rw [get2_natCast]
  unfold gridDims
  rw [List.getElem?_map]
  generalize g[y]? = o
  cases o with
  | none => rfl
  | some r =>
    simp only [Option.map_some', Option.some_bind, List.getElem?_map]

theorem get2_initConfig (chip : Chip) (y x : Nat) (hy : y < chip.chip_info.height)
    (hx : x < chip.chip_info.width) :
    get2 (initConfig chip) (y : Int) (x : Int) =
      some (List.replicate (chip.chip_info.bits_info.tiles_nonrouting (tile_at chip x y)).rows
        (List.replicate (chip.chip_info.bits_info.tiles_nonrouting (tile_at chip x y)).cols
          false)) := by
  rw [get2_natCast]
  unfold initConfig
  simp [List.getElem?_map, List.getElem?_range hy, List.getElem?_range hx]

theorem get2_of_dims {chip : Chip} {c : Config}
    (hd : gridDims c = gridDims (initConfig chip)) (y x : Nat)
    (hy : y < chip.chip_info.height) (hx : x < chip.chip_info.width) :
    ∃ t, get2 c (y : Int) (x : Int) = some t ∧
      tileDims t =
        List.replicate (chip.chip_info.bits_info.tiles_nonrouting (tile_at chip x y)).rows
          (chip.chip_info.bits_info.tiles_nonrouting (tile_at chip x y)).cols := by
  have h1 := get2_gridDims c y x
  rw [hd, get2_gridDims, get2_initConfig chip y x hy hx] at h1
  cases ht : get2 c (y : Int) (x : Int) with
  | none => rw [ht] at h1; cases h1
  | some t =>
    rw [ht] at h1
    simp only [Option.map_some', Option.some.injEq] at h1
    refine ⟨t, rfl, ?_⟩
    rw [← h1]
    simp [tileDims]

theorem row_chars (l : List Bool) :
    l.map bitChar =
      (List.range l.length).map
        (fun (c : Nat) => if vecAt l (c : Int) = some true then '1' else '0') := by
  apply List.ext_getElem
  · simp
  · intro n h1 h2
    have hn : n < l.length := by simpa using h1
    simp only [List.getElem_map, List.getElem_range, vecAt_natCast, List.getElem?_eq_getElem hn]
    cases l[n] <;> simp [bitChar]

theorem tile_rows (t : TileCfg) (rows cols : Nat)
    (hd : tileDims t = List.replicate rows cols) :
    t.map rowLine =
      (List.range rows).map fun (r : Nat) => String.mk
        ((List.range cols).map fun (c : Nat) =>
          if get2 t (r : Int) (c : Int) = some true then '1' else '0') := by
  have hlen : t.length = rows := by
    have := congrArg List.length hd
    simpa [tileDims] using this
  apply List.ext_getElem
  · simp [hlen]
  · intro n h1 h2
    have hn : n < t.length := by simpa using h1
    have hcols : t[n].length = cols := by
      have h3 : (tileDims t)[n]? = some t[n].length := by
        simp [tileDims, List.getElem?_eq_getElem hn]
      rw [hd, List.getElem?_replicate] at h3
      split at h3
      · exact (Option.some.inj h3).symm
      · cases h3
    simp only [List.getElem_map, List.getElem_range]
    unfold rowLine
    rw [row_chars, hcols]
    congr 2
    funext k
    unfold get2
    simp only [vecAt_natCast, List.getElem?_eq_getElem hn]

theorem tileLabel_spec (tile : TileType) :
    tileLabel tile = if tile = .TILE_NONE then none else some (specTileLabel tile) := by
  cases tile <;> rfl

theorem writeTile_of_dims {chip : Chip} {c : Config}
    (hd : gridDims c = gridDims (initConfig chip)) (y x : Nat)
    (hy : y < chip.chip_info.height) (hx : x < chip.chip_info.width) :
    writeTile chip c y x =
      (if tile_at chip x y = .TILE_NONE then [] else specTileBlock chip c x y, none) := by
  unfold writeTile
  rw [tileLabel_spec]
  by_cases hnone : tile_at chip x y = .TILE_NONE
  · simp [hnone]
  · rw [if_neg hnone, if_neg hnone]
    dsimp only
    obtain ⟨t, ht, htd⟩ := get2_of_dims hd y x hy hx
    have ht2 := ht
    unfold get2 at ht2
    cases hr : vecAt c (y : Int) with
    | none => rw [hr] at ht2; cases ht2
    | some r =>
      rw [hr] at ht2; dsimp only at ht2 ⊢
      rw [ht2]; dsimp only
      unfold specTileBlock specHeader headerLine
      rw [tile_rows t _ _ htd]
      simp only [getBit, ht]
      rfl

theorem emitLoop_ok {α : Type} (f : α → List String × Option Err) (g : α → List String) :
    ∀ (as : List α), (∀ a ∈ as, f a = (g a, none)) →
      emitLoop f as = (as.flatMap g, none) := by
  intro as
  induction as with
  | nil => intro _; rfl
  | cons a as ih =>
    intro h
    simp only [emitLoop]
    rw [h a (List.mem_cons_self _ _)]
    dsimp only
    rw [ih (fun b hb => h b (List.mem_cons_of_mem _ hb))]
    simp [List.flatMap_cons]

theorem flatMap_filter_map {α β γ : Type} (p : α → Bool) (h : α → β) (g : β → List γ)
    (l : List α) :
    ((l.filter p).map h).flatMap g = l.flatMap (fun a => if p a then g (h a) else []) := by
  induction l with
  | nil => rfl
  | cons a l ih =>
    by_cases hp : p a = true
    · simp [List.filter_cons, hp, List.flatMap_cons, ih]
    · simp [List.filter_cons, hp, List.flatMap_cons, ih]

theorem writeConfig_of_dims {chip : Chip} {c : Config}
    (hd : gridDims c = gridDims (initConfig chip)) :
    writeConfig chip c =
      ((presentTiles chip).flatMap fun xy => specTileBlock chip c xy.1 xy.2, none) := by
  unfold writeConfig
  rw [emitLoop_ok _ (fun y => (List.range chip.chip_info.width).flatMap fun x =>
    if tile_at chip x y = .TILE_NONE then [] else specTileBlock chip c x y)]
  · unfold presentTiles
    rw [List.flatMap_assoc]
    congr 1
    apply List.flatMap_congr
    intro y _
    rw [flatMap_filter_map]
    apply List.flatMap_congr
    intro x _
    by_cases hnone : tile_at chip x y = .TILE_NONE <;> simp [hnone]
  · intro y hy
    apply emitLoop_ok
    intro x hx
    exact writeTile_of_dims hd y x (List.mem_range.1 hy) (List.mem_range.1 hx)

/-! ## The output of `write_asc` -/

theorem deviceLine_spec {t : ChipType} {dev : String} (h : deviceLine t = some dev) :
    specDeviceLine t = dev := by
  cases t <;> simp_all [deviceLine, specDeviceLine]

theorem deviceLine_isSome {t : ChipType} (h : t ≠ .NONE) : ∃ dev, deviceLine t = some dev := by
  cases t
  · exact absurd rfl h
  all_goals exact ⟨_, rfl⟩

theorem write_asc_of_encode {design : Design} {w : List String} {c : Config}
    (hdev : design.chip.args_type ≠ .NONE) (henc : encodeConfig design = (w, .ok c)) :
    (write_asc design).err = none ∧ (write_asc design).cout = w ∧
      (write_asc design).out = referenceRendering design.chip c := by
  obtain ⟨dev, hd⟩ := deviceLine_isSome hdev
  have hw := writeConfig_of_dims (encodeConfig_dims henc)
  unfold write_asc
  rw [hd]; dsimp only
  rw [henc]; dsimp only
  rw [hw]
  refine ⟨rfl, rfl, ?_⟩
  unfold referenceRendering
  rw [deviceLine_spec hd]
  rfl

theorem write_asc_of_abort {design : Design} {e : Err} (h : (write_asc design).err = some e) :
    (design.chip.args_type = .NONE ∧ e = .unsupportedDevice ∧
      (write_asc design).out = [".comment from next-pnr"]) ∨
    (∃ dev w, deviceLine design.chip.args_type = some dev ∧
      encodeConfig design = (w, .error e) ∧
      (write_asc design).out = [".comment from next-pnr", dev]) := by
  by_cases hdev : design.chip.args_type = .NONE
  · left
    unfold write_asc at h ⊢
    simp only [hdev, deviceLine] at h ⊢
    simp only [Option.some.injEq] at h
    exact ⟨trivial, h.symm, trivial⟩
  · right
    obtain ⟨dev, hd⟩ := deviceLine_isSome hdev
    cases henc : encodeConfig design with
    | mk w res =>
      cases res with
      | error e1 =>
        unfold write_asc at h ⊢
        simp only [hd, henc] at h ⊢
        simp only [Option.some.injEq] at h
        subst h
        exact ⟨dev, w, rfl, rfl, rfl⟩
      | ok c =>
        have := (write_asc_of_encode hdev henc).1
        rw [this] at h
        cases h

theorem write_asc_of_success {design : Design} (h : (write_asc design).err = none) :
    design.chip.args_type ≠ .NONE ∧ ∃ w c, encodeConfig design = (w, .ok c) := by
  have hdev : design.chip.args_type ≠ .NONE := by
    intro hn
    unfold write_asc at h
    simp [hn, deviceLine] at h
  refine ⟨hdev, ?_⟩
  obtain ⟨dev, hd⟩ := deviceLine_isSome hdev
  cases henc : encodeConfig design with
  | mk w res =>
    cases res with
    | error e1 =>
      unfold write_asc at h
      simp [hd, henc] at h
    | ok c => exact ⟨w, c, rfl⟩

/-- C9: the output of a successful encode is the reference rendering of the
final grid: the comment line, the device line of the family, then for each tile
that is not absent, in row-major order, its header line, `rows` lines of `cols`
characters `'1'`/`'0'` giving its bits, and an empty line. -/
theorem output_is_reference_rendering (design : Design)
    (h : (write_asc design).err = none) :
    ∃ w config, encodeConfig design = (w, .ok config) ∧
      (write_asc design).out = referenceRendering design.chip config ∧
      textOf (write_asc design).out = textOf (referenceRendering design.chip config) := by
  obtain ⟨hdev, w, c, henc⟩ := write_asc_of_success h
  have hout := (write_asc_of_encode hdev henc).2.2
  exact ⟨w, c, henc, hout, by rw [hout]⟩

/-- The encode of the I/O cell of `ioDemoChip` (HX8K, `D_IN_0` connected)
succeeds, so its output is a reference rendering. -/
theorem output_is_reference_rendering_witness :
    ∃ w config, encodeConfig ⟨ioDemoChip .HX8K "n" "" "io", [("io", ioDemoCell)]⟩
        = (w, .ok config) ∧
      (write_asc ⟨ioDemoChip .HX8K "n" "" "io", [("io", ioDemoCell)]⟩).out =
        referenceRendering (ioDemoChip .HX8K "n" "" "io") config ∧
      textOf (write_asc ⟨ioDemoChip .HX8K "n" "" "io", [("io", ioDemoCell)]⟩).out =
        textOf (referenceRendering (ioDemoChip .HX8K "n" "" "io") config) :=
  output_is_reference_rendering ⟨ioDemoChip .HX8K "n" "" "io", [("io", ioDemoCell)]⟩
    (by decide)

/-- C10 (as amended): when the encode aborts, the output stream holds only the
comment line (unknown family) or the comment line and the device line, which
are written before the first routing edge is processed; no tile block has been
written. -/
theorem abort_leaves_header_only (design : Design) (e : Err)
    (h : (write_asc design).err = some e) :
    ((design.chip.args_type = .NONE ∧ e = .unsupportedDevice ∧
        (write_asc design).out = [".comment from next-pnr"]) ∨
      (∃ dev w, deviceLine design.chip.args_type = some dev ∧
        encodeConfig design = (w, .error e) ∧
        (write_asc design).out = [".comment from next-pnr", dev])) ∧
    tileHeaders (write_asc design).out = [] := by
  have h1 := write_asc_of_abort h
  refine ⟨h1, ?_⟩
  rcases h1 with ⟨_, _, hout⟩ | ⟨dev, w, _, _, hout⟩
  · rw [hout]; rfl
  · rw [hout]; rfl

/-- The encode of `ramDemoCell`, of unknown type, aborts after the two header
lines. -/
theorem abort_leaves_header_only_witness :
    (((pipDemoChip .HX8K 0 0 "" "").args_type = .NONE ∧
        Err.unsupportedCell = .unsupportedDevice ∧
        (write_asc ⟨pipDemoChip .HX8K 0 0 "" "", [("ram", ramDemoCell)]⟩).out =
          [".comment from next-pnr"]) ∨
      (∃ dev w, deviceLine (pipDemoChip .HX8K 0 0 "" "").args_type = some dev ∧
        encodeConfig ⟨pipDemoChip .HX8K 0 0 "" "", [("ram", ramDemoCell)]⟩ =
          (w, .error .unsupportedCell) ∧
        (write_asc ⟨pipDemoChip .HX8K 0 0 "" "", [("ram", ramDemoCell)]⟩).out =
          [".comment from next-pnr", dev])) ∧
    tileHeaders (write_asc ⟨pipDemoChip .HX8K 0 0 "" "", [("ram", ramDemoCell)]⟩).out = [] :=
  abort_leaves_header_only ⟨pipDemoChip .HX8K 0 0 "" "", [("ram", ramDemoCell)]⟩
    Err.unsupportedCell (by decide)

/-- C10 (counterexample): two aborting encodes, one on a bit collision between
the two edges of `pipDemoChip` (select codes 3 and 1), one on the cell
`ramDemoCell` of unknown type; in both the output stream already holds the
comment line and the device line when the encode aborts. -/
theorem abort_after_header_written :
    (write_asc ⟨pipDemoChip .LP8K 3 1 "a" "b", []⟩).err = some .bitCollision ∧
    (write_asc ⟨pipDemoChip .LP8K 3 1 "a" "b", []⟩).out =
      [".comment from next-pnr", ".device 8k"] ∧
    (write_asc ⟨pipDemoChip .LP8K 0 0 "" "", [("ram", ramDemoCell)]⟩).err
      = some .unsupportedCell ∧
    (write_asc ⟨pipDemoChip .LP8K 0 0 "" "", [("ram", ramDemoCell)]⟩).out =
      [".comment from next-pnr", ".device 8k"] := by
  decide

/-! ## The tile header lines -/

theorem isDotLine_header (chip : Chip) (x y : Nat) (h : tile_at chip x y ≠ .TILE_NONE) :
    isDotLine (specHeader chip x y) = true := by
  unfold specHeader isDotLine
  cases ht : tile_at chip x y
  · exact absurd ht h
  all_goals simp [specTileLabel, String.toList]

theorem isDotLine_bits (cs : List Char) (h : ∀ ch ∈ cs, ch = '1' ∨ ch = '0') :
    isDotLine (String.mk cs) = false := by
  unfold isDotLine
  cases cs with
  | nil => rfl
  | cons ch cs =>
    rcases h ch (List.mem_cons_self _ _) with h1 | h1 <;> subst h1 <;> rfl

theorem filter_specTileBlock (chip : Chip) (c : Config) (x y : Nat)
    (h : tile_at chip x y ≠ .TILE_NONE) :
    (specTileBlock chip c x y).filter isDotLine = [specHeader chip x y] := by
  unfold specTileBlock
  rw [List.filter_append, List.filter_cons, if_pos (isDotLine_header chip x y h)]
  have hrows : ∀ (rows : List Nat) (f : Nat → List Char),
      (∀ r ch, ch ∈ f r → ch = '1' ∨ ch = '0') →
      (rows.map fun r => String.mk (f r)).filter isDotLine = [] := by
    intro rows f hf
    rw [List.filter_eq_nil_iff]
    intro l hl
    obtain ⟨r, _, hr⟩ := List.mem_map.1 hl
    rw [← hr, isDotLine_bits _ (hf r)]
    simp
  rw [hrows]
  · rfl
  · intro r ch hch
    obtain ⟨k, _, hk⟩ := List.mem_map.1 hch
    rw [← hk]
    split
    · exact Or.inl rfl
    · exact Or.inr rfl

theorem mem_presentTiles (chip : Chip) (x y : Nat) :
    (x, y) ∈ presentTiles chip ↔
      x < chip.chip_info.width ∧ y < chip.chip_info.height ∧ tile_at chip x y ≠ .TILE_NONE := by
  unfold presentTiles
  simp only [List.mem_flatMap, List.mem_map, List.mem_filter, List.mem_range, Prod.mk.injEq,
    decide_eq_true_eq]
  constructor
  · rintro ⟨y1, hy1, x1, ⟨hx1, ht⟩, hx, hy⟩
    subst hx; subst hy
    exact ⟨hx1, hy1, ht⟩
  · rintro ⟨hx, hy, ht⟩
    exact ⟨y, hy, x, ⟨hx, ht⟩, rfl, rfl⟩

theorem presentTiles_rowMajor (chip : Chip) :
    (presentTiles chip).Pairwise (fun a b => a.2 < b.2 ∨ (a.2 = b.2 ∧ a.1 < b.1)) := by
  unfold presentTiles
  rw [List.pairwise_flatMap]
  constructor
  · intro y _
    rw [List.pairwise_map]
    apply List.Pairwise.filter
    exact (List.pairwise_lt_range _).imp (fun h => Or.inr ⟨rfl, h⟩)
  · refine (List.pairwise_lt_range _).imp ?_
    intro y1 y2 hlt a ha b hb
    obtain ⟨_, _, ha2⟩ := List.mem_map.1 ha
    obtain ⟨_, _, hb2⟩ := List.mem_map.1 hb
    left
    rw [← ha2, ← hb2]
    exact hlt

theorem tileHeaders_reference (chip : Chip) (c : Config) :
    tileHeaders (referenceRendering chip c) =
      (presentTiles chip).map fun xy => specHeader chip xy.1 xy.2 := by
  unfold tileHeaders referenceRendering
  simp only [List.drop_succ_cons, List.drop_zero]
  have hgen : ∀ (l : List (Nat × Nat)),
      (∀ xy ∈ l, tile_at chip xy.1 xy.2 ≠ .TILE_NONE) →
      (l.flatMap fun xy => specTileBlock chip c xy.1 xy.2).filter isDotLine =
        l.map fun xy => specHeader chip xy.1 xy.2 := by
    intro l
    induction l with
    | nil => intro _; rfl
    | cons a l ih =>
      intro h
      rw [List.flatMap_cons, List.filter_append,
        filter_specTileBlock chip c a.1 a.2 (h a (List.mem_cons_self _ _)),
        ih (fun b hb => h b (List.mem_cons_of_mem _ hb))]
      rfl
  apply hgen
  intro xy hxy
  exact ((mem_presentTiles chip xy.1 xy.2).1 hxy).2.2

/-- C8: in the output of a successful encode, the tile header lines are the
header lines of the coordinates `(x, y)` with `x < W`, `y < H` and a tile type
other than `TILE_NONE`, each once, ordered by `y` and then by `x`. -/
theorem tile_headers_row_major (design : Design) (h : (write_asc design).err = none) :
    tileHeaders (write_asc design).out =
      (presentTiles design.chip).map (fun xy => specHeader design.chip xy.1 xy.2) ∧
    (∀ x y, (x, y) ∈ presentTiles design.chip ↔
      x < design.chip.chip_info.width ∧ y < design.chip.chip_info.height ∧
        tile_at design.chip x y ≠ .TILE_NONE) ∧
    (presentTiles design.chip).Pairwise (fun a b => a.2 < b.2 ∨ (a.2 = b.2 ∧ a.1 < b.1)) := by
  obtain ⟨hdev, w, c, henc⟩ := write_asc_of_success h
  refine ⟨?_, mem_presentTiles design.chip, presentTiles_rowMajor design.chip⟩
  rw [(write_asc_of_encode hdev henc).2.2]
  exact tileHeaders_reference design.chip c

/-- The successful encode on `gridDemoChip`, a grid of 3 by 2 tiles with two
absent tiles: the four header lines come row by row, the absent tiles `(1, 0)`
and `(2, 1)` have none. -/
theorem tile_headers_row_major_witness :
    (write_asc ⟨gridDemoChip, []⟩).err = none ∧
    presentTiles gridDemoChip = [(0, 0), (2, 0), (0, 1), (1, 1)] ∧
    (presentTiles gridDemoChip).map (fun xy => specHeader gridDemoChip xy.1 xy.2) =
      [".logic_tile 0 0", ".io_tile 2 0", ".ramb_tile 0 1", ".ramt_tile 1 1"] ∧
    (tileHeaders (write_asc ⟨gridDemoChip, []⟩).out =
        (presentTiles gridDemoChip).map (fun xy => specHeader gridDemoChip xy.1 xy.2) ∧
      (∀ x y, (x, y) ∈ presentTiles gridDemoChip ↔
        x < gridDemoChip.chip_info.width ∧ y < gridDemoChip.chip_info.height ∧
          tile_at gridDemoChip x y ≠ .TILE_NONE) ∧
      (presentTiles gridDemoChip).Pairwise
        (fun a b => a.2 < b.2 ∨ (a.2 = b.2 ∧ a.1 < b.1))) :=
  ⟨by decide, by decide, by decide,
    tile_headers_row_major ⟨gridDemoChip, []⟩ (by decide)⟩

/-! ## `set_config`: what it writes and what it leaves -/

/-- C11: for a layout that contains the option, with all its listed positions
inside tile `(x, y)`, `set_config` without index succeeds and leaves `value` at
every listed position; with an index `k` below the number of listed positions
it succeeds and leaves `value` at the `k`-th listed position; in both cases the
sizes of the grid and every bit at a position not written are as before. -/
theorem set_config_frame (ti : TileInfoPOD) (c : Config) (y x : Int) (name : String)
    (value : Bool) (cfg : ConfigEntryPOD)
    (hfind : find_config ti name = .ok cfg)
    (htile : (get2 c y x).isSome = true)
    (hr : ∀ b ∈ cfg.bits, bitInRange c y x (some b) = true) :
    (∃ c1, withTile c y x (fun t => set_config ti t name value (-1)) = .ok c1 ∧
      gridDims c1 = gridDims c ∧
      (∀ b ∈ cfg.bits, getBit c1 y x b.row b.col = some value) ∧
      (∀ y1 x1 r col, ¬ (y1 = y ∧ x1 = x ∧ (ConfigBitPOD.mk r col) ∈ cfg.bits) →
        getBit c1 y1 x1 r col = getBit c y1 x1 r col)) ∧
    (∀ (k : Nat) (b : ConfigBitPOD), cfg.bits[k]? = some b →
      ∃ c1, withTile c y x (fun t => set_config ti t name value (k : Int)) = .ok c1 ∧
        gridDims c1 = gridDims c ∧
        getBit c1 y x b.row b.col = some value ∧
        (∀ y1 x1 r col, ¬ (y1 = y ∧ x1 = x ∧ r = b.row ∧ col = b.col) →
          getBit c1 y1 x1 r col = getBit c y1 x1 r col)) := by
  constructor
  · obtain ⟨c1, hc1, _, hw⟩ := withTile_set_config_all_succeeds value hfind htile hr
    exact ⟨c1, hc1, hw.1, fun b hb => (hw.2.1 b hb).2, hw.2.2⟩
  · intro k b hb
    have hmem : b ∈ cfg.bits := by
      obtain ⟨hk, hbk⟩ := List.getElem?_eq_some_iff.1 hb
      rw [← hbk]; exact List.getElem_mem hk
    obtain ⟨c1, hc1⟩ := withTile_setBit_succeeds (c := c) (y := y) (x := x) (b := b) value
      (hr b hmem)
    have hw := withTile_setBit_ok hc1
    refine ⟨c1, ?_, hw.1, (hw.2.1 b (List.mem_singleton.2 rfl)).2, ?_⟩
    · have : (fun t => set_config ti t name value (k : Int)) = (fun t => setBit t b value) := by
        funext t
        rw [set_config_index_eq hfind, hb]
      rw [this]; exact hc1
    · intro y1 x1 r col hne
      apply hw.2.2
      rintro ⟨h1, h2, hm⟩
      have hb1 : (ConfigBitPOD.mk r col) = b := by simpa using hm
      exact hne ⟨h1, h2, by rw [← hb1], by rw [← hb1]⟩

/-- Option `LC_0` of `lcDemoTile` on the one-tile grid `lcDemoConfig`: written
whole, then at index 7 only. -/
theorem set_config_frame_witness :
    (∃ c1, withTile lcDemoConfig 0 0 (fun t => set_config lcDemoTile t "LC_0" true (-1))
        = .ok c1 ∧ getBit c1 0 0 0 19 = some true) ∧
    (∃ c1, withTile lcDemoConfig 0 0
        (fun t => set_config lcDemoTile t "LC_0" true ((7 : Nat) : Int)) = .ok c1 ∧
      getBit c1 0 0 0 7 = some true ∧ getBit c1 0 0 0 6 = getBit lcDemoConfig 0 0 0 6) := by
  have h := set_config_frame lcDemoTile lcDemoConfig 0 0 "LC_0" true
    ⟨"LC_0", (List.range 20).map fun i => ⟨0, Int.ofNat i⟩⟩ rfl (by decide) (by decide)
  obtain ⟨⟨c1, h1, _, hbits, _⟩, hidx⟩ := h
  obtain ⟨c2, h2, _, hb7, hfr⟩ := hidx 7 ⟨0, 7⟩ (by decide)
  exact ⟨⟨c1, h1, hbits ⟨0, 19⟩ (by decide)⟩, ⟨c2, h2, hb7, hfr 0 0 0 6 (by decide)⟩⟩

/-! ## `find_config`: absent and present options -/

theorem setBitsState_result (value : Bool) :
    ∀ (bits : List ConfigBitPOD) (t : TileCfg),
      resultOfState (setBitsState value t bits) =
        foldExcept (fun tc b => setBit tc b value) t bits := by
  intro bits
  induction bits with
  | nil => intro t; rfl
  | cons b bs ih =>
    intro t
    simp only [setBitsState, foldExcept]
    cases setBit t b value with
    | error e => rfl
    | ok t1 => exact ih t1

theorem set_config_state_result (ti : TileInfoPOD) (t : TileCfg) (name : String)
    (value : Bool) (index : Int) :
    resultOfState (set_config_state ti t name value index) =
      set_config ti t name value index := by
  unfold set_config_state set_config
  cases find_config ti name with
  | error e => rfl
  | ok cfg =>
    dsimp only
    split
    · exact setBitsState_result value cfg.bits t
    · cases vecAt cfg.bits index with
      | none => rfl
      | some b =>
        dsimp only
        cases setBit t b value <;> rfl

theorem find_config_none {ti : TileInfoPOD} {name : String}
    (h : ∀ e ∈ ti.entries, e.name ≠ name) : find_config ti name = .error .configLayout := by
  unfold find_config
  have : ti.entries.find? (fun e => e.name == name) = none := by
    rw [List.find?_eq_none]
    intro e he
    simpa using h e he
  rw [this]

theorem find_config_first_aux (name : String) :
    ∀ (entries : List ConfigEntryPOD), (∃ e ∈ entries, e.name = name) →
      ∃ pre e1 post, entries = pre ++ e1 :: post ∧ (∀ e2 ∈ pre, e2.name ≠ name) ∧
        e1.name = name ∧ entries.find? (fun e => e.name == name) = some e1 := by
  intro entries
  induction entries with
  | nil => rintro ⟨e, he, _⟩; cases he
  | cons a as ih =>
    intro hex
    by_cases ha : a.name = name
    · refine ⟨[], a, as, rfl, by simp, ha, ?_⟩
      simp [List.find?_cons, ha]
    · have hex2 : ∃ e ∈ as, e.name = name := by
        obtain ⟨e, he, hn⟩ := hex
        rcases List.mem_cons.1 he with h1 | h1
        · rw [h1] at hn; exact absurd hn ha
        · exact ⟨e, h1, hn⟩
      obtain ⟨pre, e1, post, hsplit, hpre, hname, hfind⟩ := ih hex2
      refine ⟨a :: pre, e1, post, by rw [hsplit]; rfl, ?_, hname, ?_⟩
      · intro e2 he2
        rcases List.mem_cons.1 he2 with h1 | h1
        · rw [h1]; exact ha
        · exact hpre e2 h1
      · simp [List.find?_cons, ha, hfind]

/-- C12: when no entry of the layout has the name, `find_config` aborts with
the configuration-layout error, and so does `set_config`, whose tile is then
still the tile it received; when some entry has the name, `find_config` returns
the first such entry. -/
theorem find_config_first (ti : TileInfoPOD) (name : String) :
    ((∀ e ∈ ti.entries, e.name ≠ name) →
      find_config ti name = .error .configLayout ∧
      ∀ (t : TileCfg) (value : Bool) (index : Int),
        set_config ti t name value index = .error .configLayout ∧
        set_config_state ti t name value index = (t, some .configLayout)) ∧
    ((∃ e ∈ ti.entries, e.name = name) →
      ∃ pre e1 post, ti.entries = pre ++ e1 :: post ∧ (∀ e2 ∈ pre, e2.name ≠ name) ∧
        e1.name = name ∧ find_config ti name = .ok e1) := by
  constructor
  · intro h
    have hf := find_config_none h
    refine ⟨hf, fun t value index => ⟨?_, ?_⟩⟩
    · unfold set_config; rw [hf]
    · unfold set_config_state; rw [hf]
  · intro h
    obtain ⟨pre, e1, post, hsplit, hpre, hname, hfind⟩ := find_config_first_aux name _ h
    refine ⟨pre, e1, post, hsplit, hpre, hname, ?_⟩
    unfold find_config
    rw [hfind]

/-- The layout `ioDemoTile` has no option `NegClk`, and its first option named
`IoCtrl.IE_1` is the one with bit `(1, 2)`. -/
theorem find_config_first_witness :
    (find_config ioDemoTile "NegClk" = .error .configLayout ∧
      ∀ (t : TileCfg) (value : Bool) (index : Int),
        set_config ioDemoTile t "NegClk" value index = .error .configLayout ∧
        set_config_state ioDemoTile t "NegClk" value index = (t, some .configLayout)) ∧
    (∃ pre e1 post, ioDemoTile.entries = pre ++ e1 :: post ∧
      (∀ e2 ∈ pre, e2.name ≠ "IoCtrl.IE_1") ∧ e1.name = "IoCtrl.IE_1" ∧
      find_config ioDemoTile "IoCtrl.IE_1" = .ok e1) :=
  ⟨(find_config_first ioDemoTile "NegClk").1 (by decide),
   (find_config_first ioDemoTile "IoCtrl.IE_1").2 ⟨⟨"IoCtrl.IE_1", [⟨1, 2⟩]⟩, by decide, rfl⟩⟩

/-! ## The enable-register lookup of an I/O cell -/

theorem find_first_split {α : Type} (p : α → Bool) :
    ∀ (l : List α), (∃ a ∈ l, p a = true) →
      ∃ pre a post, l = pre ++ a :: post ∧ (∀ b ∈ pre, p b = false) ∧ p a = true ∧
        l.find? p = some a := by
  intro l
  induction l with
  | nil => rintro ⟨a, ha, _⟩; cases ha
  | cons a as ih =>
    intro hex
    by_cases ha : p a = true
    · exact ⟨[], a, as, rfl, by simp, ha, by simp [List.find?_cons, ha]⟩
    · have ha2 : p a = false := by simpa using ha
      have hex2 : ∃ b ∈ as, p b = true := by
        obtain ⟨b, hb, hpb⟩ := hex
        rcases List.mem_cons.1 hb with h1 | h1
        · rw [h1] at hpb; exact absurd hpb ha
        · exact ⟨b, h1, hpb⟩
      obtain ⟨pre, a1, post, hsplit, hpre, hpa, hfind⟩ := ih hex2
      refine ⟨a :: pre, a1, post, by rw [hsplit]; rfl, ?_, hpa, ?_⟩
      · intro b hb
        rcases List.mem_cons.1 hb with h1 | h1
        · rw [h1]; exact ha2
        · exact hpre b h1
      · simp [List.find?_cons, ha2, hfind]

theorem stoi_error {s : String} {e : Err} (h : stoi s = .error e) : e = .badParam := by
  unfold stoi at h
  dsimp only at h
  split_ifs at h
  all_goals exact (Except.error.inj h).symm

theorem ioParams_error {cell : CellInfo} {e : Err} (h : ioParams cell = .error e) :
    e = .badParam := by
  unfold ioParams at h
  split at h
  · rename_i e1 h1
    rw [← Except.error.inj h]; exact stoi_error h1
  · split at h
    · rename_i e1 h1
      rw [← Except.error.inj h]; exact stoi_error h1
    · split at h
      · rename_i e1 h1
        rw [← Except.error.inj h]; exact stoi_error h1
      · cases h

theorem setBit_error {t : TileCfg} {b : ConfigBitPOD} {v : Bool} {e : Err}
    (h : setBit t b v = .error e) : e = .outOfRange := by
  unfold setBit at h
  split at h
  · exact (Except.error.inj h).symm
  · split at h
    · exact (Except.error.inj h).symm
    · cases h

theorem setBits_error {v : Bool} :
    ∀ (bits : List ConfigBitPOD) (t : TileCfg) (e : Err),
      foldExcept (fun tc b => setBit tc b v) t bits = .error e → e = .outOfRange := by
  intro bits
  induction bits with
  | nil => intro t e h; cases h
  | cons b bs ih =>
    intro t e h
    simp only [foldExcept] at h
    cases hb : setBit t b v with
    | error e1 =>
      rw [hb] at h; dsimp only at h
      rw [← Except.error.inj h]; exact setBit_error hb
    | ok t1 =>
      rw [hb] at h; dsimp only at h
      exact ih t1 e h

theorem set_config_error {ti : TileInfoPOD} {t : TileCfg} {name : String} {v : Bool}
    {index : Int} {e : Err} (h : set_config ti t name v index = .error e) :
    e = .configLayout ∨ e = .outOfRange := by
  unfold set_config at h
  cases hf : find_config ti name with
  | error e1 =>
    rw [hf] at h; dsimp only at h
    left
    rw [← Except.error.inj h]
    unfold find_config at hf
    split at hf
    · cases hf
    · exact (Except.error.inj hf).symm
  | ok cfg =>
    rw [hf] at h; dsimp only at h
    right
    split at h
    · exact setBits_error _ _ _ h
    · split at h
      · exact (Except.error.inj h).symm
      · exact setBit_error h

theorem withTile_error {c : Config} {y x : Int} {f : TileCfg → Except Err TileCfg} {e : Err}
    (hf : ∀ t e1, f t = .error e1 → e1 = .configLayout ∨ e1 = .outOfRange)
    (h : withTile c y x f = .error e) : e = .configLayout ∨ e = .outOfRange := by
  unfold withTile at h
  cases hr : vecAt c y with
  | none =>
    rw [hr] at h; dsimp only at h
    exact Or.inr (Except.error.inj h).symm
  | some r =>
    rw [hr] at h; dsimp only at h
    cases hc : vecAt r x with
    | none =>
      rw [hc] at h; dsimp only at h
      exact Or.inr (Except.error.inj h).symm
    | some t =>
      rw [hc] at h; dsimp only at h
      cases hft : f t with
      | error e1 =>
        rw [hft] at h; dsimp only at h
        rw [← Except.error.inj h]; exact hf t e1 hft
      | ok t1 => rw [hft] at h; cases h

theorem setIeren_error {ti : TileInfoPOD} {c : Config} {iex iey iez : Int} {ie ren : Bool}
    {e : Err} (h : setIeren ti c iex iey iez ie ren = .error e) :
    e = .configLayout ∨ e = .outOfRange := by
  unfold setIeren at h
  split at h
  · rename_i e1 h1
    rw [← Except.error.inj h]
    exact withTile_error (fun _ _ hs => set_config_error hs) h1
  · exact withTile_error (fun _ _ hs => set_config_error hs) h

theorem setPinType_error {ti : TileInfoPOD} {c : Config} {x y z : Int} {pin_type : Nat}
    {e : Err} (h : setPinType ti c x y z pin_type = .error e) :
    e = .configLayout ∨ e = .outOfRange := by
  unfold setPinType at h
  generalize List.range 6 = is at h
  induction is generalizing c with
  | nil => cases h
  | cons i is ih =>
    simp only [foldExcept] at h
    split at h
    · rename_i e1 h1
      rw [← Except.error.inj h]
      exact withTile_error (fun _ _ hs => set_config_error hs) h1
    · exact ih h

theorem setCell_of_io_type {chip : Chip} {cell : CellInfo} (htype : cell.type = "SB_IO")
    (config : Config) (bel : Nat) :
    setCell chip config cell bel =
      setIOCell chip config cell bel (chip.chip_info.bel_data bel).x
        (chip.chip_info.bel_data bel).y (chip.chip_info.bel_data bel).z := by
  unfold setCell
  dsimp only
  rw [if_neg (by rw [htype]; decide), if_pos htype]

theorem get_ieren_none {bi : BitstreamInfoPOD} {x y z : Int}
    (h : ∀ ie ∈ bi.ierens, ¬ (ie.iox = x ∧ ie.ioy = y ∧ ie.ioz = z)) :
    get_ieren bi x y z = (-1, -1, -1) := by
  unfold get_ieren
  have : bi.ierens.find? (fun ie => ie.iox == x && ie.ioy == y && ie.ioz == z) = none := by
    rw [List.find?_eq_none]
    intro ie hie
    have := h ie hie
    simpa [and_assoc] using this
  rw [this]

theorem setIOCell_not_missing {chip : Chip} {config : Config} {cell : CellInfo} {bel : Nat}
    {x y z : Int} (hreg : (get_ieren chip.chip_info.bits_info x y z).2.2 ≠ -1) :
    setIOCell chip config cell bel x y z ≠ .error .missingIeren := by
  intro h
  unfold setIOCell at h
  dsimp only at h
  split at h
  · rename_i e1 h1
    have := ioParams_error h1
    rw [Except.error.inj h] at this; cases this
  · split at h
    · rename_i e1 h1
      have := setPinType_error h1
      rw [Except.error.inj h] at this
      rcases this with h2 | h2 <;> cases h2
    · rw [if_neg hreg] at h
      split at h
      · rcases setIeren_error h with h2 | h2 <;> cases h2
      · rcases setIeren_error h with h2 | h2 <;> cases h2

theorem setIOCell_missing {chip : Chip} {config : Config} {cell : CellInfo} {bel : Nat}
    {x y z : Int} (hreg : (get_ieren chip.chip_info.bits_info x y z).2.2 = -1) :
    (∀ c1, setIOCell chip config cell bel x y z ≠ .ok c1) ∧
    (∀ p c1, ioParams cell = .ok p →
      setPinType (chip.chip_info.bits_info.tiles_nonrouting TileType.TILE_IO) config x y z
        p.pin_type = .ok c1 →
      setIOCell chip config cell bel x y z = .error .missingIeren) := by
  constructor
  · intro c1 h
    unfold setIOCell at h
    dsimp only at h
    split at h
    · cases h
    · split at h
      · cases h
      · rw [if_pos hreg] at h; cases h
  · intro p c1 hp hpin
    unfold setIOCell
    dsimp only
    rw [hp]; dsimp only
    rw [hpin]; dsimp only
    rw [if_pos hreg]

theorem setIOCell_abort_cases {chip : Chip} {config : Config} {cell : CellInfo} {bel : Nat}
    {x y z : Int} (hreg : (get_ieren chip.chip_info.bits_info x y z).2.2 = -1) :
    ∃ e, setIOCell chip config cell bel x y z = .error e ∧
      (e = .missingIeren ↔ ∃ p c1, ioParams cell = .ok p ∧
        setPinType (chip.chip_info.bits_info.tiles_nonrouting TileType.TILE_IO) config x y z
          p.pin_type = .ok c1) ∧
      (∀ e1, ioParams cell = .error e1 → e = e1 ∧ e = .badParam) ∧
      (∀ p e1, ioParams cell = .ok p →
        setPinType (chip.chip_info.bits_info.tiles_nonrouting TileType.TILE_IO) config x y z
          p.pin_type = .error e1 → e = e1 ∧ (e = .configLayout ∨ e = .outOfRange)) := by
  cases hp : ioParams cell with
  | error e1 =>
    have hbad := ioParams_error hp
    refine ⟨e1, ?_, ?_, ?_, ?_⟩
    · unfold setIOCell; dsimp only; rw [hp]
    · constructor
      · intro h; rw [h] at hbad; cases hbad
      · rintro ⟨p, c1, h, _⟩; cases h
    · intro e2 h; exact ⟨(Except.error.inj h), hbad⟩
    · intro p e2 h; cases h
  | ok p =>
    cases hs : setPinType (chip.chip_info.bits_info.tiles_nonrouting TileType.TILE_IO) config
        x y z p.pin_type with
    | error e1 =>
      have hk := setPinType_error hs
      refine ⟨e1, ?_, ?_, ?_, ?_⟩
      · unfold setIOCell; dsimp only; rw [hp]; dsimp only; rw [hs]
      · constructor
        · intro h; rw [h] at hk; rcases hk with h1 | h1 <;> cases h1
        · rintro ⟨p1, c1, h1, h2⟩
          cases h1
          rw [hs] at h2; cases h2
      · intro e2 h; cases h
      · intro p1 e2 h1 h2
        cases h1
        rw [hs] at h2
        exact ⟨Except.error.inj h2, hk⟩
    | ok c1 =>
      refine ⟨.missingIeren, ?_, ?_, ?_, ?_⟩
      · exact (setIOCell_missing hreg).2 p c1 hp hs
      · exact ⟨fun _ => ⟨p, c1, rfl, hs⟩, fun _ => rfl⟩
      · intro e2 h; cases h
      · intro p1 e2 h1 h2
        cases h1
        rw [hs] at h2; cases h2

/-- C13 (as amended): for a placed cell of type `SB_IO` on a bel at pin
`(x, y, z)`: when the enable-register table has no entry for this pin, the cell
cannot be encoded and the cell loop aborts at it; the abort is the
missing-enable-register error exactly when the three parameters parse and the
six pin-type writes, which come first, succeed, and it is the error of that
earlier step otherwise (an invalid parameter value; a pin-type option absent
from the layout or outside the tile).  When the table has an entry for the pin,
`get_ieren` returns the register of the first such entry and, its `z` not being
-1, the encoder does not raise this error. -/
theorem ieren_lookup (chip : Chip) (config : Config) (name : String) (cell : CellInfo)
    (bel : Nat) (rest : List (String × CellInfo))
    (htype : cell.type = "SB_IO") (hbel : cell.bel = some bel) :
    ((∀ ie ∈ chip.chip_info.bits_info.ierens,
        ¬ (ie.iox = (chip.chip_info.bel_data bel).x ∧ ie.ioy = (chip.chip_info.bel_data bel).y ∧
          ie.ioz = (chip.chip_info.bel_data bel).z)) →
      ∃ e, setCell chip config cell bel = .error e ∧
        setCells chip config ((name, cell) :: rest) = ([], .error e) ∧
        (e = .missingIeren ↔ ∃ p c1, ioParams cell = .ok p ∧
          setPinType (chip.chip_info.bits_info.tiles_nonrouting TileType.TILE_IO) config
            (chip.chip_info.bel_data bel).x (chip.chip_info.bel_data bel).y
            (chip.chip_info.bel_data bel).z p.pin_type = .ok c1) ∧
        (∀ e1, ioParams cell = .error e1 → e = e1 ∧ e = .badParam) ∧
        (∀ p e1, ioParams cell = .ok p →
          setPinType (chip.chip_info.bits_info.tiles_nonrouting TileType.TILE_IO) config
            (chip.chip_info.bel_data bel).x (chip.chip_info.bel_data bel).y
            (chip.chip_info.bel_data bel).z p.pin_type = .error e1 →
          e = e1 ∧ (e = .configLayout ∨ e = .outOfRange))) ∧
    ((∃ ie ∈ chip.chip_info.bits_info.ierens,
        ie.iox = (chip.chip_info.bel_data bel).x ∧ ie.ioy = (chip.chip_info.bel_data bel).y ∧
          ie.ioz = (chip.chip_info.bel_data bel).z) →
      ∃ pre ie1 post, chip.chip_info.bits_info.ierens = pre ++ ie1 :: post ∧
        (∀ ie2 ∈ pre, ¬ (ie2.iox = (chip.chip_info.bel_data bel).x ∧
          ie2.ioy = (chip.chip_info.bel_data bel).y ∧
          ie2.ioz = (chip.chip_info.bel_data bel).z)) ∧
        (ie1.iox = (chip.chip_info.bel_data bel).x ∧ ie1.ioy = (chip.chip_info.bel_data bel).y ∧
          ie1.ioz = (chip.chip_info.bel_data bel).z) ∧
        get_ieren chip.chip_info.bits_info (chip.chip_info.bel_data bel).x
          (chip.chip_info.bel_data bel).y (chip.chip_info.bel_data bel).z =
          (ie1.ierx, ie1.iery, ie1.ierz) ∧
        (ie1.ierz ≠ -1 → setCell chip config cell bel ≠ .error .missingIeren)) := by
  constructor
  · intro hnone
    have hg := get_ieren_none hnone
    obtain ⟨e, he, hrest⟩ := @setIOCell_abort_cases chip config cell bel
      (chip.chip_info.bel_data bel).x (chip.chip_info.bel_data bel).y
      (chip.chip_info.bel_data bel).z (by rw [hg])
    have hc : setCell chip config cell bel = .error e := by
      rw [setCell_of_io_type htype]; exact he
    exact ⟨e, hc, by simp only [setCells, hbel, hc], hrest⟩
  · rintro ⟨ie, hie, hm⟩
    rw [setCell_of_io_type htype]
    obtain ⟨pre, ie1, post, hsplit, hpre, hp1, hfind⟩ := find_first_split
      (fun ie => ie.iox == (chip.chip_info.bel_data bel).x &&
        ie.ioy == (chip.chip_info.bel_data bel).y && ie.ioz == (chip.chip_info.bel_data bel).z)
      chip.chip_info.bits_info.ierens ⟨ie, hie, by simp [hm.1, hm.2.1, hm.2.2]⟩
    have hget : get_ieren chip.chip_info.bits_info (chip.chip_info.bel_data bel).x
        (chip.chip_info.bel_data bel).y (chip.chip_info.bel_data bel).z =
        (ie1.ierx, ie1.iery, ie1.ierz) := by
      unfold get_ieren
      rw [hfind]
    refine ⟨pre, ie1, post, hsplit, ?_, ?_, hget, ?_⟩
    · intro ie2 hie2 hm2
      have := hpre ie2 hie2
      simp [hm2.1, hm2.2.1, hm2.2.2] at this
    · simpa [and_assoc] using hp1
    · intro hz
      exact setIOCell_not_missing (by rw [hget]; exact hz)

/-- Both cases on the one-tile I/O devices.  On `ioBareDemoChip`, whose table is
empty, the cell `ioDemoCell` (valid parameters, pin-type options in the layout)
aborts the cell loop with the missing-enable-register error.  On `ioDemoChip`
the pin `(0, 0, 0)` has the register `(0, 0, 1)` and this error is not raised. -/
theorem ieren_lookup_witness :
    (setCell (ioBareDemoChip .HX8K) (initConfig (ioBareDemoChip .HX8K)) ioDemoCell 0
        = .error .missingIeren ∧
      setCells (ioBareDemoChip .HX8K) (initConfig (ioBareDemoChip .HX8K))
        [("io", ioDemoCell), ("gb", gbDemoCell)] = ([], .error .missingIeren)) ∧
    (∃ pre ie1 post, (ioDemoChip .HX8K "" "" "io").chip_info.bits_info.ierens
        = pre ++ ie1 :: post ∧
      get_ieren (ioDemoChip .HX8K "" "" "io").chip_info.bits_info 0 0 0 =
        (ie1.ierx, ie1.iery, ie1.ierz) ∧
      (ie1.ierz ≠ -1 →
        setCell (ioDemoChip .HX8K "" "" "io") (initConfig (ioDemoChip .HX8K "" "" "io"))
          ioDemoCell 0 ≠ .error .missingIeren)) := by
  constructor
  · obtain ⟨e, h1, h2, hiff, _⟩ := (ieren_lookup (ioBareDemoChip .HX8K)
      (initConfig (ioBareDemoChip .HX8K)) "io" ioDemoCell 0 [("gb", gbDemoCell)] rfl rfl).1
      (by decide)
    have he : e = .missingIeren := hiff.2
      ⟨⟨1, false, true⟩,
        [[[[true, false, false, false, false, false, false, false],
           [false, false, false, false, false, false, false, false]]]], rfl, rfl⟩
    subst he
    exact ⟨h1, h2⟩
  · obtain ⟨pre, ie1, post, h1, _, _, h2, h3⟩ := (ieren_lookup (ioDemoChip .HX8K "" "" "io")
      (initConfig (ioDemoChip .HX8K "" "" "io")) "io" ioDemoCell 0 [] rfl rfl).2
      ⟨⟨0, 0, 0, 0, 0, 1⟩, by decide, by decide⟩
    exact ⟨pre, ie1, post, h1, h2, h3⟩

/-- C13 (counterexample): on `ioBareDemoChip` the enable-register table has no
entry for the pin `(0, 0, 0)` of the placed I/O cell `ioBadDemoCell`, whose
`PIN_TYPE` is not a number: the encode aborts, but with the parameter error of
`std::stoi`, raised before the table is looked up, and not with the
missing-enable-register error. -/
theorem ieren_missing_bad_param :
    (ioBareDemoChip .HX8K).chip_info.bits_info.ierens = [] ∧
    ioBadDemoCell.type = "SB_IO" ∧ ioBadDemoCell.bel = some 0 ∧
    (write_asc ⟨ioBareDemoChip .HX8K, [("io", ioBadDemoCell)]⟩).err = some .badParam ∧
    (write_asc ⟨ioBareDemoChip .HX8K, [("io", ioBadDemoCell)]⟩).err ≠ some .missingIeren ∧
    (write_asc ⟨ioBareDemoChip .HX8K, [("io", ioBadDemoCell)]⟩).out =
      [".comment from next-pnr", ".device 8k"] := by
  decide

/-! ## Unplaced cells and the dispatch on the cell type -/

/-- C14: a cell whose bel is the null bel is reported on `std::cout` and
skipped, whatever its type and parameters: the loop goes on with the remaining
cells from the same grid, and the cell itself raises no error. -/
theorem unplaced_cell_skipped (chip : Chip) (config : Config) (name : String)
    (cell : CellInfo) (rest : List (String × CellInfo)) (h : cell.bel = none) :
    setCells chip config ((name, cell) :: rest) =
      (unplacedWarning name :: (setCells chip config rest).1, (setCells chip config rest).2) ∧
    setCells chip config [(name, cell)] = ([unplacedWarning name], .ok config) := by
  constructor
  · simp only [setCells, h]
  · simp only [setCells, h]

/-- An unplaced cell of unknown type with an unparsable parameter, followed by
the I/O cell of `ioDemoChip`: the first is reported, the second is encoded. -/
theorem unplaced_cell_skipped_witness :
    setCells (ioDemoChip .HX8K "" "" "io") (initConfig (ioDemoChip .HX8K "" "" "io"))
        [("u", unplacedDemoCell), ("io", ioDemoCell)] =
      (unplacedWarning "u" ::
        (setCells (ioDemoChip .HX8K "" "" "io") (initConfig (ioDemoChip .HX8K "" "" "io"))
          [("io", ioDemoCell)]).1,
       (setCells (ioDemoChip .HX8K "" "" "io") (initConfig (ioDemoChip .HX8K "" "" "io"))
          [("io", ioDemoCell)]).2) ∧
    (write_asc ⟨ioDemoChip .HX8K "" "" "io", [("u", unplacedDemoCell), ("io", ioDemoCell)]⟩).cout
      = ["Found unplaced cell u while generating bitstream!"] ∧
    (write_asc ⟨ioDemoChip .HX8K "" "" "io", [("u", unplacedDemoCell), ("io", ioDemoCell)]⟩).out
      = [".comment from next-pnr", ".device 8k", ".io_tile 0 0", "10000000", "00000000", ""] :=
  ⟨(unplaced_cell_skipped (ioDemoChip .HX8K "" "" "io")
      (initConfig (ioDemoChip .HX8K "" "" "io")) "u" unplacedDemoCell [("io", ioDemoCell)] rfl).1,
    by decide, by decide⟩

/-- C15: a placed cell whose type is none of `ICESTORM_LC`, `SB_IO` and `SB_GB`
aborts the encode with the unsupported-cell-type error; a placed cell of type
`SB_GB` is encoded without abort and leaves the grid as it is. -/
theorem cell_type_dispatch (chip : Chip) (config : Config) (name : String) (cell : CellInfo)
    (bel : Nat) (rest : List (String × CellInfo)) (hbel : cell.bel = some bel) :
    ((cell.type ≠ "ICESTORM_LC" ∧ cell.type ≠ "SB_IO" ∧ cell.type ≠ "SB_GB") →
      setCell chip config cell bel = .error .unsupportedCell ∧
      setCells chip config ((name, cell) :: rest) = ([], .error .unsupportedCell)) ∧
    (cell.type = "SB_GB" →
      setCell chip config cell bel = .ok config ∧
      setCells chip config ((name, cell) :: rest) = setCells chip config rest) := by
  constructor
  · rintro ⟨h1, h2, h3⟩
    have hc : setCell chip config cell bel = .error .unsupportedCell := by
      unfold setCell
      dsimp only
      rw [if_neg h1, if_neg h2, if_neg h3]
    exact ⟨hc, by simp only [setCells, hbel, hc]⟩
  · intro h
    have hc : setCell chip config cell bel = .ok config := by
      unfold setCell
      dsimp only
      rw [if_neg (by rw [h]; decide), if_neg (by rw [h]; decide), if_pos h]
    exact ⟨hc, by simp only [setCells, hbel, hc]⟩

/-- A placed `SB_GB` cell on `pipDemoChip` leaves the zero grid unchanged, and
the placed cell `ramDemoCell` aborts the encode. -/
theorem cell_type_dispatch_witness :
    (setCell (pipDemoChip .HX8K 0 0 "" "") (initConfig (pipDemoChip .HX8K 0 0 "" ""))
        gbDemoCell 0 = .ok (initConfig (pipDemoChip .HX8K 0 0 "" "")) ∧
      setCells (pipDemoChip .HX8K 0 0 "" "") (initConfig (pipDemoChip .HX8K 0 0 "" ""))
        [("gb", gbDemoCell)] =
        setCells (pipDemoChip .HX8K 0 0 "" "") (initConfig (pipDemoChip .HX8K 0 0 "" "")) []) ∧
    (setCell (pipDemoChip .HX8K 0 0 "" "") (initConfig (pipDemoChip .HX8K 0 0 "" ""))
        ramDemoCell 0 = .error .unsupportedCell ∧
      setCells (pipDemoChip .HX8K 0 0 "" "") (initConfig (pipDemoChip .HX8K 0 0 "" ""))
        [("ram", ramDemoCell)] = ([], .error .unsupportedCell)) :=
  ⟨(cell_type_dispatch (pipDemoChip .HX8K 0 0 "" "") (initConfig (pipDemoChip .HX8K 0 0 "" ""))
      "gb" gbDemoCell 0 [] rfl).2 rfl,
   (cell_type_dispatch (pipDemoChip .HX8K 0 0 "" "") (initConfig (pipDemoChip .HX8K 0 0 "" ""))
      "ram" ramDemoCell 0 [] rfl).1 (by decide)⟩

/-! ## The default of an unused I/O bel -/

/-- C16 (as amended): on LP1K and HX1K, for an I/O bel with no cell whose
enable register `(iex, iey, iez)` exists, the default pass writes
`IoCtrl.IE_<iez>` to 1 and `IoCtrl.REN_<iez>` to 0 in tile `(iex, iey)`; these
are the values the I/O-cell encoder writes on these families for a cell with
no input wire connected (input enable false) and pull-up on.  On every other
family, for a bel without enable register, for a bel with a cell and for a bel
that is not an I/O bel, the step leaves the grid as it is and raises no error. -/
theorem unused_io_default (chip : Chip) (config : Config) (bel : Nat) :
    ((is1k chip.args_type = true ∧ chip.bel_to_cell bel = "" ∧
        (chip.chip_info.bel_data bel).type = BelType.TYPE_SB_IO ∧
        (get_ieren chip.chip_info.bits_info (chip.chip_info.bel_data bel).x
          (chip.chip_info.bel_data bel).y (chip.chip_info.bel_data bel).z).2.2 ≠ -1) →
      setUnusedIOBel chip config bel =
        setIeren (chip.chip_info.bits_info.tiles_nonrouting TileType.TILE_IO) config
          (get_ieren chip.chip_info.bits_info (chip.chip_info.bel_data bel).x
            (chip.chip_info.bel_data bel).y (chip.chip_info.bel_data bel).z).1
          (get_ieren chip.chip_info.bits_info (chip.chip_info.bel_data bel).x
            (chip.chip_info.bel_data bel).y (chip.chip_info.bel_data bel).z).2.1
          (get_ieren chip.chip_info.bits_info (chip.chip_info.bel_data bel).x
            (chip.chip_info.bel_data bel).y (chip.chip_info.bel_data bel).z).2.2
          true false ∧
      ∀ c1, setUnusedIOBel chip config bel = .ok c1 →
        ∃ cfgIE cfgREN,
          find_config (chip.chip_info.bits_info.tiles_nonrouting TileType.TILE_IO)
            ("IoCtrl.IE_" ++ toString (get_ieren chip.chip_info.bits_info
              (chip.chip_info.bel_data bel).x (chip.chip_info.bel_data bel).y
              (chip.chip_info.bel_data bel).z).2.2) = .ok cfgIE ∧
          find_config (chip.chip_info.bits_info.tiles_nonrouting TileType.TILE_IO)
            ("IoCtrl.REN_" ++ toString (get_ieren chip.chip_info.bits_info
              (chip.chip_info.bel_data bel).x (chip.chip_info.bel_data bel).y
              (chip.chip_info.bel_data bel).z).2.2) = .ok cfgREN ∧
          (∀ b ∈ cfgREN.bits,
            getBit c1 (get_ieren chip.chip_info.bits_info (chip.chip_info.bel_data bel).x
              (chip.chip_info.bel_data bel).y (chip.chip_info.bel_data bel).z).2.1
              (get_ieren chip.chip_info.bits_info (chip.chip_info.bel_data bel).x
              (chip.chip_info.bel_data bel).y (chip.chip_info.bel_data bel).z).1
              b.row b.col = some false) ∧
          (∀ b ∈ cfgIE.bits, b ∉ cfgREN.bits →
            getBit c1 (get_ieren chip.chip_info.bits_info (chip.chip_info.bel_data bel).x
              (chip.chip_info.bel_data bel).y (chip.chip_info.bel_data bel).z).2.1
              (get_ieren chip.chip_info.bits_info (chip.chip_info.bel_data bel).x
              (chip.chip_info.bel_data bel).y (chip.chip_info.bel_data bel).z).1
              b.row b.col = some true)) ∧
    (∀ (cell : CellInfo) (bel2 : Nat) (x y z : Int) (c0 c1 : Config) (p : IOParams),
      is1k chip.args_type = true →
      ioParams cell = .ok p → p.pullup = true → inputEn chip bel2 = false →
      setPinType (chip.chip_info.bits_info.tiles_nonrouting TileType.TILE_IO) c0 x y z
        p.pin_type = .ok c1 →
      (get_ieren chip.chip_info.bits_info x y z).2.2 ≠ -1 →
      setIOCell chip c0 cell bel2 x y z =
        setIeren (chip.chip_info.bits_info.tiles_nonrouting TileType.TILE_IO) c1
          (get_ieren chip.chip_info.bits_info x y z).1
          (get_ieren chip.chip_info.bits_info x y z).2.1
          (get_ieren chip.chip_info.bits_info x y z).2.2 true false) ∧
    ((is1k chip.args_type = false ∨ chip.bel_to_cell bel ≠ "" ∨
        (chip.chip_info.bel_data bel).type ≠ BelType.TYPE_SB_IO ∨
        (get_ieren chip.chip_info.bits_info (chip.chip_info.bel_data bel).x
          (chip.chip_info.bel_data bel).y (chip.chip_info.bel_data bel).z).2.2 = -1) →
      setUnusedIOBel chip config bel = .ok config) := by
  refine ⟨?_, ?_, ?_⟩
  · rintro ⟨h1k, hfree, htype, hreg⟩
    have heq : setUnusedIOBel chip config bel =
        setIeren (chip.chip_info.bits_info.tiles_nonrouting TileType.TILE_IO) config
          (get_ieren chip.chip_info.bits_info (chip.chip_info.bel_data bel).x
            (chip.chip_info.bel_data bel).y (chip.chip_info.bel_data bel).z).1
          (get_ieren chip.chip_info.bits_info (chip.chip_info.bel_data bel).x
            (chip.chip_info.bel_data bel).y (chip.chip_info.bel_data bel).z).2.1
          (get_ieren chip.chip_info.bits_info (chip.chip_info.bel_data bel).x
            (chip.chip_info.bel_data bel).y (chip.chip_info.bel_data bel).z).2.2
          true false := by
      unfold setUnusedIOBel
      rw [if_pos (by simp [hfree, htype])]
      dsimp only
      rw [if_pos hreg, if_pos h1k]
    refine ⟨heq, ?_⟩
    intro c1 hc1
    rw [heq] at hc1
    obtain ⟨cfgIE, cfgREN, cIE, hIE, hREN, hw1, hw2⟩ := setIeren_ok hc1
    obtain ⟨hren, hie, _⟩ := setIeren_final hw1 hw2
    exact ⟨cfgIE, cfgREN, hIE, hREN, hren, hie⟩
  · intro cell bel2 x y z c0 c1 p h1k hp hpull hin hpin hreg
    unfold setIOCell
    dsimp only
    rw [hp]; dsimp only
    rw [hpin]; dsimp only
    rw [if_neg hreg, if_pos h1k, hin, hpull]
    rfl
  · intro h
    unfold setUnusedIOBel
    split
    · rename_i hcond
      simp only [Bool.and_eq_true, beq_iff_eq] at hcond
      dsimp only
      rcases h with h | h | h | h
      · split
        · rw [h]; rfl
        · rfl
      · exact absurd hcond.1 h
      · exact absurd hcond.2 h
      · rw [if_neg (by rw [h]; simp)]
    · rfl

/-- The unused I/O bel of `ioDemoChip` on LP1K: the default step sets the bit
of `IoCtrl.IE_1` and clears the bit of `IoCtrl.REN_1`; on HX8K it does nothing. -/
theorem unused_io_default_witness :
    (∀ c1, setUnusedIOBel (ioDemoChip .LP1K "" "" "") (initConfig (ioDemoChip .LP1K "" "" "")) 0
        = .ok c1 →
      getBit c1 0 0 1 3 = some false ∧ getBit c1 0 0 1 2 = some true) ∧
    setUnusedIOBel (ioDemoChip .HX8K "" "" "") (initConfig (ioDemoChip .HX8K "" "" "")) 0 =
      .ok (initConfig (ioDemoChip .HX8K "" "" "")) := by
  refine ⟨?_, (unused_io_default (ioDemoChip .HX8K "" "" "")
    (initConfig (ioDemoChip .HX8K "" "" "")) 0).2.2 (Or.inl rfl)⟩
  intro c1 hc1
  obtain ⟨cfgIE, cfgREN, hIE, hREN, hren, hie⟩ := ((unused_io_default (ioDemoChip .LP1K "" "" "")
    (initConfig (ioDemoChip .LP1K "" "" "")) 0).1 ⟨rfl, rfl, rfl, by decide⟩).2 c1 hc1
  have h1 : cfgIE = ⟨"IoCtrl.IE_1", [⟨1, 2⟩]⟩ := (Except.ok.inj hIE).symm
  have h2 : cfgREN = ⟨"IoCtrl.REN_1", [⟨1, 3⟩]⟩ := (Except.ok.inj hREN).symm
  subst h1; subst h2
  exact ⟨hren ⟨1, 3⟩ (by decide), hie ⟨1, 2⟩ (by decide) (by decide)⟩

/-- C16 (counterexample): on `ioDemoChip` with family LP1K, the default step of
the unused bel stores IE = 1, REN = 0 (bits `(1, 2)` and `(1, 3)`), whereas the
I/O-cell encoder, for the cell `ioDemoCell` with pull-up on and `D_IN_0`
connected (input enable true), stores IE = 0, REN = 0. -/
theorem unused_io_default_not_input_enabled :
    (setUnusedIOBel (ioDemoChip .LP1K "" "" "") (initConfig (ioDemoChip .LP1K "" "" "")) 0).toOption
      = some [[[[false, false, false, false, false, false, false, false],
                [false, false, true, false, false, false, false, false]]]] ∧
    inputEn (ioDemoChip .LP1K "n" "" "io") 0 = true ∧
    (ioParams ioDemoCell).toOption = some ⟨1, false, true⟩ ∧
    (setIOCell (ioDemoChip .LP1K "n" "" "io") (initConfig (ioDemoChip .LP1K "n" "" "io"))
      ioDemoCell 0 0 0 0).toOption
      = some [[[[true, false, false, false, false, false, false, false],
                [false, false, false, false, false, false, false, false]]]] :=
  ⟨by decide, by decide, by decide, by decide⟩

/-! ## The storage-array power default -/

theorem foldExcept_establish {σ α : Type} (P : σ → Prop) (f : σ → α → Except Err σ) (a : α)
    (hset : ∀ s s1, f s a = .ok s1 → P s1)
    (hkeep : ∀ s b s1, P s → f s b = .ok s1 → P s1) :
    ∀ (as : List α), a ∈ as → ∀ (s s1 : σ), foldExcept f s as = .ok s1 → P s1 := by
  intro as
  induction as with
  | nil => intro h; cases h
  | cons b bs ih =>
    intro hmem s s1 h
    simp only [foldExcept] at h
    cases hfb : f s b with
    | error e => rw [hfb] at h; cases h
    | ok s2 =>
      rw [hfb] at h; dsimp only at h
      by_cases hab : a = b
      · subst hab
        exact foldExcept_inv P f hkeep bs s2 s1 (hset s s2 hfb) h
      · have hmem2 : a ∈ bs := by
          rcases List.mem_cons.1 hmem with h1 | h1
          · exact absurd h1 hab
          · exact h1
        exact ih hmem2 s2 s1 h

theorem setOtherTile_eq (chip : Chip) (y : Nat) (c : Config) (x : Nat) :
    setOtherTile chip y c x =
      match setPowerUpTile chip y c x with
      | .error e => .error e
      | .ok c1 => setColBufTile chip y c1 x := rfl

theorem setColBufTile_ok {chip : Chip} {c c1 : Config} {y x : Nat}
    (h : setColBufTile chip y c x = .ok c1) : gridDims c1 = gridDims c ∧ KeepsTrue c c1 := by
  unfold setColBufTile at h
  split at h
  · exact foldExcept_rel (fun a b => gridDims b = gridDims a ∧ KeepsTrue a b) _
      (fun s => ⟨rfl, KeepsTrue_refl s⟩)
      (fun a b c h1 h2 => ⟨h2.1.trans h1.1, KeepsTrue_trans h1.2 h2.2⟩)
      (fun s a s1 hs => withTile_set_config_true hs) colBufCtrlNames c c1 h
  · simp only [Except.ok.injEq] at h
    subst h
    exact ⟨rfl, KeepsTrue_refl _⟩

theorem optionAllTrue_keeps {ti : TileInfoPOD} {name : String} {c c1 : Config} {y x : Nat}
    (hk : KeepsTrue c c1) (h : optionAllTrue ti name c y x) : optionAllTrue ti name c1 y x := by
  obtain ⟨cfg, hf, hb⟩ := h
  exact ⟨cfg, hf, fun b hbm => hk _ _ _ _ (hb b hbm)⟩

theorem withTile_set_config_true_option {ti : TileInfoPOD} {c c1 : Config} {y x : Nat}
    {name : String}
    (h : withTile c (y : Int) (x : Int) (fun t => set_config ti t name true (-1)) = .ok c1) :
    optionAllTrue ti name c1 y x := by
  obtain ⟨cfg, hf, hw⟩ := withTile_set_config_all_ok h
  exact ⟨cfg, hf, fun b hb => (hw.2.1 b hb).2⟩

theorem setOtherBits_establish {chip : Chip} (P : Config → Prop) (x y : Nat)
    (hx : x < chip.chip_info.width) (hy : y < chip.chip_info.height)
    (hset : ∀ s s1, setOtherTile chip y s x = .ok s1 → P s1)
    (hkeep : ∀ s s1, KeepsTrue s s1 → P s → P s1) :
    ∀ (c c1 : Config), setOtherBits chip c = .ok c1 → P c1 := by
  intro c c1 h
  unfold setOtherBits at h
  refine foldExcept_establish P _ y ?_ ?_ _ (List.mem_range.2 hy) c c1 h
  · intro s s1 hrow
    exact foldExcept_establish P (setOtherTile chip y) x hset
      (fun s b s1 hp hs => hkeep s s1 (setOtherTile_ok hs).2 hp) _ (List.mem_range.2 hx) s s1 hrow
  · intro s y1 s1 hp hrow
    refine hkeep s s1 ?_ hp
    exact (foldExcept_rel (fun a b => gridDims b = gridDims a ∧ KeepsTrue a b) _
      (fun s => ⟨rfl, KeepsTrue_refl s⟩)
      (fun a b c h1 h2 => ⟨h2.1.trans h1.1, KeepsTrue_trans h1.2 h2.2⟩)
      (fun s x1 s1 hs => setOtherTile_ok hs) _ s s1 hrow).2

/-- C17 (as amended): on LP1K and HX1K, after a default pass that succeeds,
every tile of type `TILE_RAMB` of the grid has all the bits of its option
`RamConfig.PowerUp` true.  The write is made for `TILE_RAMB` only: for a tile
of any other type, `TILE_RAMT` included, and on every other family, the pass
makes no write of `RamConfig.PowerUp`. -/
theorem ram_power_default (chip : Chip) (c c1 : Config) (h : defaultPass chip c = .ok c1) :
    ((chip.args_type = .LP1K ∨ chip.args_type = .HX1K) →
      ∀ x y, x < chip.chip_info.width → y < chip.chip_info.height →
        tile_at chip x y = .TILE_RAMB →
        optionAllTrue (chip.chip_info.bits_info.tiles_nonrouting .TILE_RAMB)
          "RamConfig.PowerUp" c1 y x) ∧
    (∀ (x y : Nat) (c2 : Config),
      (tile_at chip x y ≠ .TILE_RAMB ∨ ¬ (chip.args_type = .LP1K ∨ chip.args_type = .HX1K)) →
      setPowerUpTile chip y c2 x = .ok c2 ∧
      setOtherTile chip y c2 x = setColBufTile chip y c2 x) := by
  constructor
  · intro hfam x y hx hy htile
    unfold defaultPass at h
    cases h1 : setUnusedIOBels chip c with
    | error e => rw [h1] at h; cases h
    | ok c2 =>
      rw [h1] at h; dsimp only at h
      refine setOtherBits_establish
        (fun s => optionAllTrue (chip.chip_info.bits_info.tiles_nonrouting .TILE_RAMB)
          "RamConfig.PowerUp" s y x) x y hx hy ?_ (fun s s1 hk hp => optionAllTrue_keeps hk hp)
        c2 c1 h
      intro s s1 hs
      rw [setOtherTile_eq] at hs
      cases hp : setPowerUpTile chip y s x with
      | error e => rw [hp] at hs; cases hs
      | ok s2 =>
        rw [hp] at hs; dsimp only at hs
        unfold setPowerUpTile at hp
        rw [if_pos ⟨htile, hfam⟩, htile] at hp
        exact optionAllTrue_keeps (setColBufTile_ok hs).2 (withTile_set_config_true_option hp)
  · intro x y c2 hne
    have hp : setPowerUpTile chip y c2 x = .ok c2 := by
      unfold setPowerUpTile
      rw [if_neg]
      rintro ⟨h1, h2⟩
      rcases hne with h3 | h3
      · exact h3 h1
      · exact h3 h2
    refine ⟨hp, ?_⟩
    rw [setOtherTile_eq, hp]

/-- The default pass on a single `TILE_RAMB` tile, family LP1K: the bit of
`RamConfig.PowerUp` is set. -/
theorem ram_power_default_witness :
    optionAllTrue ((ramDemoChip .LP1K .TILE_RAMB).chip_info.bits_info.tiles_nonrouting .TILE_RAMB)
      "RamConfig.PowerUp" [[[[true, false]]]] 0 0 :=
  (ram_power_default (ramDemoChip .LP1K .TILE_RAMB) (initConfig (ramDemoChip .LP1K .TILE_RAMB))
    [[[[true, false]]]] rfl).1 (Or.inl rfl) 0 0 (by decide) (by decide) rfl

/-- C17 (counterexample): a device of family LP1K with a single tile of type
`TILE_RAMT` whose layout has the option `RamConfig.PowerUp` at bit `(0, 0)`: the
encode succeeds and that bit is 0 in the output. -/
theorem ramt_power_not_written :
    tile_at (ramDemoChip .LP1K .TILE_RAMT) 0 0 = .TILE_RAMT ∧
    (find_config ((ramDemoChip .LP1K .TILE_RAMT).chip_info.bits_info.tiles_nonrouting .TILE_RAMT)
      "RamConfig.PowerUp").toOption = some ⟨"RamConfig.PowerUp", [⟨0, 0⟩]⟩ ∧
    (defaultPass (ramDemoChip .LP1K .TILE_RAMT)
      (initConfig (ramDemoChip .LP1K .TILE_RAMT))).toOption = some [[[[false, false]]]] ∧
    (write_asc ⟨ramDemoChip .LP1K .TILE_RAMT, []⟩).err = none ∧
    (write_asc ⟨ramDemoChip .LP1K .TILE_RAMT, []⟩).out =
      [".comment from next-pnr", ".device 1k", ".ramt_tile 0 0", "00", ""] :=
  ⟨by decide, by decide, by decide, by decide, by decide⟩

/-! ## The clock-distribution default -/

theorem testBit_foldr_bit :
    ∀ (bs : List Bool) (i : Nat),
      (bs.foldr (fun b n => Nat.bit b n) 0).testBit i = bs.getD i false := by
  intro bs
  induction bs with
  | nil => intro i; simp
  | cons b bs ih =>
    intro i
    cases i with
    | zero => simp [Nat.testBit_bit_zero]
    | succ i =>
      simp only [List.foldr_cons, Nat.testBit_bit_succ, ih]
      simp

theorem foldr_bit_lt :
    ∀ (bs : List Bool), bs.foldr (fun b n => Nat.bit b n) 0 < 2 ^ bs.length := by
  intro bs
  induction bs with
  | nil => simp
  | cons b bs ih =>
    simp only [List.foldr_cons, List.length_cons, pow_succ]
    generalize bs.foldr (fun b n => Nat.bit b n) 0 = n at ih
    generalize 2 ^ bs.length = m at ih
    cases b <;> simp [Nat.bit] <;> omega

theorem testBit_lutOfVector (v : List Bool) (i : Nat) :
    (lutOfVector v).testBit i =
      (decide (i < 16) && v.getD (lut_perm.getD i 0) false) := by
  unfold lutOfVector
  rw [testBit_foldr_bit]
  by_cases hi : i < 16
  · simp [List.getD_eq_getElem?_getD, List.getElem?_map, List.getElem?_range hi, hi]
  · have hnone : ((List.range 16).map
        fun (i : Nat) => v.getD (lut_perm.getD i 0) false)[i]? = none :=
      List.getElem?_eq_none (by simpa using Nat.le_of_not_lt hi)
    rw [List.getD_eq_getElem?_getD, hnone]
    simp [hi]

theorem lcVector_length (l : Nat) (c d s a : Bool) : (lcVector l c d s a).length = 20 := by
  have hfold : lcVector l c d s a =
      (((((List.range 16).foldl (lutStep l) (List.replicate 20 false)).set 8 c).set 9 d).set
        18 s).set 19 a := rfl
  rw [hfold]
  simp only [List.length_set, lutFold_length, List.length_replicate]

theorem list_ext_getD (n : Nat) (u v : List Bool) (hu : u.length = n) (hv : v.length = n)
    (h : ∀ j, j < n → u.getD j false = v.getD j false) : u = v := by
  apply List.ext_getElem (hu.trans hv.symm)
  intro j h1 h2
  have := h j (hu ▸ h1)
  simpa [List.getD_eq_getElem?_getD, List.getElem?_eq_getElem h1, List.getElem?_eq_getElem h2]
    using this

theorem position_cases (j : Nat) (hj : j < 20) :
    j = 8 ∨ j = 9 ∨ j = 18 ∨ j = 19 ∨ ∃ i, i < 16 ∧ lut_perm.getD i 0 = j := by
  revert j
  decide

theorem lcVector_eq_of_bits (l l1 : Nat) (c d s a : Bool)
    (h : ∀ i, i < 16 → l.testBit i = l1.testBit i) :
    lcVector l c d s a = lcVector l1 c d s a := by
  apply list_ext_getD 20 _ _ (lcVector_length ..) (lcVector_length ..)
  intro j hj
  rcases position_cases j hj with h8 | h9 | h18 | h19 | ⟨i, hi, hp⟩
  · subst h8; rw [lcVector_getD _ _ _ _ _ 8 hj, lcVector_getD _ _ _ _ _ 8 hj]; simp
  · subst h9; rw [lcVector_getD _ _ _ _ _ 9 hj, lcVector_getD _ _ _ _ _ 9 hj]; simp
  · subst h18; rw [lcVector_getD _ _ _ _ _ 18 hj, lcVector_getD _ _ _ _ _ 18 hj]; simp
  · subst h19; rw [lcVector_getD _ _ _ _ _ 19 hj, lcVector_getD _ _ _ _ _ 19 hj]; simp
  · rw [← hp, lcVector_perm _ _ _ _ _ i hi, lcVector_perm _ _ _ _ _ i hi, h i hi]

theorem lcVector_flags (l : Nat) (c d s a : Bool) :
    (lcVector l c d s a).getD 8 false = c ∧ (lcVector l c d s a).getD 9 false = d ∧
    (lcVector l c d s a).getD 18 false = s ∧ (lcVector l c d s a).getD 19 false = a := by
  refine ⟨?_, ?_, ?_, ?_⟩
  · rw [lcVector_getD _ _ _ _ _ 8 (by decide)]; simp
  · rw [lcVector_getD _ _ _ _ _ 9 (by decide)]; simp
  · rw [lcVector_getD _ _ _ _ _ 18 (by decide)]; simp
  · rw [lcVector_getD _ _ _ _ _ 19 (by decide)]; simp

theorem lutOfVector_lcVector (l : Nat) (c d s a : Bool) :
    lutOfVector (lcVector l c d s a) = l % 65536 := by
  apply Nat.eq_of_testBit_eq
  intro i
  have h16 : (65536 : Nat) = 2 ^ 16 := by norm_num
  rw [testBit_lutOfVector, h16, Nat.testBit_mod_two_pow]
  by_cases hi : i < 16
  · rw [lcVector_perm _ _ _ _ _ i hi]
  · simp [hi]

theorem lcVector_lutOfVector (v : List Bool) (hv : v.length = 20) :
    lcVector (lutOfVector v) (v.getD 8 false) (v.getD 9 false) (v.getD 18 false)
      (v.getD 19 false) = v := by
  apply list_ext_getD 20 _ _ (lcVector_length ..) hv
  intro j hj
  rcases position_cases j hj with h8 | h9 | h18 | h19 | ⟨i, hi, hp⟩
  · subst h8; exact (lcVector_flags ..).1
  · subst h9; exact (lcVector_flags ..).2.1
  · subst h18; exact (lcVector_flags ..).2.2.1
  · subst h19; exact (lcVector_flags ..).2.2.2
  · rw [← hp, lcVector_perm _ _ _ _ _ i hi, testBit_lutOfVector]
    simp [hi]

/-- C19: `lut_perm` lists 16 distinct positions, those of `0 .. 19` other than
8, 9, 18 and 19; the vector depends on `LUT_INIT` through its 16 low bits only;
the truth table modulo `2^16` and the four flags are read back from the vector
(bit `i` at position `lut_perm[i]`), so two vectors are equal only for equal
low bits and flags; and every vector of 20 bits is the vector of some truth
table below `2^16` and flags. -/
theorem lc_vector_lossless :
    (lut_perm.Nodup ∧ lut_perm.length = 16 ∧ (∀ j ∈ lut_perm, j < 20) ∧
      ∀ j, j < 20 → (j ∈ lut_perm ↔ (j ≠ 8 ∧ j ≠ 9 ∧ j ≠ 18 ∧ j ≠ 19))) ∧
    (∀ l c d s a, lcVector l c d s a = lcVector (l % 65536) c d s a) ∧
    (∀ l c d s a, lutOfVector (lcVector l c d s a) = l % 65536 ∧
      (∀ i, i < 16 → (lcVector l c d s a).getD (lut_perm.getD i 0) false = l.testBit i) ∧
      (lcVector l c d s a).getD 8 false = c ∧ (lcVector l c d s a).getD 9 false = d ∧
      (lcVector l c d s a).getD 18 false = s ∧ (lcVector l c d s a).getD 19 false = a) ∧
    (∀ l c d s a l1 c1 d1 s1 a1, lcVector l c d s a = lcVector l1 c1 d1 s1 a1 →
      l % 65536 = l1 % 65536 ∧ c = c1 ∧ d = d1 ∧ s = s1 ∧ a = a1) ∧
    (∀ v : List Bool, v.length = 20 →
      lutOfVector v < 65536 ∧
      lcVector (lutOfVector v) (v.getD 8 false) (v.getD 9 false) (v.getD 18 false)
        (v.getD 19 false) = v) := by
  refine ⟨⟨by decide, by decide, by decide, by decide⟩, ?_, ?_, ?_, ?_⟩
  · intro l c d s a
    apply lcVector_eq_of_bits
    intro i hi
    have h16 : (65536 : Nat) = 2 ^ 16 := by norm_num
    rw [h16, Nat.testBit_mod_two_pow]
    simp [hi]
  · intro l c d s a
    exact ⟨lutOfVector_lcVector l c d s a, fun i hi => lcVector_perm l c d s a i hi,
      lcVector_flags l c d s a⟩
  · intro l c d s a l1 c1 d1 s1 a1 h
    have hl := lutOfVector_lcVector l c d s a
    have hf := lcVector_flags l c d s a
    rw [h, lutOfVector_lcVector] at hl
    rw [h] at hf
    have hf1 := lcVector_flags l1 c1 d1 s1 a1
    exact ⟨hl.symm, hf.1.symm.trans hf1.1, hf.2.1.symm.trans hf1.2.1,
      hf.2.2.1.symm.trans hf1.2.2.1, hf.2.2.2.symm.trans hf1.2.2.2⟩
  · intro v hv
    refine ⟨?_, lcVector_lutOfVector v hv⟩
    have := foldr_bit_lt ((List.range 16).map fun (i : Nat) => v.getD (lut_perm.getD i 0) false)
    simpa [lutOfVector] using this

/-- The vector of 20 ones is the vector of truth table `0xFFFF` with the four
flags set, and truth table `0x18001` gives the same vector as `0x8001`. -/
theorem lc_vector_lossless_witness :
    (lutOfVector (List.replicate 20 true) < 65536 ∧
      lcVector (lutOfVector (List.replicate 20 true)) ((List.replicate 20 true).getD 8 false)
        ((List.replicate 20 true).getD 9 false) ((List.replicate 20 true).getD 18 false)
        ((List.replicate 20 true).getD 19 false) = List.replicate 20 true) ∧
    lcVector 98305 false false false false = lcVector (98305 % 65536) false false false false :=
  ⟨lc_vector_lossless.2.2.2.2 (List.replicate 20 true) (by decide),
   lc_vector_lossless.2.1 98305 false false false false⟩

/-! ## The negative-trigger flag of I/O cells -/

theorem ioParams_variant {a b : CellInfo}
    (hkeys : ∀ key, key ≠ "NEG_TRIGGER" → paramOf a.params key = paramOf b.params key)
    (ha : ∃ va, stoi (paramOf a.params "NEG_TRIGGER") = .ok va)
    (hb : ∃ vb, stoi (paramOf b.params "NEG_TRIGGER") = .ok vb) :
    (∃ e, ioParams a = .error e ∧ ioParams b = .error e) ∨
    (∃ pa pb, ioParams a = .ok pa ∧ ioParams b = .ok pb ∧ pa.pin_type = pb.pin_type ∧
      pa.pullup = pb.pullup) := by
  obtain ⟨va, hva⟩ := ha
  obtain ⟨vb, hvb⟩ := hb
  have h1 := hkeys "PIN_TYPE" (by decide)
  have h2 := hkeys "PULLUP" (by decide)
  unfold ioParams
  rw [← h1, ← h2, hva, hvb]
  cases stoi (paramOf a.params "PIN_TYPE") with
  | error e => exact Or.inl ⟨e, rfl, rfl⟩
  | ok pt =>
    dsimp only
    cases stoi (paramOf a.params "PULLUP") with
    | error e => exact Or.inl ⟨e, rfl, rfl⟩
    | ok pu => exact Or.inr ⟨_, _, rfl, rfl, rfl, rfl⟩

theorem setIOCell_variant {chip : Chip} {a b : CellInfo} (config : Config) (bel : Nat)
    (x y z : Int)
    (hkeys : ∀ key, key ≠ "NEG_TRIGGER" → paramOf a.params key = paramOf b.params key)
    (ha : ∃ va, stoi (paramOf a.params "NEG_TRIGGER") = .ok va)
    (hb : ∃ vb, stoi (paramOf b.params "NEG_TRIGGER") = .ok vb) :
    setIOCell chip config a bel x y z = setIOCell chip config b bel x y z := by
  rcases ioParams_variant hkeys ha hb with ⟨e, h1, h2⟩ | ⟨pa, pb, h1, h2, hpt, hpu⟩
  · unfold setIOCell
    dsimp only
    rw [h1, h2]
  · unfold setIOCell
    dsimp only
    rw [h1, h2]
    dsimp only
    rw [hpt, hpu]

theorem setCells_cons_eq {chip : Chip} (a b : String × CellInfo)
    (l1 l2 : List (String × CellInfo)) (config : Config)
    (hname : a.1 = b.1) (hbel : a.2.bel = b.2.bel)
    (hcell : ∀ bel, setCell chip config a.2 bel = setCell chip config b.2 bel)
    (hrest : ∀ c1, setCells chip c1 l1 = setCells chip c1 l2) :
    setCells chip config (a :: l1) = setCells chip config (b :: l2) := by
  simp only [setCells]
  rw [← hname, ← hbel]
  cases a.2.bel with
  | none =>
    dsimp only
    rw [hrest]
  | some bel =>
    dsimp only
    rw [← hcell bel]
    cases setCell chip config a.2 bel with
    | error e => rfl
    | ok c1 => exact hrest c1

theorem setCells_variant {chip : Chip} :
    ∀ (cells1 cells2 : List (String × CellInfo)), negTriggerVariant cells1 cells2 →
      ∀ (config : Config), setCells chip config cells1 = setCells chip config cells2 := by
  intro cells1
  induction cells1 with
  | nil =>
    intro cells2 h config
    cases h
    rfl
  | cons a l1 ih =>
    intro cells2 h config
    cases cells2 with
    | nil => cases h
    | cons b l2 =>
      obtain ⟨⟨hname, hsame⟩, hrest⟩ := List.forall₂_cons.1 h
      rcases hsame with heq | ⟨hta, htb, hbel, hkeys, hva, hvb⟩
      · exact setCells_cons_eq a b l1 l2 config hname (by rw [heq])
          (fun bel => by rw [heq]) (fun c1 => ih l2 hrest c1)
      · refine setCells_cons_eq a b l1 l2 config hname hbel ?_ (fun c1 => ih l2 hrest c1)
        intro bel
        rw [setCell_of_io_type hta, setCell_of_io_type htb,
          setIOCell_variant config bel _ _ _ hkeys hva hvb]

/-- C20: two designs on the same chip whose cells differ only in the value of
the parameter `NEG_TRIGGER` of `SB_IO` cells, a valid integer on both sides,
have the same final grid and the same run of `write_asc`: output lines, text,
warnings and abort. -/
theorem neg_trigger_ignored (chip : Chip) (cells1 cells2 : List (String × CellInfo))
    (h : negTriggerVariant cells1 cells2) :
    encodeConfig ⟨chip, cells1⟩ = encodeConfig ⟨chip, cells2⟩ ∧
    write_asc ⟨chip, cells1⟩ = write_asc ⟨chip, cells2⟩ ∧
    textOf (write_asc ⟨chip, cells1⟩).out = textOf (write_asc ⟨chip, cells2⟩).out := by
  have hrc : routeAndCells ⟨chip, cells1⟩ = routeAndCells ⟨chip, cells2⟩ := by
    unfold routeAndCells
    dsimp only
    cases setPips chip (initConfig chip) with
    | error e => rfl
    | ok c1 => exact setCells_variant cells1 cells2 h c1
  have henc : encodeConfig ⟨chip, cells1⟩ = encodeConfig ⟨chip, cells2⟩ := by
    unfold encodeConfig
    rw [hrc]
  have hw : write_asc ⟨chip, cells1⟩ = write_asc ⟨chip, cells2⟩ := by
    unfold write_asc
    rw [henc]
  exact ⟨henc, hw, by rw [hw]⟩

/-- The I/O cell of `ioDemoChip` with `NEG_TRIGGER` 0 and with `NEG_TRIGGER` 1:
the two runs of `write_asc` are equal. -/
theorem neg_trigger_ignored_witness :
    encodeConfig ⟨ioDemoChip .HX8K "n" "" "io", [("io", ioDemoCell)]⟩ =
      encodeConfig ⟨ioDemoChip .HX8K "n" "" "io", [("io", ioDemoCellNeg)]⟩ ∧
    write_asc ⟨ioDemoChip .HX8K "n" "" "io", [("io", ioDemoCell)]⟩ =
      write_asc ⟨ioDemoChip .HX8K "n" "" "io", [("io", ioDemoCellNeg)]⟩ ∧
    textOf (write_asc ⟨ioDemoChip .HX8K "n" "" "io", [("io", ioDemoCell)]⟩).out =
      textOf (write_asc ⟨ioDemoChip .HX8K "n" "" "io", [("io", ioDemoCellNeg)]⟩).out :=
  neg_trigger_ignored (ioDemoChip .HX8K "n" "" "io") [("io", ioDemoCell)]
    [("io", ioDemoCellNeg)]
    (List.Forall₂.cons
      ⟨rfl, Or.inr ⟨rfl, rfl, rfl,
        (by
          intro key hkey
          simp only [paramOf, ioDemoCell, ioDemoCellNeg, List.find?_cons]
          by_cases h1 : ("PIN_TYPE" == key) = true
          · simp [h1]
          · by_cases h2 : ("NEG_TRIGGER" == key) = true
            · exact absurd (by simpa using h2 : "NEG_TRIGGER" = key).symm hkey
            · simp [h1, h2]),
        ⟨0, rfl⟩, ⟨1, rfl⟩⟩⟩
      List.Forall₂.nil)

/-! ## Which writes check for a conflict -/

theorem blind_ok {σ ι κ : Type} (shape : σ → κ) (read : σ → ι → Option Bool) :
    Blind shape read (fun s => .ok s) := by
  intro s s2 hs
  refine ⟨fun e h => (by cases h), fun s1 h => ?_⟩
  simp only [Except.ok.injEq] at h
  subst h
  exact ⟨s2, rfl, hs, fun k => Or.inr ⟨rfl, rfl⟩⟩

theorem blind_error {σ ι κ : Type} (shape : σ → κ) (read : σ → ι → Option Bool) (e : Err) :
    Blind shape read (fun _ => .error e) := by
  intro s s2 _
  exact ⟨fun e1 h => h, fun s1 h => (by cases h)⟩

theorem blind_bind {σ ι κ : Type} {shape : σ → κ} {read : σ → ι → Option Bool}
    {f g : σ → Except Err σ} (hf : Blind shape read f) (hg : Blind shape read g) :
    Blind shape read (fun s =>
      match f s with
      | .error e => .error e
      | .ok s1 => g s1) := by
  intro s s2 hs
  obtain ⟨hfe, hfo⟩ := hf s s2 hs
  constructor
  · intro e h
    dsimp only at h ⊢
    cases hfs : f s with
    | error e1 =>
      rw [hfs] at h; dsimp only at h
      rw [hfe e1 hfs]; exact h
    | ok s1 =>
      rw [hfs] at h; dsimp only at h
      obtain ⟨s3, hs3, hsh, _⟩ := hfo s1 hfs
      rw [hs3]; dsimp only
      exact (hg s1 s3 hsh).1 e h
  · intro s4 h
    dsimp only at h ⊢
    cases hfs : f s with
    | error e1 => rw [hfs] at h; cases h
    | ok s1 =>
      rw [hfs] at h; dsimp only at h
      obtain ⟨s3, hs3, hsh, hbits⟩ := hfo s1 hfs
      obtain ⟨s5, hs5, hsh5, hbits5⟩ := (hg s1 s3 hsh).2 s4 h
      refine ⟨s5, ?_, hsh5, ?_⟩
      · rw [hs3]; exact hs5
      · intro k
        rcases hbits5 k with h1 | ⟨h1, h2⟩
        · exact Or.inl h1
        · rcases hbits k with h3 | ⟨h3, h4⟩
          · left; rw [h1, h2, h3]
          · right; exact ⟨h1.trans h3, h2.trans h4⟩

theorem blind_fold {σ ι κ α : Type} {shape : σ → κ} {read : σ → ι → Option Bool}
    {f : σ → α → Except Err σ} (hf : ∀ a, Blind shape read (fun s => f s a)) :
    ∀ as : List α, Blind shape read (fun s => foldExcept f s as) := by
  intro as
  induction as with
  | nil => exact blind_ok shape read
  | cons a as ih =>
    intro s s2 hs
    simp only [foldExcept]
    exact blind_bind (hf a) ih s s2 hs

theorem vecAt_map {α β : Type} (f : α → β) (l : List α) (i : Int) :
    vecAt (l.map f) i = (vecAt l i).map f := by
  unfold vecAt
  split
  · rfl
  · simp [List.getElem?_map]

theorem get2_isSome_of_tileDims {t t2 : TileCfg} (h : tileDims t = tileDims t2) (r c : Int) :
    (get2 t r c).isSome = (get2 t2 r c).isSome := by
  unfold tileDims at h
  have h1 : (vecAt t r).map List.length = (vecAt t2 r).map List.length := by
    rw [← vecAt_map, ← vecAt_map, h]
  unfold get2
  cases ha : vecAt t r with
  | none =>
    rw [ha] at h1
    cases hb : vecAt t2 r with
    | none => rfl
    | some l2 => rw [hb] at h1; cases h1
  | some l =>
    rw [ha] at h1
    cases hb : vecAt t2 r with
    | none => rw [hb] at h1; cases h1
    | some l2 =>
      rw [hb] at h1
      simp only [Option.map_some', Option.some.injEq] at h1
      dsimp only
      rw [Bool.eq_iff_iff, vecAt_isSome_iff, vecAt_isSome_iff, h1]

theorem setBit_ok_isSome {t t1 : TileCfg} {b : ConfigBitPOD} {v : Bool}
    (h : setBit t b v = .ok t1) : (get2 t b.row b.col).isSome = true := by
  unfold setBit at h
  unfold get2
  cases hr : vecAt t b.row with
  | none => rw [hr] at h; cases h
  | some l =>
    rw [hr] at h; dsimp only at h
    cases hc : vecAt l b.col with
    | none => rw [hc] at h; cases h
    | some a => simp [hc]

theorem setBit_blind (b : ConfigBitPOD) (v : Bool) :
    Blind tileDims tileRead (fun t => setBit t b v) := by
  intro t t2 hd
  have hsome := get2_isSome_of_tileDims hd b.row b.col
  constructor
  · intro e h
    dsimp only at h ⊢
    cases h2 : setBit t2 b v with
    | error e2 => rw [setBit_error h, setBit_error h2]
    | ok t3 =>
      exfalso
      have h3 := setBit_ok_isSome h2
      rw [← hsome] at h3
      obtain ⟨a, ha⟩ := Option.isSome_iff_exists.1 h3
      obtain ⟨t1, ht1⟩ := setBit_succeeds v ha
      rw [ht1] at h; cases h
  · intro t1 h
    dsimp only at h ⊢
    have h1 := setBit_ok_isSome h
    rw [hsome] at h1
    obtain ⟨a, ha⟩ := Option.isSome_iff_exists.1 h1
    obtain ⟨t3, ht3⟩ := setBit_succeeds v ha
    obtain ⟨hd1, hg1⟩ := setBit_ok h
    obtain ⟨hd3, hg3⟩ := setBit_ok ht3
    refine ⟨t3, ht3, by rw [hd1, hd3, hd], ?_⟩
    intro k
    unfold tileRead
    rw [hg1, hg3]
    split
    · exact Or.inl rfl
    · exact Or.inr ⟨rfl, rfl⟩

theorem set_config_blind (ti : TileInfoPOD) (name : String) (v : Bool) (index : Int) :
    Blind tileDims tileRead (fun t => set_config ti t name v index) := by
  cases hf : find_config ti name with
  | error e =>
    have heq : (fun t => set_config ti t name v index) = fun _ => .error e := by
      funext t; unfold set_config; rw [hf]
    rw [heq]; exact blind_error _ _ e
  | ok cfg =>
    by_cases hi : index = -1
    · have heq : (fun t => set_config ti t name v index) =
          fun t => foldExcept (fun tc b => setBit tc b v) t cfg.bits := by
        funext t; unfold set_config; rw [hf]; dsimp only; rw [if_pos hi]
      rw [heq]; exact blind_fold (fun b => setBit_blind b v) cfg.bits
    · cases hb : vecAt cfg.bits index with
      | none =>
        have heq : (fun t => set_config ti t name v index) = fun _ => .error .outOfRange := by
          funext t; unfold set_config; rw [hf]; dsimp only; rw [if_neg hi, hb]
        rw [heq]; exact blind_error _ _ _
      | some b =>
        have heq : (fun t => set_config ti t name v index) = fun t => setBit t b v := by
          funext t; unfold set_config; rw [hf]; dsimp only; rw [if_neg hi, hb]
        rw [heq]; exact setBit_blind b v

theorem get2_map_tileDims (c : Config) (y x : Int) :
    get2 (gridDims c) y x = (get2 c y x).map tileDims := by
  unfold get2 gridDims
  rw [vecAt_map]
  cases vecAt c y with
  | none => rfl
  | some r =>
    simp only [Option.map_some']
    exact vecAt_map tileDims r x

theorem withTile_none {c : Config} {y x : Int} {f : TileCfg → Except Err TileCfg}
    (h : get2 c y x = none) : withTile c y x f = .error .outOfRange := by
  unfold get2 at h
  unfold withTile
  cases hr : vecAt c y with
  | none => rfl
  | some r =>
    rw [hr] at h; dsimp only at h ⊢
    rw [h]

theorem withTile_tile_error {c : Config} {y x : Int} {f : TileCfg → Except Err TileCfg}
    {t : TileCfg} {e : Err} (ht : get2 c y x = some t) (hf : f t = .error e) :
    withTile c y x f = .error e := by
  unfold get2 at ht
  unfold withTile
  cases hr : vecAt c y with
  | none => rw [hr] at ht; cases ht
  | some r =>
    rw [hr] at ht; dsimp only at ht ⊢
    rw [ht]; dsimp only
    rw [hf]

theorem withTile_blind {g : TileCfg → Except Err TileCfg} (y x : Int)
    (hg : Blind tileDims tileRead g)
    (hdims : ∀ t t1, g t = .ok t1 → tileDims t1 = tileDims t) :
    Blind gridDims gridRead (fun c => withTile c y x g) := by
  intro c c2 hd
  have hget : (get2 c y x).map tileDims = (get2 c2 y x).map tileDims := by
    rw [← get2_map_tileDims, ← get2_map_tileDims, hd]
  constructor
  · intro e h
    dsimp only at h ⊢
    cases ht : get2 c y x with
    | none =>
      rw [ht] at hget
      have ht2 : get2 c2 y x = none := by
        cases h2 : get2 c2 y x with
        | none => rfl
        | some t2 => rw [h2] at hget; cases hget
      rw [withTile_none ht] at h
      rw [withTile_none ht2]; exact h
    | some t =>
      rw [ht] at hget
      cases ht2 : get2 c2 y x with
      | none => rw [ht2] at hget; cases hget
      | some t2 =>
        rw [ht2] at hget
        simp only [Option.map_some', Option.some.injEq] at hget
        cases hgt : g t with
        | error e1 =>
          rw [withTile_tile_error ht hgt] at h
          rw [withTile_tile_error ht2 ((hg t t2 hget).1 e1 hgt)]; exact h
        | ok t1 =>
          obtain ⟨c1, hc1⟩ := withTile_succeeds ht hgt
          rw [hc1] at h; cases h
  · intro c1 h
    dsimp only at h ⊢
    obtain ⟨t, t1, ht, hgt, hbits, hdim⟩ := withTile_ok h
    rw [ht] at hget
    cases ht2 : get2 c2 y x with
    | none => rw [ht2] at hget; cases hget
    | some t2 =>
      rw [ht2] at hget
      simp only [Option.map_some', Option.some.injEq] at hget
      obtain ⟨t3, hgt3, hd3, hb3⟩ := (hg t t2 hget).2 t1 hgt
      obtain ⟨c3, hc3⟩ := withTile_succeeds ht2 hgt3
      obtain ⟨t4, t5, ht4, hgt5, hbits3, hdim3⟩ := withTile_ok hc3
      have e4 : t4 = t2 := by rw [ht2] at ht4; exact (Option.some.inj ht4).symm
      subst e4
      have e5 : t5 = t3 := by rw [hgt3] at hgt5; exact (Except.ok.inj hgt5).symm
      subst e5
      refine ⟨c3, hc3, ?_, ?_⟩
      · rw [hdim (hdims t t1 hgt), hdim3 (hdims _ _ hgt3), hd]
      · intro k
        obtain ⟨y1, x1, r, col⟩ := k
        unfold gridRead getBit
        dsimp only
        rw [hbits, hbits3]
        by_cases hk : y1 = y ∧ x1 = x
        · rw [if_pos hk, if_pos hk]; dsimp only
          rw [hk.1, hk.2, ht, ht2]; dsimp only
          exact hb3 (r, col)
        · rw [if_neg hk, if_neg hk]
          exact Or.inr ⟨rfl, rfl⟩

theorem withTile_set_config_blind (ti : TileInfoPOD) (y x : Int) (name : String) (v : Bool)
    (index : Int) :
    Blind gridDims gridRead (fun c => withTile c y x (fun t => set_config ti t name v index)) :=
  withTile_blind y x (set_config_blind ti name v index) (fun _ _ h => set_config_dims h)

theorem blind_bind_of_eq {σ ι κ : Type} {shape : σ → κ} {read : σ → ι → Option Bool}
    {f g h : σ → Except Err σ} (hf : Blind shape read f) (hg : Blind shape read g)
    (heq : ∀ s, h s =
      match f s with
      | .error e => .error e
      | .ok s1 => g s1) :
    Blind shape read h := by
  have hfun : h = fun s =>
      match f s with
      | .error e => .error e
      | .ok s1 => g s1 := funext heq
  rw [hfun]
  exact blind_bind hf hg

theorem setIeren_blind (ti : TileInfoPOD) (iex iey iez : Int) (ie ren : Bool) :
    Blind gridDims gridRead (fun c => setIeren ti c iex iey iez ie ren) := by
  refine blind_bind_of_eq
    (withTile_set_config_blind ti iey iex ("IoCtrl.IE_" ++ toString iez) ie (-1))
    (withTile_set_config_blind ti iey iex ("IoCtrl.REN_" ++ toString iez) ren (-1)) ?_
  intro c
  unfold setIeren
  split <;> rename_i heq <;> simp only [heq]

theorem setLCCell_blind (chip : Chip) (cell : CellInfo) (x y z : Int) :
    Blind gridDims gridRead (fun c => setLCCell chip c cell x y z) := by
  cases hp : lcParams cell with
  | error e =>
    have hfun : (fun c => setLCCell chip c cell x y z) = fun _ => .error e := by
      funext c; unfold setLCCell; dsimp only; rw [hp]
    rw [hfun]; exact blind_error _ _ e
  | ok p =>
    refine blind_bind_of_eq
      (f := fun c => setLCBits (chip.chip_info.bits_info.tiles_nonrouting .TILE_LOGIC) c x y z
        (lcVector p.lut_init p.carry_enable p.dff_enable p.set_noreset p.async_sr))
      (blind_fold (fun i => withTile_set_config_blind _ y x _ _ _) (List.range 20))
      (withTile_set_config_blind (chip.chip_info.bits_info.tiles_nonrouting .TILE_LOGIC) y x
        "NegClk" p.neg_clk (-1)) ?_
    intro c
    unfold setLCCell
    dsimp only
    rw [hp]; dsimp only
    split <;> rename_i heq <;> simp only [heq]

theorem setIOCell_blind (chip : Chip) (cell : CellInfo) (bel : Nat) (x y z : Int) :
    Blind gridDims gridRead (fun c => setIOCell chip c cell bel x y z) := by
  cases hp : ioParams cell with
  | error e =>
    have hfun : (fun c => setIOCell chip c cell bel x y z) = fun _ => .error e := by
      funext c; unfold setIOCell; dsimp only; rw [hp]
    rw [hfun]; exact blind_error _ _ e
  | ok p =>
    refine blind_bind_of_eq
      (f := fun c => setPinType (chip.chip_info.bits_info.tiles_nonrouting TileType.TILE_IO) c
        x y z p.pin_type)
      (g := fun c1 =>
        if (get_ieren chip.chip_info.bits_info x y z).2.2 = -1 then .error .missingIeren
        else if is1k chip.args_type then
          setIeren (chip.chip_info.bits_info.tiles_nonrouting TileType.TILE_IO) c1
            (get_ieren chip.chip_info.bits_info x y z).1
            (get_ieren chip.chip_info.bits_info x y z).2.1
            (get_ieren chip.chip_info.bits_info x y z).2.2 (!inputEn chip bel) (!p.pullup)
        else
          setIeren (chip.chip_info.bits_info.tiles_nonrouting TileType.TILE_IO) c1
            (get_ieren chip.chip_info.bits_info x y z).1
            (get_ieren chip.chip_info.bits_info x y z).2.1
            (get_ieren chip.chip_info.bits_info x y z).2.2 (inputEn chip bel) (!p.pullup))
      (blind_fold (fun i => withTile_set_config_blind _ y x _ _ _) (List.range 6)) ?_ ?_
    · by_cases hreg : (get_ieren chip.chip_info.bits_info x y z).2.2 = -1
      · simp only [if_pos hreg]
        exact blind_error _ _ _
      · simp only [if_neg hreg]
        by_cases h1k : is1k chip.args_type = true
        · simp only [if_pos h1k]
          exact setIeren_blind _ _ _ _ _ _
        · simp only [if_neg h1k]
          exact setIeren_blind _ _ _ _ _ _
    · intro c
      unfold setIOCell
      dsimp only
      rw [hp]; dsimp only
      split <;> rename_i heq <;> simp only [heq]

theorem setCell_blind (chip : Chip) (cell : CellInfo) (bel : Nat) :
    Blind gridDims gridRead (fun c => setCell chip c cell bel) := by
  unfold setCell
  dsimp only
  split
  · exact setLCCell_blind chip cell _ _ _
  · split
    · exact setIOCell_blind chip cell bel _ _ _
    · split
      · exact blind_ok _ _
      · exact blind_error _ _ _

theorem withTile_set_config_index_succeeds {ti : TileInfoPOD} {c : Config} {y x : Int}
    {name : String} {cfg : ConfigEntryPOD} (v : Bool) {index : Int} {b : ConfigBitPOD}
    (hfind : find_config ti name = .ok cfg) (hi : index ≠ -1)
    (hb : vecAt cfg.bits index = some b)
    (hr : (getBit c y x b.row b.col).isSome = true) :
    ∃ c1, withTile c y x (fun t => set_config ti t name v index) = .ok c1 ∧
      WritesTo c c1 y x [b] v := by
  have heq : (fun t => set_config ti t name v index) = fun t => setBit t b v := by
    funext t; unfold set_config; rw [hfind]; dsimp only; rw [if_neg hi, hb]
  rw [heq]
  obtain ⟨c1, hc1⟩ := withTile_setBit_succeeds (c := c) (y := y) (x := x) (b := b) v hr
  exact ⟨c1, hc1, withTile_setBit_ok hc1⟩

/-- C6 (as amended): only the routing encoder checks for a conflict.  A write
of a routing edge to a bit that is already true aborts with a bit collision;
an edge bound to a net that lists a bit already true cannot be encoded; a
routing phase that succeeds leaves every bit that was true as it was.  The
encoder of a placed cell (logic-cell slot bits, `NegClk`, pin-type bits,
enable-register bits) does not read the grid: on two grids of the same sizes it
aborts with the same error on both or returns on both, and in the two results
each bit either holds the same value (it was written) or is as it was before
the cell (it was not written).  A single write through `set_config`, to all the
bits of an option of the layout or to one of them by index, whose target lies
inside the tile succeeds and leaves its value there whatever the bit held,
true included. -/
theorem conflict_check_routing_only :
    (∀ (c : Config) (y x : Int) (b : ConfigBitPOD) (v : Bool),
      getBit c y x b.row b.col = some true →
      withTile c y x (fun t => pipSetBit t b v) = .error .bitCollision) ∧
    (∀ (chip : Chip) (c : Config) (pip : Nat) (b : ConfigBitPOD),
      chip.pip_to_net pip ≠ "" →
      b ∈ (chip.chip_info.bits_info.switches (chip.chip_info.pip_data pip).switch_index).cbits →
      getBit c (chip.chip_info.bits_info.switches (chip.chip_info.pip_data pip).switch_index).y
        (chip.chip_info.bits_info.switches (chip.chip_info.pip_data pip).switch_index).x
        b.row b.col = some true →
      ∀ c1, setPip chip c pip ≠ .ok c1) ∧
    (∀ (chip : Chip) (c c1 : Config), setPips chip c = .ok c1 → KeepsTrue c c1) ∧
    (∀ (chip : Chip) (cell : CellInfo) (bel : Nat) (c c2 : Config),
      gridDims c = gridDims c2 →
      (∀ e, setCell chip c cell bel = .error e → setCell chip c2 cell bel = .error e) ∧
      (∀ c1, setCell chip c cell bel = .ok c1 →
        ∃ c3, setCell chip c2 cell bel = .ok c3 ∧ gridDims c1 = gridDims c3 ∧
          ∀ y x r col,
            getBit c1 y x r col = getBit c3 y x r col ∨
            (getBit c1 y x r col = getBit c y x r col ∧
              getBit c3 y x r col = getBit c2 y x r col))) ∧
    (∀ (ti : TileInfoPOD) (c : Config) (y x : Int) (name : String) (v : Bool)
      (cfg : ConfigEntryPOD),
      find_config ti name = .ok cfg →
      (get2 c y x).isSome = true →
      ((∀ b ∈ cfg.bits, (getBit c y x b.row b.col).isSome = true) →
        ∃ c1, withTile c y x (fun t => set_config ti t name v (-1)) = .ok c1 ∧
          ∀ b ∈ cfg.bits, getBit c1 y x b.row b.col = some v) ∧
      (∀ (index : Int) (b : ConfigBitPOD), index ≠ -1 → vecAt cfg.bits index = some b →
        (getBit c y x b.row b.col).isSome = true →
        ∃ c1, withTile c y x (fun t => set_config ti t name v index) = .ok c1 ∧
          getBit c1 y x b.row b.col = some v)) := by
  refine ⟨?_, ?_, ?_, ?_, ?_⟩
  · intro c y x b v h
    rcases pipStep_cases c y x b v with ⟨h1, _⟩ | ⟨_, h2⟩ | ⟨h3, _⟩
    · rw [h1] at h; cases h
    · exact h2
    · rw [h3] at h; cases h
  · intro chip c pip b hbound hb htrue c1 h
    unfold setPip at h
    rw [if_pos (by simpa using hbound)] at h
    exact setPipBits_collides _ _ _ _ _ b hb htrue c1 h
  · intro chip c c1 h
    exact (setPips_list_ok _ _ _ h).2.2
  · intro chip cell bel c c2 hd
    obtain ⟨he, hok⟩ := setCell_blind chip cell bel c c2 hd
    refine ⟨he, ?_⟩
    intro c1 h
    obtain ⟨c3, hc3, hd3, hbits⟩ := hok c1 h
    exact ⟨c3, hc3, hd3, fun y x r col => hbits (y, x, r, col)⟩
  · intro ti c y x name v cfg hfind htile
    constructor
    · intro hr
      obtain ⟨c1, hc1, _, hw⟩ := withTile_set_config_all_succeeds v hfind htile hr
      exact ⟨c1, hc1, fun b hb => (hw.2.1 b hb).2⟩
    · intro index b hi hb hr
      obtain ⟨c1, hc1, hw⟩ := withTile_set_config_index_succeeds v hfind hi hb hr
      exact ⟨c1, hc1, (hw.2.1 b (List.mem_singleton.2 rfl)).2⟩

/-- The logic cell `lcOneDemoCell` on `pipDemoChip` from the grid
`lcSetDemoGrid`, in which bits `(0, 0)`, `(0, 1)` and `(0, 4)` of `LC_0` are
already true: the encoder returns as it does from the zero grid, having
written 0 over the set bits `(0, 0)` and `(0, 1)` and 1 over the set bit
`(0, 4)`. -/
theorem conflict_check_routing_only_witness :
    getBit lcSetDemoGrid 0 0 0 0 = some true ∧
    getBit lcSetDemoGrid 0 0 0 4 = some true ∧
    setCell (pipDemoChip .HX8K 0 0 "" "") lcSetDemoGrid lcOneDemoCell 0 =
      .ok [[[[false, false, false, false, true, false, false, false, false, false,
              false, false, false, false, false, false, false, false, false, false]]]] ∧
    (∃ c3, setCell (pipDemoChip .HX8K 0 0 "" "") (initConfig (pipDemoChip .HX8K 0 0 "" ""))
        lcOneDemoCell 0 = .ok c3 ∧
      gridDims [[[[false, false, false, false, true, false, false, false, false, false,
                   false, false, false, false, false, false, false, false, false, false]]]] =
        gridDims c3 ∧
      ∀ y x r col,
        getBit [[[[false, false, false, false, true, false, false, false, false, false,
                   false, false, false, false, false, false, false, false, false, false]]]]
            y x r col = getBit c3 y x r col ∨
        (getBit [[[[false, false, false, false, true, false, false, false, false, false,
                    false, false, false, false, false, false, false, false, false, false]]]]
            y x r col = getBit lcSetDemoGrid y x r col ∧
          getBit c3 y x r col =
            getBit (initConfig (pipDemoChip .HX8K 0 0 "" "")) y x r col)) :=
  ⟨by decide, by decide, rfl,
    (conflict_check_routing_only.2.2.2.1 (pipDemoChip .HX8K 0 0 "" "") lcOneDemoCell 0
      lcSetDemoGrid (initConfig (pipDemoChip .HX8K 0 0 "" "")) (by decide)).2
      [[[[false, false, false, false, true, false, false, false, false, false,
          false, false, false, false, false, false, false, false, false, false]]]] rfl⟩

/-- C6 (counterexample): on `pipDemoChip`, edge 0 with select code 3 sets bits
`(0, 0)` and `(0, 1)` of tile `(0, 0)`; the logic cell `lcZeroCell` then writes
all 20 bits of `LC_0`, these two included, to 0.  The encode does not abort and
the serialized row is all zeros. -/
theorem cell_rewrites_routing_bit :
    (setPips (pipDemoChip .HX8K 3 0 "a" "") (initConfig (pipDemoChip .HX8K 3 0 "a" ""))).toOption
      = some [[[[true, true, false, false, false, false, false, false, false, false,
                 false, false, false, false, false, false, false, false, false, false]]]] ∧
    (write_asc ⟨pipDemoChip .HX8K 3 0 "a" "", [("lc", lcZeroCell)]⟩).err = none ∧
    (write_asc ⟨pipDemoChip .HX8K 3 0 "a" "", [("lc", lcZeroCell)]⟩).out =
      [".comment from next-pnr", ".device 8k", ".logic_tile 0 0",
       "00000000000000000000", ""] := by
  decide

end Ice40
